import Mathlib

/-!
Reaching-definitions analysis of `src/ScriptAnaly.cc`.

A shallow embedding of the reaching-definitions analyzer: the `ReachingDefs`
class (a `std::map` from definition items to definition points), the
installation of definitions with record-field inference
(`ReachingDefSet::AddRDWithInit`, `ReachingDefSet::CreateRecordRDs`), the
reachability oracle `RD_Decorate::ControlReachesEnd`, the flow-fact stores
(`ReachingDefSet::RDs`, `ReachingDefSet::AddRDs`) and the traversal callbacks
`RD_Decorate::PreStmt`, `PostStmt`, `PreExpr` and `PostExpr` with
`RD_Decorate::CheckLHS`.

Conventions of the embedding:

* a pointer to an AST node (`const BroObj*`) is its address, a natural number;
* a `std::map` is an association list with pairwise distinct keys (`AList`);
  `std::map::insert` leaves the map unchanged when the key is present;
* `printf` output is a list of `Diagnostic` values returned next to the result;
* mutable objects reached through pointers (the `ID` to item map and the field
  children of the items) are passed and returned explicitly as a `DefItems`;
* a callback takes the analyzer object and returns it changed; the traversal
  of the host, which the callbacks start on some subtrees, is an argument.
-/

namespace ScriptAnaly

/-! ## Types of the host: type tags, types, identifiers -/

/-- The type tags the analyzer distinguishes (`TypeTag` of the host). -/
inductive TypeTag
  | TYPE_VOID | TYPE_BOOL | TYPE_INT | TYPE_COUNT | TYPE_STRING | TYPE_ANY
  | TYPE_TABLE | TYPE_VECTOR | TYPE_RECORD | TYPE_LIST | TYPE_FUNC | TYPE_ERROR
deriving DecidableEq, Repr

mutual
/-- Modelled from the spec: the host's `BroType` (`Type.h` is not part of the
sources). A type is a record with its field declarations, or any other type,
of which only the tag is observed. -/
inductive BroType
  | base (tag : TypeTag)
  | record (fields : FieldList)
/-- Modelled from the spec: the field declarations of a `RecordType`, in field
index order; each has a name, a type and the presence of the default
attribute (`FieldName(i)`, `FieldType(i)`, `FieldHasAttr(i, ATTR_DEFAULT)`). -/
inductive FieldList
  | nil
  | cons (name : String) (type : BroType) (has_default : Bool) (rest : FieldList)
end

deriving instance DecidableEq for BroType

/-- The tag of a type: `BroType::Tag()`. -/
def BroType.Tag : BroType → TypeTag
  | .base tag => tag
  | .record _ => .TYPE_RECORD

/-- The field declarations as a list of (name, type, has default). -/
def FieldList.toList : FieldList → List (String × BroType × Bool)
  | .nil => []
  | .cons n t d rest => (n, t, d) :: rest.toList

/-- The declared type of the field called `fn`, if there is one. -/
def FieldList.FieldType : FieldList → String → Option BroType
  | .nil, _ => none
  | .cons n t _ rest, fn => if n = fn then some t else rest.FieldType fn

/-- Modelled from the spec: a resolved identifier of the host (`ID.h` is not
part of the sources), with its name, its type and its scope class. -/
structure ID where
  name : String
  type : BroType
  is_global : Bool
deriving DecidableEq

/-- The address of an AST node or function: a `const BroObj*`. -/
abbrev BroObj := Nat

/-! ## Definition items and definition points -/

/-- Modelled from the spec: a `DefinitionItem` (`DefItem.h` is not part of the
sources) is a root wrapping an identifier, or the field `field_name` of a
parent item. An item is identified by its path, which is what pointer
equality amounts to, since a parent holds at most one child per field name. -/
inductive DefinitionItem
  | root (id : ID)
  | field (parent : DefinitionItem) (field_name : String)
deriving DecidableEq

/-- The type of an item, `DefinitionItem::Type()`: the identifier's type for a
root, the declared type of the field for a field item (a child is always
created with the declared type of its field). -/
def DefinitionItem.Type : DefinitionItem → BroType
  | .root id => id.type
  | .field parent fn =>
    match parent.Type with
    | .record fields => (fields.FieldType fn).getD (.base .TYPE_ERROR)
    | .base _ => .base .TYPE_ERROR

/-- Modelled from the spec: a `DefinitionPoint` (`DefPoint.h` is not part of
the sources) names the site of a definition: none (default constructed), a
function entry, a statement or an expression. -/
inductive DefinitionPoint
  | no_def
  | func (f : BroObj)
  | stmt (s : BroObj)
  | expr (e : BroObj)
deriving DecidableEq, Repr

/-- Two definition points are the same iff they name the same site. -/
def DefinitionPoint.SameAs (a b : DefinitionPoint) : Bool := decide (a = b)

/-! ## `class ReachingDefs` -/

/-- The `ReachingDefsMap`: a `std::map<const DefinitionItem*, DefinitionPoint>`. -/
abbrev ReachingDefsMap := AList (fun _ : DefinitionItem => DefinitionPoint)

/-- A `ReachingDefs` object; its only member is `rd_map`. -/
structure ReachingDefs where
  rd_map : ReachingDefsMap

namespace ReachingDefs

/-- A default constructed `ReachingDefs`: the empty map. -/
def empty : ReachingDefs := ⟨∅⟩

/-- `ReachingDefs::AddRD`: `rd_map.insert(value_type(di, dp))`, which inserts
only when `di` is not yet a key. -/
def AddRD (rd : ReachingDefs) (di : DefinitionItem) (dp : DefinitionPoint) :
    ReachingDefs :=
  if di ∈ rd.rd_map then rd else ⟨rd.rd_map.insert di dp⟩

/-- `ReachingDefs::AddRDs`: `AddRD` for each entry of the argument. -/
def AddRDs (rd : ReachingDefs) (r : ReachingDefs) : ReachingDefs :=
  r.rd_map.entries.foldl (fun acc one_rd => acc.AddRD one_rd.1 one_rd.2) rd

/-- `ReachingDefs::HasDI`. -/
def HasDI (rd : ReachingDefs) (di : DefinitionItem) : Bool :=
  (rd.rd_map.lookup di).isSome

/-- `ReachingDefs::HasPair`. -/
def HasPair (rd : ReachingDefs) (di : DefinitionItem) (dp : DefinitionPoint) :
    Bool :=
  match rd.rd_map.lookup di with
  | some l => l.SameAs dp
  | none => false

/-- `ReachingDefs::Size`. -/
def Size (rd : ReachingDefs) : Nat := rd.rd_map.entries.length

/-- `ReachingDefs::Intersect`. -/
def Intersect (self r : ReachingDefs) : ReachingDefs :=
  self.rd_map.entries.foldl
    (fun res i => if r.HasPair i.1 i.2 then res.AddRD i.1 i.2 else res) empty

/-- `ReachingDefs::Union`. -/
def Union (self r : ReachingDefs) : ReachingDefs :=
  self.rd_map.entries.foldl
    (fun res i => if !r.HasPair i.1 i.2 then res.AddRD i.1 i.2 else res) r

/-- `ReachingDefs::Differ`. -/
def Differ (self r : ReachingDefs) : Bool :=
  if self.Size ≠ r.Size then false
  else (self.Intersect r).Size == self.Size

end ReachingDefs

/-! ## The abstract syntax tree of the host -/

/-- Modelled from the spec: the host's expressions (`Expr.h` is not part of
the sources), by tag, with the operands the analyzer reads. Every node has
its address `obj`; every node but a name carries its type `t` (the type of a
name is the type of its identifier). `EXPR_OTHER` stands for every tag the
analyzer has no case for. -/
inductive Expr
  | EXPR_NAME (obj : BroObj) (id : ID)
  | EXPR_FIELD (obj : BroObj) (op : Expr) (field_name : String) (t : BroType)
  | EXPR_REF (obj : BroObj) (op : Expr) (t : BroType)
  | EXPR_LIST (obj : BroObj) (exprs : List Expr) (t : BroType)
  | EXPR_INDEX (obj : BroObj) (op1 op2 : Expr) (t : BroType)
  | EXPR_ASSIGN (obj : BroObj) (op1 op2 : Expr) (t : BroType)
  | EXPR_ADD_TO (obj : BroObj) (op1 op2 : Expr) (t : BroType)
  | EXPR_HAS_FIELD (obj : BroObj) (op : Expr) (field_name : String) (t : BroType)
  | EXPR_CALL (obj : BroObj) (func : Expr) (args : List Expr) (t : BroType)
  | EXPR_LAMBDA (obj : BroObj) (t : BroType)
  | EXPR_OTHER (obj : BroObj) (ops : List Expr) (t : BroType)

/-- The type of an expression: `Expr::Type()`. -/
def Expr.Type : Expr → BroType
  | .EXPR_NAME _ id => id.type
  | .EXPR_FIELD _ _ _ t => t
  | .EXPR_REF _ _ t => t
  | .EXPR_LIST _ _ t => t
  | .EXPR_INDEX _ _ _ t => t
  | .EXPR_ASSIGN _ _ _ t => t
  | .EXPR_ADD_TO _ _ _ t => t
  | .EXPR_HAS_FIELD _ _ _ t => t
  | .EXPR_CALL _ _ _ t => t
  | .EXPR_LAMBDA _ t => t
  | .EXPR_OTHER _ _ t => t

/-- An `AssignExpr`: the node of an assignment, with its two operands. -/
structure AssignExpr where
  obj : BroObj
  op1 : Expr
  op2 : Expr
  t : BroType

/-- The right-hand side: `AssignExpr::Op2()`. -/
def AssignExpr.Op2 (a : AssignExpr) : Expr := a.op2

mutual
/-- Modelled from the spec: the host's statements (`Stmt.h` is not part of the
sources), by tag, with the children the analyzer reads. `STMT_OTHER` stands
for every tag the analyzer has no case for. -/
inductive Stmt
  | STMT_PRINT (obj : BroObj) (exprs : List Expr)
  | STMT_EVENT (obj : BroObj) (e : Expr)
  | STMT_WHEN (obj : BroObj) (cond : Expr) (body : Stmt)
  | STMT_EXPR (obj : BroObj) (e : Expr)
  | STMT_IF (obj : BroObj) (cond : Expr) (TrueBranch FalseBranch : Stmt)
  | STMT_SWITCH (obj : BroObj) (e : Expr) (Cases : List Case)
  | STMT_FOR (obj : BroObj) (LoopVar : List ID) (ValueVar : Option ID)
      (LoopExpr : Expr) (LoopBody : Stmt)
  | STMT_WHILE (obj : BroObj) (cond : Expr) (Body : Stmt)
  | STMT_LIST (obj : BroObj) (Stmts : List Stmt)
  | STMT_EVENT_BODY_LIST (obj : BroObj) (Stmts : List Stmt)
  | STMT_INIT (obj : BroObj) (Inits : List ID)
  | STMT_NEXT (obj : BroObj)
  | STMT_BREAK (obj : BroObj)
  | STMT_RETURN (obj : BroObj) (e : Option Expr)
  | STMT_FALLTHROUGH (obj : BroObj)
  | STMT_ADD (obj : BroObj) (e : Expr)
  | STMT_DELETE (obj : BroObj) (e : Expr)
  | STMT_OTHER (obj : BroObj)
/-- One case of a switch: its expression cases (a `ListExpr*`, possibly
null), its type cases (an `id_list*`, possibly null) and its body. -/
inductive Case
  | mk (ExprCases : Option (List Expr)) (TypeCases : Option (List ID))
      (Body : Stmt)
end

/-- The body of a case: `Case::Body()`. -/
def Case.Body : Case → Stmt
  | .mk _ _ body => body

/-- The test both switch loops of the analyzer apply to a case: it has no
expression cases and no type cases, which makes it the `default` case. -/
def Case.is_default : Case → Bool
  | .mk ExprCases TypeCases _ =>
    (match ExprCases with
      | none => true
      | some exprs => exprs.length == 0) &&
    (match TypeCases with
      | none => true
      | some ids => ids.length == 0)

/-- What the analyzer writes with `printf`. -/
inductive Diagnostic
  | dead_code (stmt : Stmt)
  | has_no_pre (id : ID) (e : Expr)
  | no_reaching_def (e : Expr)
  | no_ID_reaching_def (id : ID)

/-! ## Definition items in memory, and `class ReachingDefSet` -/

/-- The `ID_to_DI_Map`: a `std::map<const ID*, DefinitionItem*>`. -/
abbrev ID_to_DI_Map := AList (fun _ : ID => DefinitionItem)

/-- The definition items that exist: the map `i2d_map` from identifiers to
their root items, which the two `ReachingDefSet` objects share by reference,
and the field children created so far (each is held by its parent). -/
structure DefItems where
  i2d_map : ID_to_DI_Map
  fields : List DefinitionItem

/-- Modelled from the spec: `DefinitionItem::FindField`, the child of `di`
called `field_name` if it has been created, else null. -/
def DefItems.FindField (m : DefItems) (di : DefinitionItem)
    (field_name : String) : Option DefinitionItem :=
  if DefinitionItem.field di field_name ∈ m.fields
  then some (DefinitionItem.field di field_name) else none

/-- Modelled from the spec: `DefinitionItem::CreateField`, which returns the
child of `di` called `field_name`, creating it when it does not exist yet. -/
def DefItems.CreateField (m : DefItems) (di : DefinitionItem)
    (field_name : String) (_t : BroType) : DefinitionItem × DefItems :=
  match m.FindField di field_name with
  | some child => (child, m)
  | none =>
    (DefinitionItem.field di field_name,
     { m with fields := DefinitionItem.field di field_name :: m.fields })

/-- `ReachingDefSet::GetIDReachingDef`. -/
def GetIDReachingDef (m : DefItems) (id : ID) : DefinitionItem × DefItems :=
  match m.i2d_map.lookup id with
  | none =>
    let new_entry := DefinitionItem.root id
    (new_entry, { m with i2d_map := m.i2d_map.insert id new_entry })
  | some di => (di, m)

/-- `ReachingDefSet::GetConstIDReachingDef(const ID*)`. -/
def GetConstIDReachingDef (m : DefItems) (id : ID) : Option DefinitionItem :=
  m.i2d_map.lookup id

/-- `ReachingDefSet::GetExprReachingDef`. -/
def GetExprReachingDef (m : DefItems) :
    Expr → Option DefinitionItem × DefItems
  | .EXPR_NAME _ id =>
    let r := GetIDReachingDef m id
    (some r.1, r.2)
  | .EXPR_FIELD _ r field _ =>
    let r_def := GetExprReachingDef m r
    match r_def.1 with
    | none => (none, r_def.2)
    | some d => (r_def.2.FindField d field, r_def.2)
  | _ => (none, m)

/-- The expression `rhs_di ? rhs_di->FindField(n_i) : nullptr` of
`CreateRecordRDs`. -/
def rhs_FindField (m : DefItems) (rhs_di : Option DefinitionItem)
    (n_i : String) : Option DefinitionItem :=
  match rhs_di with
  | some r => m.FindField r n_i
  | none => none

/-- The value of the local `field_is_defined` of `CreateRecordRDs` for one
field, from `assume_full`, the child `rhs_di_i` of the right-hand side and the
presence of the default attribute on the field. -/
def field_is_defined (assume_full : Bool) (rhs_di_i : Option DefinitionItem)
    (has_default : Bool) : Bool :=
  if assume_full then true
  else if rhs_di_i.isSome then true
  else if has_default then true
  else false

mutual
/-- `ReachingDefSet::CreateRecordRDs` on an item `di` whose `Type()` is the
first argument after `dp`; the source calls it only on items of record
type. -/
def CreateRecordRDs_type (assume_full : Bool) (dp : DefinitionPoint) :
    BroType → DefinitionItem → Option DefinitionItem →
      DefItems × ReachingDefs → DefItems × ReachingDefs
  | .record rt, di, rhs_di, s =>
    CreateRecordRDs_loop assume_full dp rt di rhs_di s
  | .base _, _, _, s => s
/-- The loop of `ReachingDefSet::CreateRecordRDs` over the remaining fields
of the record type of `di`. -/
def CreateRecordRDs_loop (assume_full : Bool) (dp : DefinitionPoint) :
    FieldList → DefinitionItem → Option DefinitionItem →
      DefItems × ReachingDefs → DefItems × ReachingDefs
  | .nil, _, _, s => s
  | .cons n_i t_i has_default rest, di, rhs_di, s =>
    if field_is_defined assume_full (rhs_FindField s.1 rhs_di n_i)
        has_default = false then
      CreateRecordRDs_loop assume_full dp rest di rhs_di s
    else
      CreateRecordRDs_loop assume_full dp rest di rhs_di
        (if t_i.Tag = TypeTag.TYPE_RECORD then
          CreateRecordRDs_type assume_full dp t_i
            (s.1.CreateField di n_i t_i).1 (rhs_FindField s.1 rhs_di n_i)
            ((s.1.CreateField di n_i t_i).2,
             s.2.AddRD (s.1.CreateField di n_i t_i).1 dp)
         else
          ((s.1.CreateField di n_i t_i).2,
           s.2.AddRD (s.1.CreateField di n_i t_i).1 dp))
end

/-- `ReachingDefSet::CreateRecordRDs`. -/
def CreateRecordRDs (m : DefItems) (rd : ReachingDefs) (di : DefinitionItem)
    (assume_full : Bool) (dp : DefinitionPoint)
    (rhs_di : Option DefinitionItem) : DefItems × ReachingDefs :=
  CreateRecordRDs_type assume_full dp di.Type di rhs_di (m, rd)

/-- `ReachingDefSet::AddRDWithInit(ReachingDefs&, DefinitionItem*, ...)`. -/
def AddRDWithInit (m : DefItems) (rd : ReachingDefs) (di : DefinitionItem)
    (dp : DefinitionPoint) (assume_full : Bool) (init : Option AssignExpr) :
    DefItems × ReachingDefs :=
  let rd1 := rd.AddRD di dp
  if di.Type.Tag ≠ TypeTag.TYPE_RECORD then (m, rd1)
  else
    match init with
    | none => CreateRecordRDs m rd1 di assume_full dp none
    | some a =>
      let rhs := a.Op2
      if rhs.Type.Tag = TypeTag.TYPE_ANY then
        CreateRecordRDs m rd1 di true dp none
      else
        let g := GetExprReachingDef m rhs
        match g.1 with
        | none => CreateRecordRDs g.2 rd1 di true dp none
        | some rhs_di => CreateRecordRDs g.2 rd1 di assume_full dp (some rhs_di)

/-- `ReachingDefSet::AddRDWithInit(ReachingDefs&, const ID*, ...)`. -/
def AddRDWithInit_id (m : DefItems) (rd : ReachingDefs) (id : ID)
    (dp : DefinitionPoint) (assume_full : Bool) (init : Option AssignExpr) :
    DefItems × ReachingDefs :=
  let g := GetIDReachingDef m id
  AddRDWithInit g.2 rd g.1 dp assume_full init

/-! ## Field paths of a record -/

/-- The field names of a record type, in field index order. -/
def FieldList.names : FieldList → List String
  | .nil => []
  | .cons n _ _ rest => n :: rest.names

/-- The field declarations `pre` followed by the field declarations `rt`. -/
def FieldList.append : FieldList → FieldList → FieldList
  | .nil, rt => rt
  | .cons n t d rest, rt => .cons n t d (rest.append rt)

/-- The number of field steps from the root identifier to the item. -/
def DefinitionItem.depth : DefinitionItem → Nat
  | .root _ => 0
  | .field parent _ => parent.depth + 1

/-- Whether `x` is the item `a` or lies below `a` in the tree of items. -/
def DefinitionItem.IsUnder (a : DefinitionItem) : DefinitionItem → Bool
  | .root id => decide (DefinitionItem.root id = a)
  | .field parent fn =>
    decide (DefinitionItem.field parent fn = a) || IsUnder a parent

/-- The field items reachable from `di`: the item of a field of the record
type of `di`, or the item of a field of the record type of a reachable item. -/
inductive ReachableField (di : DefinitionItem) : DefinitionItem → Prop
  | child (fn : String) (rt : FieldList) (t : BroType) :
      di.Type = .record rt → rt.FieldType fn = some t →
      ReachableField di (.field di fn)
  | step (p : DefinitionItem) (fn : String) (rt : FieldList) (t : BroType) :
      ReachableField di p → p.Type = .record rt → rt.FieldType fn = some t →
      ReachableField di (.field p fn)

/-- The state `s` is contained in the state `res`: the field items that exist
in `s` exist in `res`, and the entries of the set of `s` are entries of the set
of `res`. -/
def StateLe (s res : DefItems × ReachingDefs) : Prop :=
  (∀ x, x ∈ s.1.fields → x ∈ res.1.fields) ∧
  (∀ x p, s.2.rd_map.lookup x = some p → res.2.rd_map.lookup x = some p)

/-! ## The reachability oracle -/

mutual
/-- `RD_Decorate::ControlReachesEnd`: the result and the diagnostics printed.
In the `STMT_IF` case the source passes only `is_definite` to the two
recursive calls, so `ignore_break` takes its default, `false`. -/
def ControlReachesEnd : Stmt → Bool → Bool → Bool × List Diagnostic
  | .STMT_NEXT _, _, _ => (false, [])
  | .STMT_RETURN _ _, _, _ => (false, [])
  | .STMT_BREAK _, _, ignore_break => (ignore_break, [])
  | .STMT_IF _ _ TrueBranch FalseBranch, is_definite, _ =>
    let true_reaches := ControlReachesEnd TrueBranch is_definite false
    let false_reaches := ControlReachesEnd FalseBranch is_definite false
    (if is_definite then true_reaches.1 && false_reaches.1
      else true_reaches.1 || false_reaches.1,
     true_reaches.2 ++ false_reaches.2)
  | .STMT_SWITCH _ _ Cases, is_definite, _ =>
    let r := ControlReachesEnd_cases Cases is_definite is_definite false
    (if !is_definite && !r.2.1 then true else r.1, r.2.2)
  | .STMT_LIST _ Stmts, is_definite, ignore_break =>
    ControlReachesEnd_stmts Stmts is_definite ignore_break true
  | .STMT_EVENT_BODY_LIST _ Stmts, is_definite, ignore_break =>
    ControlReachesEnd_stmts Stmts is_definite ignore_break true
  | .STMT_PRINT _ _, _, _ => (true, [])
  | .STMT_EVENT _ _, _, _ => (true, [])
  | .STMT_WHEN _ _ _, _, _ => (true, [])
  | .STMT_EXPR _ _, _, _ => (true, [])
  | .STMT_FOR _ _ _ _ _, _, _ => (true, [])
  | .STMT_WHILE _ _ _, _, _ => (true, [])
  | .STMT_INIT _ _, _, _ => (true, [])
  | .STMT_FALLTHROUGH _, _, _ => (true, [])
  | .STMT_ADD _ _, _, _ => (true, [])
  | .STMT_DELETE _ _, _, _ => (true, [])
  | .STMT_OTHER _, _, _ => (true, [])
/-- The loop of the `STMT_LIST` case over the remaining statements, from the
current value of `reaches_so_far`. -/
def ControlReachesEnd_stmts :
    List Stmt → Bool → Bool → Bool → Bool × List Diagnostic
  | [], _, _, reaches_so_far => (reaches_so_far, [])
  | stmt :: rest, is_definite, ignore_break, reaches_so_far =>
    if !reaches_so_far then (false, [Diagnostic.dead_code stmt])
    else
      let r := ControlReachesEnd stmt is_definite ignore_break
      let r2 := ControlReachesEnd_stmts rest is_definite ignore_break
        (if !r.1 then false else reaches_so_far)
      (r2.1, r.2 ++ r2.2)
/-- The loop of the `STMT_SWITCH` case over the remaining cases, from the
current values of `control_reaches_end` and `default_seen`; it returns their
final values and the diagnostics printed. -/
def ControlReachesEnd_cases :
    List Case → Bool → Bool → Bool → Bool × Bool × List Diagnostic
  | [], _, control_reaches_end, default_seen =>
    (control_reaches_end, default_seen, [])
  | (.mk ExprCases TypeCases Body) :: rest, is_definite, control_reaches_end,
      default_seen =>
    let body_def := ControlReachesEnd Body is_definite true
    let cre1 := if is_definite && !body_def.1 then false else control_reaches_end
    let cre2 := if !is_definite && body_def.1 then true else cre1
    let ds := if (Case.mk ExprCases TypeCases Body).is_default then true
      else default_seen
    let r2 := ControlReachesEnd_cases rest is_definite cre2 ds
    (r2.1, r2.2.1, body_def.2 ++ r2.2.2)
end

/-! ## `class ReachingDefSet`: the reaching defs of each object -/

/-- The `AnalyInfo`: a `std::map<const BroObj*, ReachingDefs>`. -/
abbrev AnalyInfo := AList (fun _ : BroObj => ReachingDefs)

namespace ReachingDefSet

/-- `ReachingDefSet::HasRDs`. -/
def HasRDs (a_i : AnalyInfo) (o : BroObj) : Bool := (a_i.lookup o).isSome

/-- `ReachingDefSet::HasRD(const BroObj*, const DefinitionItem*)`. -/
def HasRD (a_i : AnalyInfo) (o : BroObj) (di : DefinitionItem) : Bool :=
  match a_i.lookup o with
  | none => false
  | some rds => rds.HasDI di

/-- `ReachingDefSet::HasRD(const BroObj*, const ID*)`; when the identifier
has no item the lookup is for the null pointer, which is never a key. -/
def HasRD_id (m : DefItems) (a_i : AnalyInfo) (o : BroObj) (id : ID) : Bool :=
  match GetConstIDReachingDef m id with
  | none => false
  | some di => HasRD a_i o di

/-- `ReachingDefSet::RDs`; `none` is the null pointer. -/
def RDs (a_i : AnalyInfo) (o : Option BroObj) : ReachingDefs :=
  match o with
  | none => ReachingDefs.empty
  | some obj =>
    match a_i.lookup obj with
    | some rd => rd
    | none => ReachingDefs.empty

/-- `ReachingDefSet::MergeRDs`, called when `o` has an entry. -/
def MergeRDs (a_i : AnalyInfo) (o : BroObj) (rd : ReachingDefs) : AnalyInfo :=
  match a_i.lookup o with
  | some curr_rds => a_i.insert o (curr_rds.AddRDs rd)
  | none => a_i

/-- `ReachingDefSet::AddRDs`. -/
def AddRDs (a_i : AnalyInfo) (o : BroObj) (rd : ReachingDefs) : AnalyInfo :=
  if HasRDs a_i o then MergeRDs a_i o rd else a_i.insert o rd

/-- `ReachingDefSet::AddRD(ReachingDefs&, const ID*, DefinitionPoint)`. -/
def AddRD (m : DefItems) (rd : ReachingDefs) (id : ID) (dp : DefinitionPoint) :
    DefItems × ReachingDefs :=
  ((GetIDReachingDef m id).2, rd.AddRD (GetIDReachingDef m id).1 dp)

end ReachingDefSet

/-- `AddRDWithInit(rd, id, dp, true, 0)` for each identifier of a list, in
order: the loops over type-case identifiers and over loop variables. -/
def AddRDWithInit_ids (m : DefItems) (rd : ReachingDefs) (ids : List ID)
    (dp : DefinitionPoint) : DefItems × ReachingDefs :=
  ids.foldl (fun st id => AddRDWithInit_id st.1 st.2 id dp true none) (m, rd)

/-! ## `class RD_Decorate` -/

/-- The codes a traversal callback returns. -/
inductive TraversalCode
  | TC_CONTINUE
  | TC_ABORTSTMT
  | TC_ABORTALL
deriving DecidableEq, Repr

/-- The members of an `RD_Decorate` object: the maps of `pre_defs` and
`post_defs`, `last_obj` (`none` is the null pointer), and the definition items
reached through `i2d_map`; `out` is what has been printed so far. The `trace`
dumps are left out. -/
structure RD_Decorate where
  pre_defs : AnalyInfo
  post_defs : AnalyInfo
  last_obj : Option BroObj
  items : DefItems
  out : List Diagnostic

/-- Modelled from the spec: the traversal of the host, `Stmt::Traverse(cb)`
and `Expr::Traverse(cb)` (`Traverse.h`, `Stmt.cc` and `Expr.cc` are not part
of the sources), as what a traversal of a subtree does to the callback object.
The analyzer ignores the code a traversal returns. -/
structure Traversal where
  stmt : Stmt → RD_Decorate → RD_Decorate
  expr : Expr → RD_Decorate → RD_Decorate

/-- The address of a statement node. -/
def Stmt.obj : Stmt → BroObj
  | .STMT_PRINT obj _ => obj
  | .STMT_EVENT obj _ => obj
  | .STMT_WHEN obj _ _ => obj
  | .STMT_EXPR obj _ => obj
  | .STMT_IF obj _ _ _ => obj
  | .STMT_SWITCH obj _ _ => obj
  | .STMT_FOR obj _ _ _ _ => obj
  | .STMT_WHILE obj _ _ => obj
  | .STMT_LIST obj _ => obj
  | .STMT_EVENT_BODY_LIST obj _ => obj
  | .STMT_INIT obj _ => obj
  | .STMT_NEXT obj => obj
  | .STMT_BREAK obj => obj
  | .STMT_RETURN obj _ => obj
  | .STMT_FALLTHROUGH obj => obj
  | .STMT_ADD obj _ => obj
  | .STMT_DELETE obj _ => obj
  | .STMT_OTHER obj => obj

/-- The address of an expression node. -/
def Expr.obj : Expr → BroObj
  | .EXPR_NAME obj _ => obj
  | .EXPR_FIELD obj _ _ _ => obj
  | .EXPR_REF obj _ _ => obj
  | .EXPR_LIST obj _ _ => obj
  | .EXPR_INDEX obj _ _ _ => obj
  | .EXPR_ASSIGN obj _ _ _ => obj
  | .EXPR_ADD_TO obj _ _ _ => obj
  | .EXPR_HAS_FIELD obj _ _ _ => obj
  | .EXPR_CALL obj _ _ _ => obj
  | .EXPR_LAMBDA obj _ => obj
  | .EXPR_OTHER obj _ _ => obj

namespace RD_Decorate

/-- `RD_Decorate::PreRDs`. -/
def PreRDs (c : RD_Decorate) (o : Option BroObj) : ReachingDefs :=
  ReachingDefSet.RDs c.pre_defs o

/-- `RD_Decorate::PostRDs`. -/
def PostRDs (c : RD_Decorate) (o : Option BroObj) : ReachingDefs :=
  ReachingDefSet.RDs c.post_defs o

/-- `RD_Decorate::PredecessorRDs`. -/
def PredecessorRDs (c : RD_Decorate) : ReachingDefs :=
  if (c.PostRDs c.last_obj).Size > 0 then c.PostRDs c.last_obj
  else c.PreRDs c.last_obj

/-- `RD_Decorate::AddPreRDs`. -/
def AddPreRDs (c : RD_Decorate) (o : BroObj) (rd : ReachingDefs) :
    RD_Decorate :=
  { c with pre_defs := ReachingDefSet.AddRDs c.pre_defs o rd }

/-- `RD_Decorate::AddPostRDs`. -/
def AddPostRDs (c : RD_Decorate) (o : BroObj) (rd : ReachingDefs) :
    RD_Decorate :=
  { c with post_defs := ReachingDefSet.AddRDs c.post_defs o rd }

/-- `RD_Decorate::HasPreRD`. -/
def HasPreRD (c : RD_Decorate) (o : BroObj) (id : ID) : Bool :=
  ReachingDefSet.HasRD_id c.items c.pre_defs o id

/-- Printing one diagnostic. -/
def print (c : RD_Decorate) (d : Diagnostic) : RD_Decorate :=
  { c with out := c.out ++ [d] }

end RD_Decorate

/-- `RD_Decorate::IsAggrTag`. -/
def IsAggrTag (tag : TypeTag) : Bool :=
  tag = TypeTag.TYPE_VECTOR || tag = TypeTag.TYPE_TABLE ||
    tag = TypeTag.TYPE_RECORD

/-- `RD_Decorate::IsAggr`. -/
def IsAggr : Expr → Bool
  | .EXPR_NAME _ id => IsAggrTag id.type.Tag
  | _ => false

/-! ## `RD_Decorate::PreStmt` -/

/-- The first lines of `PreStmt` and of `PreExpr` for the node at address `o`:
the predecessor's reaching defs are added to the pre-defs of the node, and the
node becomes `last_obj`. -/
def Pre_install (o : BroObj) (c : RD_Decorate) : RD_Decorate :=
  { c.AddPreRDs o c.PredecessorRDs with last_obj := some o }

/-- The loop of the `STMT_SWITCH` case of `PreStmt` over the remaining cases;
`rd` is carried from one case to the next. -/
def PreStmt_cases (s_obj : BroObj) :
    List Case → RD_Decorate × ReachingDefs → RD_Decorate × ReachingDefs
  | [], st => st
  | (.mk _ TypeCases Body) :: rest, st =>
    let r : DefItems × ReachingDefs :=
      match TypeCases with
      | some type_ids =>
        AddRDWithInit_ids st.1.items st.2 type_ids (.stmt s_obj)
      | none => (st.1.items, st.2)
    PreStmt_cases s_obj rest
      (({ st.1 with items := r.1 }).AddPreRDs Body.obj r.2, r.2)

/-- `RD_Decorate::PreStmt`. -/
def PreStmt (T : Traversal) (s : Stmt) (c : RD_Decorate) :
    TraversalCode × RD_Decorate :=
  let c1 := Pre_install s.obj c
  let rd := c1.PreRDs (some s.obj)
  match s with
  | .STMT_IF _ _ TrueBranch FalseBranch =>
    (.TC_CONTINUE, (c1.AddPreRDs TrueBranch.obj rd).AddPreRDs FalseBranch.obj rd)
  | .STMT_SWITCH obj _ Cases =>
    (.TC_CONTINUE, (PreStmt_cases obj Cases (c1, rd)).1)
  | .STMT_FOR obj ids val_var e body =>
    let r1 := AddRDWithInit_ids c1.items rd ids (.stmt obj)
    let r2 : DefItems × ReachingDefs :=
      match val_var with
      | some v => AddRDWithInit_id r1.1 r1.2 v (.stmt obj) true none
      | none => r1
    let c2 := (({ c1 with items := r2.1 }).AddPreRDs e.obj r2.2).AddPreRDs
      body.obj r2.2
    match e with
    | .EXPR_NAME _ _ => (.TC_ABORTSTMT, T.stmt body c2)
    | _ => (.TC_CONTINUE, c2)
  | .STMT_RETURN _ e =>
    match e with
    | some e => if IsAggr e then (.TC_ABORTSTMT, c1) else (.TC_CONTINUE, c1)
    | none => (.TC_CONTINUE, c1)
  | .STMT_ADD obj a_e =>
    match a_e with
    | .EXPR_INDEX _ a1 a2 _ =>
      match a1 with
      | .EXPR_NAME _ i1 =>
        if IsAggrTag i1.type.Tag then
          let c2 := T.expr a2 c1
          let r := ReachingDefSet.AddRD c2.items rd i1 (.stmt obj)
          (.TC_ABORTSTMT, ({ c2 with items := r.1 }).AddPostRDs obj r.2)
        else (.TC_CONTINUE, c1)
      | _ => (.TC_CONTINUE, c1)
    | _ => (.TC_CONTINUE, c1)
  | _ => (.TC_CONTINUE, c1)

/-! ## `RD_Decorate::PostStmt` -/

/-- The `STMT_IF` case of `PostStmt`: the value of `post_rds` and what the two
calls of `ControlReachesEnd` print. The source also evaluates
`PostRDs(i).Differ(PreRDs(s))`, with an empty statement as its body. -/
def PostStmt_if (c : RD_Decorate) (TrueBranch FalseBranch : Stmt) :
    ReachingDefs × List Diagnostic :=
  let if_branch_rd := c.PostRDs (some TrueBranch.obj)
  let else_branch_rd := c.PostRDs (some FalseBranch.obj)
  let true_reached := ControlReachesEnd TrueBranch false false
  let false_reached := ControlReachesEnd FalseBranch false false
  (if true_reached.1 && false_reached.1 then
      if_branch_rd.Intersect else_branch_rd
    else if true_reached.1 then if_branch_rd
    else if false_reached.1 then else_branch_rd
    else ReachingDefs.empty,
   true_reached.2 ++ false_reached.2)

/-- The loop of the `STMT_SWITCH` case of `PostStmt` over the remaining cases,
from the current values of `post_rds`, `did_first` and `default_seen`; it
returns the final `post_rds` and `default_seen` and what was printed. The
source never assigns `did_first` in the loop. -/
def PostStmt_cases (c : RD_Decorate) (did_first : Bool) :
    List Case → ReachingDefs × Bool → ReachingDefs × Bool × List Diagnostic
  | [], st => (st.1, st.2, [])
  | (.mk ExprCases TypeCases Body) :: rest, st =>
    let reaches := ControlReachesEnd Body false false
    let post_rds :=
      if reaches.1 then
        if did_first then st.1.Intersect (c.PostRDs (some Body.obj))
        else c.PostRDs (some Body.obj)
      else st.1
    let default_seen :=
      if (Case.mk ExprCases TypeCases Body).is_default then true else st.2
    let r := PostStmt_cases c did_first rest (post_rds, default_seen)
    (r.1, r.2.1, reaches.2 ++ r.2.2)

/-- The `STMT_SWITCH` case of `PostStmt`: the value of `post_rds` and what was
printed. -/
def PostStmt_switch (c : RD_Decorate) (s_obj : BroObj) (Cases : List Case) :
    ReachingDefs × List Diagnostic :=
  let r := PostStmt_cases c false Cases (ReachingDefs.empty, false)
  (if !r.2.1 then r.1.Union (c.PreRDs (some s_obj)) else r.1, r.2.2)

/-- The loop of the `STMT_INIT` case of `PostStmt` over the declared
identifiers: only aggregates get initialized. -/
def PostStmt_inits (s_obj : BroObj) (inits : List ID)
    (st : DefItems × ReachingDefs) : DefItems × ReachingDefs :=
  inits.foldl (fun st id =>
    if !IsAggrTag id.type.Tag then st
    else AddRDWithInit_id st.1 st.2 id (.stmt s_obj) false none) st

/-- The `switch` of `PostStmt`: the value of `post_rds`, the definition items
afterwards, and what was printed. -/
def PostStmt_post_rds (c : RD_Decorate) :
    Stmt → ReachingDefs × DefItems × List Diagnostic
  | .STMT_PRINT obj _ => (c.PreRDs (some obj), c.items, [])
  | .STMT_EVENT obj _ => (c.PreRDs (some obj), c.items, [])
  | .STMT_WHEN obj _ _ => (c.PreRDs (some obj), c.items, [])
  | .STMT_EXPR _ e => (c.PostRDs (some e.obj), c.items, [])
  | .STMT_IF _ _ TrueBranch FalseBranch =>
    ((PostStmt_if c TrueBranch FalseBranch).1, c.items,
     (PostStmt_if c TrueBranch FalseBranch).2)
  | .STMT_SWITCH obj _ Cases =>
    ((PostStmt_switch c obj Cases).1, c.items, (PostStmt_switch c obj Cases).2)
  | .STMT_FOR obj _ _ _ body =>
    ((c.PreRDs (some obj)).Intersect (c.PostRDs (some body.obj)), c.items, [])
  | .STMT_WHILE obj _ body =>
    ((c.PreRDs (some obj)).Intersect (c.PostRDs (some body.obj)), c.items, [])
  | .STMT_LIST obj stmts =>
    let r := ControlReachesEnd (.STMT_LIST obj stmts) false false
    (if r.1 then
        match stmts.getLast? with
        | none => c.PreRDs (some obj)
        | some last => c.PostRDs (some last.obj)
      else ReachingDefs.empty,
     c.items, r.2)
  | .STMT_EVENT_BODY_LIST obj stmts =>
    let r := ControlReachesEnd (.STMT_EVENT_BODY_LIST obj stmts) false false
    (if r.1 then
        match stmts.getLast? with
        | none => c.PreRDs (some obj)
        | some last => c.PostRDs (some last.obj)
      else ReachingDefs.empty,
     c.items, r.2)
  | .STMT_INIT obj inits =>
    let r := PostStmt_inits obj inits (c.items, c.PreRDs (some obj))
    (r.2, r.1, [])
  | _ => (ReachingDefs.empty, c.items, [])

/-- `RD_Decorate::PostStmt`. -/
def PostStmt (s : Stmt) (c : RD_Decorate) : TraversalCode × RD_Decorate :=
  let r := PostStmt_post_rds c s
  (.TC_CONTINUE,
   { ({ c with items := r.2.1, out := c.out ++ r.2.2 }).AddPostRDs s.obj r.1
       with last_obj := some s.obj })

/-! ## `RD_Decorate::CheckLHS`, `RD_Decorate::PreExpr`, `RD_Decorate::PostExpr` -/

/-- The loop of the `EXPR_LIST` case of `CheckLHS` over the remaining
elements: it returns false at the first element that is not a name. -/
def CheckLHS_list (a : AssignExpr) :
    List Expr → DefItems × ReachingDefs → Bool × DefItems × ReachingDefs
  | [], st => (true, st.1, st.2)
  | (.EXPR_NAME _ id) :: rest, st =>
    CheckLHS_list a rest (AddRDWithInit_id st.1 st.2 id (.expr a.obj) true none)
  | _ :: _, st => (false, st.1, st.2)

/-- `RD_Decorate::CheckLHS`: the result, the callback object and `rd`
afterwards. -/
def CheckLHS (T : Traversal) (a : AssignExpr) :
    Expr → RD_Decorate × ReachingDefs → Bool × RD_Decorate × ReachingDefs
  | .EXPR_REF _ op _, st => CheckLHS T a op st
  | .EXPR_NAME _ id, st =>
    let r := AddRDWithInit_id st.1.items st.2 id (.expr a.obj) false (some a)
    (true, { st.1 with items := r.1 }, r.2)
  | .EXPR_LIST _ exprs _, st =>
    let r := CheckLHS_list a exprs (st.1.items, st.2)
    (r.1, { st.1 with items := r.2.1 }, r.2.2)
  | .EXPR_FIELD _ r fn ft, st =>
    match r with
    | .EXPR_NAME _ _ | .EXPR_FIELD _ _ _ _ =>
      let c1 := T.expr r st.1
      let g := GetExprReachingDef c1.items r
      match g.1 with
      | none => (true, { c1 with items := g.2 }, st.2)
      | some r_def =>
        let cf : DefinitionItem × DefItems :=
          match g.2.FindField r_def fn with
          | some field_rd => (field_rd, g.2)
          | none => g.2.CreateField r_def fn ft
        let r2 := AddRDWithInit cf.2 st.2 cf.1 (.expr a.obj) false (some a)
        (true, { c1 with items := r2.1 }, r2.2)
    | _ => (false, st.1, st.2)
  | .EXPR_INDEX _ aggr index _, st =>
    match aggr with
    | .EXPR_NAME _ id =>
      let r := ReachingDefSet.AddRD st.1.items st.2 id (.expr a.obj)
      (true, T.expr index { st.1 with items := r.1 }, r.2)
    | _ => (false, st.1, st.2)
  | _, st => (false, st.1, st.2)

/-- The `EXPR_NAME` case of `PreExpr`, after the first lines. -/
def PreExpr_name (e : Expr) (obj : BroObj) (id : ID) (rd : ReachingDefs)
    (c : RD_Decorate) : RD_Decorate :=
  let g : RD_Decorate × ReachingDefs :=
    if id.is_global then
      let r := AddRDWithInit_id c.items rd id (.expr obj) true none
      (({ c with items := r.1 }).AddPreRDs obj r.2, r.2)
    else (c, rd)
  let c2 := if !g.1.HasPreRD obj id then g.1.print (.has_no_pre id e) else g.1
  if id.type.Tag = TypeTag.TYPE_RECORD then
    let r := CreateRecordRDs (GetIDReachingDef c2.items id).2 g.2
      (GetIDReachingDef c2.items id).1 false (.expr obj) none
    ({ c2 with items := r.1 }).AddPostRDs obj r.2
  else c2

/-- The `EXPR_FIELD` case of `PreExpr` when the operand `r` is a name or a
field access, after the first lines. -/
def PreExpr_field (T : Traversal) (e r : Expr) (fn : String)
    (c : RD_Decorate) : RD_Decorate :=
  let c1 := T.expr r c
  let g := GetExprReachingDef c1.items r
  let c2 := { c1 with items := g.2 }
  match g.1 with
  | some r_def =>
    match c2.items.FindField r_def fn with
    | some _ => c2
    | none => c2.print (.no_reaching_def e)
  | none => c2

/-- The loop of the `EXPR_CALL` case of `PreExpr` over the arguments. -/
def PreExpr_args (T : Traversal) (c_obj : BroObj) :
    List Expr → RD_Decorate × ReachingDefs → RD_Decorate × ReachingDefs
  | [], st => st
  | expr :: rest, st =>
    match expr with
    | .EXPR_NAME _ id =>
      if IsAggrTag id.type.Tag then
        let r := ReachingDefSet.AddRD st.1.items st.2 id (.expr c_obj)
        PreExpr_args T c_obj rest ({ st.1 with items := r.1 }, r.2)
      else PreExpr_args T c_obj rest (T.expr expr st.1, st.2)
    | _ => PreExpr_args T c_obj rest (T.expr expr st.1, st.2)

/-- `RD_Decorate::PreExpr`. -/
def PreExpr (T : Traversal) (e : Expr) (c : RD_Decorate) :
    TraversalCode × RD_Decorate :=
  let rd := c.PredecessorRDs
  let c1 := Pre_install e.obj c
  let dflt : TraversalCode × RD_Decorate :=
    (.TC_CONTINUE, c1.AddPostRDs e.obj (c1.PreRDs (some e.obj)))
  match e with
  | .EXPR_NAME obj id =>
    let c2 := PreExpr_name e obj id rd c1
    (.TC_CONTINUE, c2.AddPostRDs obj (c2.PreRDs (some obj)))
  | .EXPR_ADD_TO obj lhs op2 _ =>
    match lhs with
    | .EXPR_NAME _ lhs_id =>
      if IsAggrTag lhs_id.type.Tag then
        let r := ReachingDefSet.AddRD c1.items rd lhs_id (.expr obj)
        let c2 := { c1 with items := r.1 }
        let c3 := (c2.AddPostRDs obj (c2.PreRDs (some obj))).AddPostRDs obj r.2
        (.TC_ABORTSTMT, T.expr op2 c3)
      else dflt
    | _ => dflt
  | .EXPR_ASSIGN obj lhs rhs t =>
    let r := CheckLHS T ⟨obj, lhs, rhs, t⟩ lhs (c1, rd)
    if r.1 then
      let c2 := (r.2.1.AddPostRDs obj (r.2.1.PreRDs (some obj))).AddPostRDs
        obj r.2.2
      (.TC_ABORTSTMT, if !IsAggr rhs then T.expr rhs c2 else c2)
    else if IsAggr rhs then (.TC_ABORTSTMT, T.expr lhs r.2.1)
    else
      (.TC_CONTINUE, r.2.1.AddPostRDs obj (r.2.1.PreRDs (some obj)))
  | .EXPR_FIELD _ r fn _ =>
    match r with
    | .EXPR_NAME _ _ | .EXPR_FIELD _ _ _ _ =>
      (.TC_ABORTSTMT, PreExpr_field T e r fn c1)
    | _ => dflt
  | .EXPR_HAS_FIELD obj r fn _ =>
    match r with
    | .EXPR_NAME _ id =>
      let g := GetIDReachingDef c1.items id
      let c2 := { c1 with items := g.2 }
      match g.2.FindField g.1 fn with
      | some _ => (.TC_CONTINUE, c2.AddPostRDs obj (c2.PreRDs (some obj)))
      | none =>
        let ft : BroType :=
          match id.type with
          | .record id_rt => (id_rt.FieldType fn).getD (.base .TYPE_ERROR)
          | .base _ => .base .TYPE_ERROR
        let cf := g.2.CreateField g.1 fn ft
        let c3 := ({ c1 with items := cf.2 }).AddPostRDs obj
          (rd.AddRD cf.1 (.expr obj))
        (.TC_CONTINUE, c3.AddPostRDs obj (c3.PreRDs (some obj)))
    | _ => dflt
  | .EXPR_CALL obj f args _ =>
    let c2 := T.expr f c1
    let r := PreExpr_args T obj args (c2, rd)
    (.TC_ABORTSTMT,
     (r.1.AddPostRDs obj (r.1.PreRDs (some obj))).AddPostRDs obj r.2)
  | .EXPR_LAMBDA obj _ =>
    (.TC_ABORTSTMT, c1.AddPostRDs obj (c1.PreRDs (some obj)))
  | _ => dflt

/-- `RD_Decorate::PostExpr`. -/
def PostExpr (e : Expr) (c : RD_Decorate) : TraversalCode × RD_Decorate :=
  (.TC_CONTINUE, c.AddPostRDs e.obj (c.PreRDs (some e.obj)))

/-! ## The shapes of an assignment target -/

/-- Whether the expression is a name. -/
def Expr.IsName : Expr → Bool
  | .EXPR_NAME _ _ => true
  | _ => false

/-- Whether the expression is a field access. -/
def Expr.IsField : Expr → Bool
  | .EXPR_FIELD _ _ _ _ => true
  | _ => false

/-- Whether the expression is a list expression. -/
def Expr.IsList : Expr → Bool
  | .EXPR_LIST _ _ _ => true
  | _ => false

/-- The expression after unwrapping any number of reference wrappers. -/
def Expr.unref : Expr → Expr
  | .EXPR_REF _ op _ => op.unref
  | e => e

/-- The targets that the handler recognizes, as the specification words them:
after unwrapping the reference wrappers, a name; a list expression all of
whose elements are names; a field access whose operand is a name or a field
access; an index expression whose aggregate operand is a name. -/
def lhs_recognized : Expr → Bool
  | .EXPR_REF _ op _ => lhs_recognized op
  | .EXPR_NAME _ _ => true
  | .EXPR_LIST _ exprs _ => exprs.all Expr.IsName
  | .EXPR_FIELD _ r _ _ => r.IsName || r.IsField
  | .EXPR_INDEX _ aggr _ _ => aggr.IsName
  | _ => false

/-- The identifiers of the names that precede the first element of the list
that is not a name. -/
def leading_names : List Expr → List ID
  | (.EXPR_NAME _ id) :: rest => id :: leading_names rest
  | _ => []

/-! ## Concrete inputs used by the examples -/

/-- A local identifier `x` of type `count`. -/
def ex_x : ID := ⟨"x", .base .TYPE_COUNT, false⟩

/-- A local identifier `y` of type `count`. -/
def ex_y : ID := ⟨"y", .base .TYPE_COUNT, false⟩

/-- The set holding the single pair (`x`, statement 1). -/
def ex_rd1 : ReachingDefs :=
  ReachingDefs.empty.AddRD (.root ex_x) (.stmt 1)

/-- The set holding the single pair (`x`, statement 2). -/
def ex_rd2 : ReachingDefs :=
  ReachingDefs.empty.AddRD (.root ex_x) (.stmt 2)

/-- The expression `x`, at address 100. -/
def ex_name_x : Expr := .EXPR_NAME 100 ex_x

/-- A constant of type `count`, at address 101. -/
def ex_const : Expr := .EXPR_OTHER 101 [] (.base .TYPE_COUNT)

/-- The statement `if ( x ) break; else break;`. -/
def ex_if_break : Stmt :=
  .STMT_IF 10 ex_name_x (.STMT_BREAK 11) (.STMT_BREAK 12)

/-- The single case `case 1: print;`. -/
def ex_cases_no_default : List Case :=
  [Case.mk (some [ex_const]) none (.STMT_PRINT 21 [])]

/-- The statement `switch ( x ) { case 1: print; }`, which has no `default`. -/
def ex_switch_no_default : Stmt :=
  .STMT_SWITCH 20 ex_name_x ex_cases_no_default

/-- The statement list `return; print;`. -/
def ex_return_print : List Stmt :=
  [.STMT_RETURN 31 none, .STMT_PRINT 32 []]

/-- The statement list `print; next; print; print;`. -/
def ex_print_next_print : List Stmt :=
  [.STMT_PRINT 41 [], .STMT_NEXT 42, .STMT_PRINT 43 [], .STMT_PRINT 44 []]

/-- The item map and field children before anything was created. -/
def ex_no_items : DefItems := ⟨∅, []⟩

/-- A record type with the fields `a: count` and `b: count &default`. -/
def ex_rec_type : BroType :=
  .record (.cons "a" (.base .TYPE_COUNT) false
    (.cons "b" (.base .TYPE_COUNT) true .nil))

/-- A local identifier `r` of the record type `ex_rec_type`. -/
def ex_r : ID := ⟨"r", ex_rec_type, false⟩

/-- A record type with a field `in` of the record type `ex_rec_type` and a
field `c: count`. -/
def ex_nested_type : BroType :=
  .record (.cons "in" ex_rec_type false
    (.cons "c" (.base .TYPE_COUNT) false .nil))

/-- A local identifier `q` of the record type `ex_nested_type`. -/
def ex_q : ID := ⟨"q", ex_nested_type, false⟩

/-- The set holding the pairs (`x`, statement 1) and (`y`, statement 2). -/
def ex_rd_xy : ReachingDefs :=
  (ReachingDefs.empty.AddRD (.root ex_x) (.stmt 1)).AddRD (.root ex_y) (.stmt 2)

/-- An analyzer object with no facts, no items and no output. -/
def ex_state_empty : RD_Decorate := ⟨∅, ∅, none, ex_no_items, []⟩

/-- The statement `if ( x ) print; else print;`, at address 50, with its
branches at 51 and 52. -/
def ex_if_print_print : Stmt :=
  .STMT_IF 50 ex_name_x (.STMT_PRINT 51 []) (.STMT_PRINT 52 [])

/-- The statement `if ( x ) print; else return;`, at address 50, with its
branches at 51 and 52. -/
def ex_if_print_return : Stmt :=
  .STMT_IF 50 ex_name_x (.STMT_PRINT 51 []) (.STMT_RETURN 52 none)

/-- An analyzer object in which the post-defs of the object at 51 define `x`
and `y` and the post-defs of the object at 52 define `x`. -/
def ex_state_if : RD_Decorate :=
  { ex_state_empty with
    post_defs := ReachingDefSet.AddRDs
      (ReachingDefSet.AddRDs ∅ 51 ex_rd_xy) 52 ex_rd1 }

/-- An analyzer object in which the pre-defs of the object at 60 define `x`
and the post-defs of the object at 61 define `x` and `y`. -/
def ex_state_loop : RD_Decorate :=
  { ex_state_empty with
    pre_defs := ReachingDefSet.AddRDs ∅ 60 ex_rd1
    post_defs := ReachingDefSet.AddRDs ∅ 61 ex_rd_xy }

/-- An analyzer object in which the pre-defs of the object at 20 define `x`
at statement 1, the object at 20 has no post-defs, and the post-defs of the
object at 21 define `x` at statement 2. -/
def ex_state_switch_fresh : RD_Decorate :=
  { ex_state_empty with
    pre_defs := ReachingDefSet.AddRDs ∅ 20 ex_rd1
    post_defs := ReachingDefSet.AddRDs ∅ 21 ex_rd2 }

/-- An analyzer object in which the pre-defs of the object at 20 define `x`
at statement 1 and its post-defs define `x` at statement 2. -/
def ex_state_switch_old : RD_Decorate :=
  { ex_state_empty with
    pre_defs := ReachingDefSet.AddRDs ∅ 20 ex_rd1
    post_defs := ReachingDefSet.AddRDs ∅ 20 ex_rd2 }

/-- The cases `case 1: print;` (body at 81) and `default: print;` (body at
82). -/
def ex_cases_default : List Case :=
  [Case.mk (some [ex_const]) none (.STMT_PRINT 81 []),
   Case.mk none none (.STMT_PRINT 82 [])]

/-- The statement `switch ( x ) { case 1: print; default: print; }`, at
address 80. -/
def ex_switch_default : Stmt := .STMT_SWITCH 80 ex_name_x ex_cases_default

/-- An analyzer object in which the post-defs of the object at 81 are empty
and the post-defs of the object at 82 define `x`. -/
def ex_state_switch_cases : RD_Decorate :=
  { ex_state_empty with
    post_defs := ReachingDefSet.AddRDs
      (ReachingDefSet.AddRDs ∅ 81 ReachingDefs.empty) 82 ex_rd1 }

/-- A traversal that visits nothing, for the examples in which the callbacks
do not start a traversal of their own. -/
def ex_no_traversal : Traversal := ⟨fun _ c => c, fun _ c => c⟩

/-- The statement `switch ( 1 ) { case type count as y: print; }`, at address
70, with the body of its case at 71. -/
def ex_switch_type : Stmt :=
  .STMT_SWITCH 70 ex_const [Case.mk none (some [ex_y]) (.STMT_PRINT 71 [])]

/-- The analyzer object when the traversal of `ex_switch_type` reaches the
body of the case: after `PreStmt` of the switch and the pre- and post-visit of
the switch expression. -/
def ex_state_at_case_body : RD_Decorate :=
  (PostExpr ex_const
    (PreExpr ex_no_traversal ex_const
      (PreStmt ex_no_traversal ex_switch_type ex_state_empty).2).2).2

/-- The pre-defs that `PreStmt` of `ex_switch_type` seeds the case body
with: the pair (`y`, the switch). -/
def ex_seeded_case_body : ReachingDefs :=
  ReachingDefs.empty.AddRD (.root ex_y) (.stmt 70)

/-- A local identifier `t` of a table type. -/
def ex_t : ID := ⟨"t", .base .TYPE_TABLE, false⟩

/-- The statement `local t;`, at address 91. -/
def ex_init_t : Stmt := .STMT_INIT 91 [ex_t]

/-- The statement `if ( 1 ) local t; else print;`, at address 90, with its
branches at 91 and 92. -/
def ex_if_init : Stmt := .STMT_IF 90 ex_const ex_init_t (.STMT_PRINT 92 [])

/-- The analyzer object when the traversal of `ex_if_init` enters the false
branch: after `PreStmt` of the `if`, the pre- and post-visit of the condition
and the pre- and post-visit of the true branch. -/
def ex_state_at_else : RD_Decorate :=
  (PostStmt ex_init_t
    (PreStmt ex_no_traversal ex_init_t
      (PostExpr ex_const
        (PreExpr ex_no_traversal ex_const
          (PreStmt ex_no_traversal ex_if_init ex_state_empty).2).2).2).2).2

/-- The analyzer object after the visit of `local t;` from an analyzer with
no facts: after `PreStmt` and `PostStmt` of the statement. -/
def ex_state_after_init : RD_Decorate :=
  (PostStmt ex_init_t (PreStmt ex_no_traversal ex_init_t ex_state_empty).2).2

/-- Modelled from the spec: the traversal of an expression that has no
sub-expressions, a pre-visit followed by a post-visit. -/
def ex_traverse_leaf : Traversal :=
  ⟨fun _ c => c, fun e c => (PostExpr e (PreExpr ex_no_traversal e c).2).2⟩

/-- The expression `r`, at address 110. -/
def ex_r_name : Expr := .EXPR_NAME 110 ex_r

/-- The expression `r$a`, at address 111. -/
def ex_field_a : Expr := .EXPR_FIELD 111 ex_r_name "a" (.base .TYPE_COUNT)

/-- An analyzer object with no facts in which the item of `r` and its child
`r$a` exist. -/
def ex_state_field : RD_Decorate :=
  { ex_state_empty with
    items := ⟨AList.insert ex_r (.root ex_r) ∅, [.field (.root ex_r) "a"]⟩ }

/-- A global identifier `g` of the record type `ex_rec_type`. -/
def ex_g : ID := ⟨"g", ex_rec_type, true⟩

/-- The list expression `[x, 1]`, at address 130. -/
def ex_list_x_const : Expr :=
  .EXPR_LIST 130 [ex_name_x, ex_const] (.base .TYPE_LIST)

/-- The assignment `[x, 1] = 1`, at address 131. -/
def ex_assign_list : AssignExpr :=
  ⟨131, ex_list_x_const, ex_const, .base .TYPE_COUNT⟩

/-! ## Lemmas on `ReachingDefs` -/

namespace ReachingDefs

theorem HasPair_iff (rd : ReachingDefs) (d : DefinitionItem)
    (p : DefinitionPoint) :
    rd.HasPair d p = true ↔ rd.rd_map.lookup d = some p := by
  unfold HasPair DefinitionPoint.SameAs
  cases h : rd.rd_map.lookup d with
  | none => simp
  | some l => simp

theorem HasDI_iff (rd : ReachingDefs) (d : DefinitionItem) :
    rd.HasDI d = true ↔ ∃ p, rd.HasPair d p = true := by
  simp only [HasPair_iff]
  unfold HasDI
  cases h : rd.rd_map.lookup d with
  | none => simp
  | some l => simp

theorem lookup_AddRD (rd : ReachingDefs) (di d : DefinitionItem)
    (dp : DefinitionPoint) :
    (rd.AddRD di dp).rd_map.lookup d =
      (rd.rd_map.lookup d).or (if d = di then some dp else none) := by
  unfold AddRD
  by_cases hmem : di ∈ rd.rd_map
  · rw [if_pos hmem]
    cases h : rd.rd_map.lookup d with
    | some l => simp
    | none =>
      have hd : d ∉ rd.rd_map := AList.lookup_eq_none.mp h
      have hne : d ≠ di := fun e => hd (e ▸ hmem)
      simp [hne]
  · rw [if_neg hmem]
    by_cases hd : d = di
    · subst hd
      have h : rd.rd_map.lookup d = none := AList.lookup_eq_none.mpr hmem
      simp [h, AList.lookup_insert]
    · rw [AList.lookup_insert_ne hd]
      simp [hd]

theorem lookup_foldl_AddRD (P : DefinitionItem → DefinitionPoint → Bool)
    (l : List (Sigma (fun _ : DefinitionItem => DefinitionPoint)))
    (acc : ReachingDefs) (d : DefinitionItem) :
    (l.foldl (fun res i => if P i.1 i.2 then res.AddRD i.1 i.2 else res)
        acc).rd_map.lookup d =
      (acc.rd_map.lookup d).or
        (List.dlookup d (l.filter (fun i => P i.1 i.2))) := by
  induction l generalizing acc with
  | nil => simp
  | cons e l ih =>
    rw [List.foldl_cons, ih]
    obtain ⟨k, v⟩ := e
    by_cases hP : P k v = true
    · simp only [hP, if_true, List.filter_cons_of_pos, lookup_AddRD]
      by_cases hk : d = k
      · subst hk
        cases h : acc.rd_map.lookup d <;> simp [List.dlookup_cons_eq]
      · have hk2 : d ≠ (⟨k, v⟩ : Sigma (fun _ : DefinitionItem => DefinitionPoint)).1 := hk
        rw [List.dlookup_cons_ne _ _ hk2]
        simp [hk]
    · simp [hP]

end ReachingDefs

/-! ## Set operations of `ReachingDefs` -/

/-- C1: `a.Intersect(b)` has the pair (d, p) if and only if both `a` and `b`
have the pair (d, p), with the same item and the same definition point. -/
theorem Intersect_HasPair (a b : ReachingDefs) (d : DefinitionItem)
    (p : DefinitionPoint) :
    (a.Intersect b).HasPair d p = true ↔
      (a.HasPair d p = true ∧ b.HasPair d p = true) := by
  have hnd : (a.rd_map.entries.filter (fun i => b.HasPair i.1 i.2)).NodupKeys :=
    List.NodupKeys.sublist (List.filter_sublist _) a.rd_map.nodupKeys
  rw [ReachingDefs.HasPair_iff, ReachingDefs.HasPair_iff a]
  unfold ReachingDefs.Intersect
  rw [ReachingDefs.lookup_foldl_AddRD (fun k v => b.HasPair k v)]
  have h0 : ReachingDefs.empty.rd_map.lookup d = none := AList.lookup_empty d
  rw [h0, Option.none_or]
  rw [← Option.mem_def, List.mem_dlookup_iff hnd, List.mem_filter,
    ← Option.mem_def, AList.mem_lookup_iff]

/-- The lookup in `a.Union(b)`: the entry of `b` when it has one, else the
entry of `a`. -/
theorem Union_lookup (a b : ReachingDefs) (d : DefinitionItem) :
    (a.Union b).rd_map.lookup d =
      (b.rd_map.lookup d).or (a.rd_map.lookup d) := by
  unfold ReachingDefs.Union
  rw [ReachingDefs.lookup_foldl_AddRD (fun k v => !b.HasPair k v)]
  cases hb : b.rd_map.lookup d with
  | some q => simp
  | none =>
    simp only [Option.none_or]
    have key : ∀ l : List (Sigma (fun _ : DefinitionItem => DefinitionPoint)),
        List.dlookup d (l.filter (fun i => !b.HasPair i.1 i.2)) =
          List.dlookup d l := by
      intro l
      induction l with
      | nil => rfl
      | cons e l ih =>
        obtain ⟨k, v⟩ := e
        by_cases hk : d = k
        · subst hk
          have hf : b.HasPair d v = false := by
            unfold ReachingDefs.HasPair
            rw [hb]
          simp [hf, List.dlookup_cons_eq]
        · have hk2 : d ≠ (⟨k, v⟩ : Sigma (fun _ : DefinitionItem => DefinitionPoint)).1 := hk
          by_cases hf : b.HasPair k v = true
          · simp only [hf, Bool.not_true, Bool.false_eq_true, not_false_eq_true,
              List.filter_cons_of_neg]
            rw [List.dlookup_cons_ne _ _ hk2, ih]
          · simp only [Bool.not_eq_true] at hf
            simp only [hf, Bool.not_false, List.filter_cons_of_pos]
            rw [List.dlookup_cons_ne _ _ hk2, List.dlookup_cons_ne _ _ hk2, ih]
    rw [key]
    rfl

/-- C2, as amended: when `a` maps `d` to `p` and `b` maps `d` to a different
point `q`, `a.Union(b)` maps `d` to `q`, the point of the argument `b`, and
does not have the pair (d, p) of the receiver. -/
theorem Union_conflict_keeps_argument (a b : ReachingDefs)
    (d : DefinitionItem) (p q : DefinitionPoint)
    (_ha : a.HasPair d p = true) (hb : b.HasPair d q = true) (hpq : p ≠ q) :
    (a.Union b).HasPair d q = true ∧ (a.Union b).HasPair d p = false := by
  have hq : (a.Union b).rd_map.lookup d = some q := by
    rw [Union_lookup, (ReachingDefs.HasPair_iff b d q).mp hb]
    rfl
  refine ⟨(ReachingDefs.HasPair_iff _ d q).mpr hq, ?_⟩
  cases h : (a.Union b).HasPair d p with
  | false => rfl
  | true =>
    have hp := (ReachingDefs.HasPair_iff _ d p).mp h
    rw [hq] at hp
    exact absurd (Option.some.inj hp).symm hpq

/-- C2, an instance of the amended statement: `x` defined at statement 1 in
the receiver and at statement 2 in the argument. -/
theorem Union_conflict_keeps_argument_witness :
    (ex_rd1.Union ex_rd2).HasPair (.root ex_x) (.stmt 2) = true ∧
      (ex_rd1.Union ex_rd2).HasPair (.root ex_x) (.stmt 1) = false :=
  Union_conflict_keeps_argument ex_rd1 ex_rd2 (.root ex_x) (.stmt 1) (.stmt 2)
    (by decide) (by decide) (by decide)

/-- C2, the claim as stated fails: the receiver maps `x` to statement 1, the
argument maps `x` to statement 2, and the union does not map `x` to
statement 1. -/
theorem Union_conflict_counterexample :
    ex_rd1.HasPair (.root ex_x) (.stmt 1) = true ∧
    ex_rd2.HasPair (.root ex_x) (.stmt 2) = true ∧
    DefinitionPoint.stmt 1 ≠ DefinitionPoint.stmt 2 ∧
    (ex_rd1.Union ex_rd2).HasPair (.root ex_x) (.stmt 1) = false := by
  decide

/-- The lookup after `rd.AddRDs(r)`: the entry of `rd` when it has one, else
the entry of `r`. -/
theorem AddRDs_lookup (rd r : ReachingDefs) (d : DefinitionItem) :
    (rd.AddRDs r).rd_map.lookup d =
      (rd.rd_map.lookup d).or (r.rd_map.lookup d) := by
  have hf : (fun (acc : ReachingDefs)
      (one_rd : Sigma (fun _ : DefinitionItem => DefinitionPoint)) =>
        acc.AddRD one_rd.1 one_rd.2) =
      (fun res i => if (fun _ _ => true) i.1 i.2 = true
        then res.AddRD i.1 i.2 else res) := by
    funext acc i
    simp
  unfold ReachingDefs.AddRDs
  rw [hf, ReachingDefs.lookup_foldl_AddRD (fun _ _ => true)]
  simp only [List.filter_true]
  rfl

/-- C10, as amended: when `rd` maps `d` to `p`, then after `rd.AddRD(d, q)`
with a different point `q` the set still maps `d` to `p` and does not have the
pair (d, q); `AddRD` is insert-if-absent, and so is the merge `AddRDs`. -/
theorem AddRD_keeps_incumbent (rd : ReachingDefs) (d : DefinitionItem)
    (p q : DefinitionPoint) (h : rd.HasPair d p = true) (hpq : q ≠ p) :
    (rd.AddRD d q).HasPair d p = true ∧ (rd.AddRD d q).HasPair d q = false ∧
      ∀ r : ReachingDefs, (rd.AddRDs r).HasPair d p = true := by
  have hl := (ReachingDefs.HasPair_iff rd d p).mp h
  have h1 : (rd.AddRD d q).rd_map.lookup d = some p := by
    rw [ReachingDefs.lookup_AddRD, hl]
    rfl
  refine ⟨(ReachingDefs.HasPair_iff _ d p).mpr h1, ?_, ?_⟩
  · cases hq : (rd.AddRD d q).HasPair d q with
    | false => rfl
    | true =>
      have h2 := (ReachingDefs.HasPair_iff _ d q).mp hq
      rw [h1] at h2
      exact absurd (Option.some.inj h2).symm hpq
  · intro r
    rw [ReachingDefs.HasPair_iff, AddRDs_lookup, hl]
    rfl

/-- C10, an instance of the amended statement: `x` defined at statement 1,
then added at statement 2 and merged with a set defining it at statement 2. -/
theorem AddRD_keeps_incumbent_witness :
    (ex_rd1.AddRD (.root ex_x) (.stmt 2)).HasPair (.root ex_x) (.stmt 1) = true ∧
    (ex_rd1.AddRD (.root ex_x) (.stmt 2)).HasPair (.root ex_x) (.stmt 2) = false ∧
      ∀ r : ReachingDefs, (ex_rd1.AddRDs r).HasPair (.root ex_x) (.stmt 1) = true :=
  AddRD_keeps_incumbent ex_rd1 (.root ex_x) (.stmt 1) (.stmt 2) (by decide)
    (by decide)

/-- C10, the claim as stated fails: `rd` maps `x` to statement 1, and after
`rd.AddRD(x, statement 2)` it does not map `x` to statement 2. -/
theorem AddRD_replace_counterexample :
    ex_rd1.HasPair (.root ex_x) (.stmt 1) = true ∧
    DefinitionPoint.stmt 2 ≠ DefinitionPoint.stmt 1 ∧
    (ex_rd1.AddRD (.root ex_x) (.stmt 2)).HasPair (.root ex_x) (.stmt 2) = false := by
  decide

/-! ### `Differ` -/

theorem mem_AddRD (rd : ReachingDefs) (di d : DefinitionItem)
    (dp : DefinitionPoint) :
    d ∈ (rd.AddRD di dp).rd_map ↔ d = di ∨ d ∈ rd.rd_map := by
  unfold ReachingDefs.AddRD
  by_cases hmem : di ∈ rd.rd_map
  · rw [if_pos hmem]
    constructor
    · exact fun h => Or.inr h
    · rintro (h | h)
      · exact h ▸ hmem
      · exact h
  · rw [if_neg hmem]
    exact AList.mem_insert _

theorem AddRD_of_mem (rd : ReachingDefs) (di : DefinitionItem)
    (dp : DefinitionPoint) (h : di ∈ rd.rd_map) : rd.AddRD di dp = rd := by
  unfold ReachingDefs.AddRD
  rw [if_pos h]

theorem Size_AddRD_of_not_mem (rd : ReachingDefs) (di : DefinitionItem)
    (dp : DefinitionPoint) (h : di ∉ rd.rd_map) :
    (rd.AddRD di dp).Size = rd.Size + 1 := by
  unfold ReachingDefs.AddRD ReachingDefs.Size
  rw [if_neg h]
  show (rd.rd_map.insert di dp).entries.length = rd.rd_map.entries.length + 1
  rw [AList.insert_entries_of_neg h]
  rfl

theorem Size_foldl_AddRD (P : DefinitionItem → DefinitionPoint → Bool)
    (l : List (Sigma (fun _ : DefinitionItem => DefinitionPoint)))
    (hl : l.NodupKeys) (acc : ReachingDefs)
    (hacc : ∀ e ∈ l, e.1 ∉ acc.rd_map) :
    (l.foldl (fun res i => if P i.1 i.2 then res.AddRD i.1 i.2 else res)
        acc).Size =
      acc.Size + (l.filter (fun i => P i.1 i.2)).length := by
  induction l generalizing acc with
  | nil => simp
  | cons e l ih =>
    rw [List.foldl_cons]
    have hnd := List.nodupKeys_cons.mp hl
    have he : e.1 ∉ acc.rd_map := hacc e (List.mem_cons_self _ _)
    by_cases hP : P e.1 e.2 = true
    · rw [if_pos hP, ih hnd.2, Size_AddRD_of_not_mem _ _ _ he,
        List.filter_cons_of_pos (by simpa using hP)]
      · simp only [List.length_cons]
        omega
      · intro e' he' hmem
        rcases (mem_AddRD _ _ _ _).mp hmem with h | h
        · exact hnd.1 (h ▸ List.mem_keys_of_mem he')
        · exact hacc e' (List.mem_cons_of_mem _ he') h
    · rw [if_neg hP, ih hnd.2, List.filter_cons_of_neg (by simpa using hP)]
      intro e' he'
      exact hacc e' (List.mem_cons_of_mem _ he')

/-- The size of `a.Intersect(b)`: the number of entries of `a` that `b` has
as a pair. -/
theorem Size_Intersect (a b : ReachingDefs) :
    (a.Intersect b).Size =
      (a.rd_map.entries.filter (fun i => b.HasPair i.1 i.2)).length := by
  unfold ReachingDefs.Intersect
  rw [Size_foldl_AddRD (fun k v => b.HasPair k v) _ a.rd_map.nodupKeys]
  · simp [ReachingDefs.Size, ReachingDefs.empty]
  · intro e _
    exact AList.not_mem_empty _

theorem HasPair_iff_mem (rd : ReachingDefs) (d : DefinitionItem)
    (p : DefinitionPoint) :
    rd.HasPair d p = true ↔
      (⟨d, p⟩ : Sigma (fun _ : DefinitionItem => DefinitionPoint)) ∈
        rd.rd_map.entries := by
  rw [ReachingDefs.HasPair_iff, ← Option.mem_def, AList.mem_lookup_iff]

/-- What `Differ` computes: `a.Differ(b)` is true if and only if `a` and `b`
have the same pairs, that is, when they denote the same mapping. -/
theorem Differ_iff_same (a b : ReachingDefs) :
    a.Differ b = true ↔
      ∀ (d : DefinitionItem) (p : DefinitionPoint),
        a.HasPair d p = b.HasPair d p := by
  unfold ReachingDefs.Differ
  rw [Size_Intersect]
  constructor
  · intro h
    by_cases hs : a.Size = b.Size
    · rw [if_neg (not_not.mpr hs)] at h
      have hall := List.filter_length_eq_length.mp (by simpa [ReachingDefs.Size] using h)
      have hsub : a.rd_map.entries ⊆ b.rd_map.entries := by
        intro e he
        obtain ⟨k, v⟩ := e
        exact (HasPair_iff_mem b k v).mp (hall ⟨k, v⟩ he)
      have hperm : a.rd_map.entries.Perm b.rd_map.entries :=
        (List.subperm_of_subset a.rd_map.nodupKeys.nodup hsub).perm_of_length_le
          (by simpa [ReachingDefs.Size] using hs.ge)
      intro d p
      rw [Bool.eq_iff_iff, HasPair_iff_mem, HasPair_iff_mem]
      exact hperm.mem_iff
    · rw [if_pos hs] at h
      exact absurd h (by simp)
  · intro h
    have hmem : ∀ e, e ∈ a.rd_map.entries ↔ e ∈ b.rd_map.entries := by
      intro e
      obtain ⟨k, v⟩ := e
      rw [← HasPair_iff_mem, ← HasPair_iff_mem, h k v]
    have hperm : a.rd_map.entries.Perm b.rd_map.entries :=
      (List.perm_ext_iff_of_nodup a.rd_map.nodupKeys.nodup
        b.rd_map.nodupKeys.nodup).mpr hmem
    have hs : a.Size = b.Size := hperm.length_eq
    rw [if_neg (not_not.mpr hs)]
    have hall : ∀ e ∈ a.rd_map.entries, b.HasPair e.1 e.2 = true := by
      intro e he
      obtain ⟨k, v⟩ := e
      exact (HasPair_iff_mem b k v).mpr ((hmem ⟨k, v⟩).mp he)
    have := List.filter_length_eq_length.mpr hall
    simpa [ReachingDefs.Size] using this

/-- C3, the code at the failing inputs: `Differ` of a set and itself is true,
and `Differ` of the empty set and a set of size one is false, although the
first two denote the same mapping and the last two different ones. -/
theorem Differ_at_failing_inputs :
    ex_rd1.Differ ex_rd1 = true ∧
    ReachingDefs.empty.Differ ex_rd1 = false ∧
    ReachingDefs.empty.Size ≠ ex_rd1.Size ∧
    ex_rd1.Differ ex_rd2 = false ∧
    ex_rd1.HasPair (.root ex_x) (.stmt 1) ≠
      ex_rd2.HasPair (.root ex_x) (.stmt 1) := by
  decide

/-! ## The reachability oracle: statement lists -/

theorem ControlReachesEnd_stmts_fst (L : List Stmt)
    (is_definite ignore_break reaches_so_far : Bool) :
    (ControlReachesEnd_stmts L is_definite ignore_break reaches_so_far).1 =
      (reaches_so_far &&
        L.all (fun s => (ControlReachesEnd s is_definite ignore_break).1)) := by
  induction L generalizing reaches_so_far with
  | nil => simp [ControlReachesEnd_stmts]
  | cons stmt rest ih =>
    rw [ControlReachesEnd_stmts]
    cases reaches_so_far with
    | false => simp
    | true =>
      simp only [Bool.not_true, Bool.false_eq_true, if_false, ih, List.all_cons,
        Bool.true_and]
      cases (ControlReachesEnd stmt is_definite ignore_break).1 <;> simp

/-- C4: the result of `ControlReachesEnd` on a statement list is the
conjunction of its results on the statements of the list, for `STMT_LIST` and
for `STMT_EVENT_BODY_LIST`; on the empty list it is true. -/
theorem ControlReachesEnd_list_conjunction (obj : BroObj) (L : List Stmt)
    (is_definite ignore_break : Bool) :
    (ControlReachesEnd (.STMT_LIST obj L) is_definite ignore_break).1 =
        L.all (fun s => (ControlReachesEnd s is_definite ignore_break).1) ∧
    (ControlReachesEnd (.STMT_EVENT_BODY_LIST obj L) is_definite
        ignore_break).1 =
        L.all (fun s => (ControlReachesEnd s is_definite ignore_break).1) ∧
    (ControlReachesEnd (.STMT_LIST obj []) is_definite ignore_break).1 =
        true := by
  refine ⟨?_, ?_, ?_⟩
  · rw [ControlReachesEnd, ControlReachesEnd_stmts_fst]
    simp
  · rw [ControlReachesEnd, ControlReachesEnd_stmts_fst]
    simp
  · rw [ControlReachesEnd, ControlReachesEnd_stmts_fst]
    simp

theorem ControlReachesEnd_stmts_all_reach (L : List Stmt)
    (is_definite ignore_break : Bool)
    (h : ∀ s ∈ L.dropLast,
      (ControlReachesEnd s is_definite ignore_break).1 = true) :
    (ControlReachesEnd_stmts L is_definite ignore_break true).2 =
      (L.map (fun s => (ControlReachesEnd s is_definite ignore_break).2)).flatten := by
  induction L with
  | nil => simp [ControlReachesEnd_stmts]
  | cons stmt rest ih =>
    rw [ControlReachesEnd_stmts]
    cases rest with
    | nil => simp [ControlReachesEnd_stmts]
    | cons t post =>
      have hs : (ControlReachesEnd stmt is_definite ignore_break).1 = true :=
        h stmt (by simp [List.dropLast])
      have ih2 := ih (fun s hs2 => h s (by
        simp only [List.dropLast_cons₂, List.mem_cons]
        exact Or.inr hs2))
      simp only [Bool.not_true, Bool.false_eq_true, if_false, hs, ih2,
        List.map_cons, List.flatten_cons]

theorem ControlReachesEnd_stmts_dead (pre : List Stmt) (s t : Stmt)
    (post : List Stmt) (is_definite ignore_break : Bool)
    (hpre : ∀ x ∈ pre, (ControlReachesEnd x is_definite ignore_break).1 = true)
    (hs : (ControlReachesEnd s is_definite ignore_break).1 = false) :
    ControlReachesEnd_stmts (pre ++ s :: t :: post) is_definite ignore_break
        true =
      (false,
       (pre.map (fun x => (ControlReachesEnd x is_definite ignore_break).2)).flatten
         ++ (ControlReachesEnd s is_definite ignore_break).2
         ++ [Diagnostic.dead_code t]) := by
  induction pre with
  | nil =>
    simp [ControlReachesEnd_stmts, hs]
  | cons x pre ih =>
    have hx : (ControlReachesEnd x is_definite ignore_break).1 = true :=
      hpre x (List.mem_cons_self _ _)
    have ih2 := ih (fun y hy => hpre y (List.mem_cons_of_mem _ hy))
    rw [List.cons_append, ControlReachesEnd_stmts]
    simp only [Bool.not_true, Bool.false_eq_true, if_false, hx, ih2,
      List.map_cons, List.flatten_cons, List.append_assoc]

theorem exists_first_non_reaching (f : Stmt → Bool) (L : List Stmt)
    (h : ∃ s ∈ L.dropLast, f s = false) :
    ∃ (pre : List Stmt) (s t : Stmt) (post : List Stmt),
      L = pre ++ s :: t :: post ∧ (∀ x ∈ pre, f x = true) ∧ f s = false := by
  induction L with
  | nil => simp at h
  | cons a rest ih =>
    cases rest with
    | nil => simp at h
    | cons b post =>
      by_cases ha : f a = true
      · have h2 : ∃ s ∈ (b :: post).dropLast, f s = false := by
          obtain ⟨s, hs, hf⟩ := h
          simp only [List.dropLast_cons₂, List.mem_cons] at hs
          rcases hs with hs | hs
          · rw [hs, ha] at hf
            exact absurd hf (by simp)
          · exact ⟨s, hs, hf⟩
        obtain ⟨pre, s, t, post2, hL, hpre, hs⟩ := ih h2
        refine ⟨a :: pre, s, t, post2, ?_, ?_, hs⟩
        · rw [hL]
          rfl
        · intro x hx
          rcases List.mem_cons.mp hx with hx | hx
          · rw [hx]
            exact ha
          · exact hpre x hx
      · refine ⟨[], a, b, post, rfl, ?_, ?_⟩
        · intro x hx
          simp at hx
        · simpa using ha

/-- C5: a list that starts with a `return` and has a further statement `T`
yields false and prints exactly one diagnostic, dead code at `T`. In general
the list prints a dead-code diagnostic of its own exactly when a statement
other than the last does not reach its end: when all of them reach it, the
output is what the evaluation of the statements printed; otherwise the list
is `pre ++ s :: t :: post` with `s` the first statement that does not reach
its end, the result is false and the output is what `pre` and `s` printed
followed by the single diagnostic dead code at `t`. -/
theorem ControlReachesEnd_list_dead_code (obj : BroObj)
    (is_definite ignore_break : Bool) :
    (∀ (o : BroObj) (e : Option Expr) (T : Stmt) (rest : List Stmt),
      ControlReachesEnd (.STMT_LIST obj (.STMT_RETURN o e :: T :: rest))
        is_definite ignore_break = (false, [Diagnostic.dead_code T])) ∧
    (∀ L : List Stmt,
      (∀ s ∈ L.dropLast,
        (ControlReachesEnd s is_definite ignore_break).1 = true) →
      (ControlReachesEnd (.STMT_LIST obj L) is_definite ignore_break).2 =
        (L.map
          (fun s => (ControlReachesEnd s is_definite ignore_break).2)).flatten) ∧
    (∀ L : List Stmt,
      (∃ s ∈ L.dropLast,
        (ControlReachesEnd s is_definite ignore_break).1 = false) →
      ∃ (pre : List Stmt) (s t : Stmt) (post : List Stmt),
        L = pre ++ s :: t :: post ∧
        (∀ x ∈ pre, (ControlReachesEnd x is_definite ignore_break).1 = true) ∧
        (ControlReachesEnd s is_definite ignore_break).1 = false ∧
        ControlReachesEnd (.STMT_LIST obj L) is_definite ignore_break =
          (false,
           (pre.map
              (fun x => (ControlReachesEnd x is_definite ignore_break).2)).flatten
             ++ (ControlReachesEnd s is_definite ignore_break).2
             ++ [Diagnostic.dead_code t])) := by
  refine ⟨?_, ?_, ?_⟩
  · intro o e T rest
    have h := ControlReachesEnd_stmts_dead [] (.STMT_RETURN o e) T rest
      is_definite ignore_break (by simp) (by simp [ControlReachesEnd])
    rw [ControlReachesEnd]
    simpa [ControlReachesEnd] using h
  · intro L h
    rw [ControlReachesEnd]
    exact ControlReachesEnd_stmts_all_reach L is_definite ignore_break h
  · intro L h
    obtain ⟨pre, s, t, post, hL, hpre, hs⟩ :=
      exists_first_non_reaching
        (fun s => (ControlReachesEnd s is_definite ignore_break).1) L h
    refine ⟨pre, s, t, post, hL, hpre, hs, ?_⟩
    rw [ControlReachesEnd, hL]
    exact ControlReachesEnd_stmts_dead pre s t post is_definite ignore_break
      hpre hs

/-- C5, an instance: in `print; next; print; print;` the `next` does not
reach its end, and the list prints one diagnostic, dead code at the `print`
that follows it. -/
theorem ControlReachesEnd_list_dead_code_witness :
    ∃ (pre : List Stmt) (s t : Stmt) (post : List Stmt),
      ex_print_next_print = pre ++ s :: t :: post ∧
      (∀ x ∈ pre, (ControlReachesEnd x false false).1 = true) ∧
      (ControlReachesEnd s false false).1 = false ∧
      ControlReachesEnd (.STMT_LIST 40 ex_print_next_print) false false =
        (false,
         (pre.map (fun x => (ControlReachesEnd x false false).2)).flatten
           ++ (ControlReachesEnd s false false).2
           ++ [Diagnostic.dead_code t]) :=
  (ControlReachesEnd_list_dead_code 40 false false).2.2 ex_print_next_print
    ⟨.STMT_NEXT 42, by simp [ex_print_next_print], by simp [ControlReachesEnd]⟩

/-! ## The reachability oracle: `switch` and `if` -/

theorem ControlReachesEnd_cases_spec (cases : List Case)
    (is_definite control_reaches_end default_seen : Bool) :
    (ControlReachesEnd_cases cases is_definite control_reaches_end
        default_seen).1 =
      (if is_definite then
        control_reaches_end &&
          cases.all (fun c => (ControlReachesEnd c.Body true true).1)
       else
        control_reaches_end ||
          cases.any (fun c => (ControlReachesEnd c.Body false true).1)) ∧
    (ControlReachesEnd_cases cases is_definite control_reaches_end
        default_seen).2.1 =
      (default_seen || cases.any Case.is_default) := by
  induction cases generalizing control_reaches_end default_seen with
  | nil => cases is_definite <;> simp [ControlReachesEnd_cases]
  | cons c rest ih =>
    obtain ⟨ec, tc, body⟩ := c
    rw [ControlReachesEnd_cases]
    simp only [ih, List.all_cons, List.any_cons, Case.Body]
    cases is_definite <;> cases control_reaches_end <;> cases default_seen <;>
      cases (ControlReachesEnd body false true).1 <;>
      cases (ControlReachesEnd body true true).1 <;>
      cases (Case.mk ec tc body).is_default <;> simp

/-- C6, as amended: with `is_definite` true, `ControlReachesEnd` of a switch
is true if and only if every case body definitely reaches its end (evaluated
with `ignore_break` true), whether or not the switch has a `default` case. -/
theorem ControlReachesEnd_switch_definite (obj : BroObj) (e : Expr)
    (cases : List Case) (ignore_break : Bool) :
    (ControlReachesEnd (.STMT_SWITCH obj e cases) true ignore_break).1 =
      cases.all (fun c => (ControlReachesEnd c.Body true true).1) := by
  rw [ControlReachesEnd]
  simp [(ControlReachesEnd_cases_spec cases true true false).1]

/-- C6, the claim as stated fails: `switch ( x ) { case 1: print; }` has no
`default` case, and it definitely reaches its end. -/
theorem ControlReachesEnd_switch_definite_counterexample :
    (ControlReachesEnd ex_switch_no_default true false).1 = true ∧
    ex_switch_no_default = .STMT_SWITCH 20 ex_name_x ex_cases_no_default ∧
    ex_cases_no_default.any Case.is_default = false ∧
    ex_cases_no_default.all
      (fun c => (ControlReachesEnd c.Body true true).1) = true := by
  refine ⟨by decide, rfl, by decide, by decide⟩

/-- C7: with `is_definite` false, `ControlReachesEnd` of a switch is true if
and only if some case body may reach its end (evaluated with `is_definite`
false and `ignore_break` true) or the switch has no `default` case. -/
theorem ControlReachesEnd_switch_may (obj : BroObj) (e : Expr)
    (cases : List Case) (ignore_break : Bool) :
    (ControlReachesEnd (.STMT_SWITCH obj e cases) false ignore_break).1 =
      (cases.any (fun c => (ControlReachesEnd c.Body false true).1) ||
        !cases.any Case.is_default) := by
  rw [ControlReachesEnd]
  have h := ControlReachesEnd_cases_spec cases false false false
  simp only [Bool.false_eq_true, if_false, Bool.false_or] at h
  simp only [h.1, h.2]
  cases cases.any (fun c => (ControlReachesEnd c.Body false true).1) <;>
    cases cases.any Case.is_default <;> simp

/-- The `STMT_IF` case for every `ignore_break`: the two branches are
evaluated with `ignore_break` false and combined by AND when `is_definite`,
by OR otherwise. -/
theorem ControlReachesEnd_if (obj : BroObj) (c : Expr) (t f : Stmt)
    (is_definite ignore_break : Bool) :
    (ControlReachesEnd (.STMT_IF obj c t f) is_definite ignore_break).1 =
      (if is_definite then
        (ControlReachesEnd t is_definite false).1 &&
          (ControlReachesEnd f is_definite false).1
       else
        (ControlReachesEnd t is_definite false).1 ||
          (ControlReachesEnd f is_definite false).1) := by
  rw [ControlReachesEnd]

/-- C8, the code at the failing input: for `if ( x ) break; else break;` and
`ignore_break` true, `ControlReachesEnd` is false for both values of
`is_definite`, although each branch, evaluated with `ignore_break` true,
reaches its end. -/
theorem ControlReachesEnd_if_break_in_switch :
    ∀ is_definite : Bool,
      (ControlReachesEnd ex_if_break is_definite true).1 = false ∧
      (ControlReachesEnd (.STMT_BREAK 11) is_definite true).1 = true ∧
      (ControlReachesEnd (.STMT_BREAK 12) is_definite true).1 = true := by
  decide

/-! ## Installing definitions -/

mutual
theorem CreateRecordRDs_type_preserves (assume_full : Bool)
    (dp : DefinitionPoint) :
    ∀ (t : BroType) (di : DefinitionItem) (rhs_di : Option DefinitionItem)
      (s : DefItems × ReachingDefs) (d : DefinitionItem) (p : DefinitionPoint),
      s.2.rd_map.lookup d = some p →
      (CreateRecordRDs_type assume_full dp t di rhs_di s).2.rd_map.lookup d =
        some p
  | .record rt, di, rhs_di, s, d, p, h => by
    rw [CreateRecordRDs_type]
    exact CreateRecordRDs_loop_preserves assume_full dp rt di rhs_di s d p h
  | .base _, _, _, _, _, _, h => by
    rw [CreateRecordRDs_type]
    exact h
theorem CreateRecordRDs_loop_preserves (assume_full : Bool)
    (dp : DefinitionPoint) :
    ∀ (rt : FieldList) (di : DefinitionItem) (rhs_di : Option DefinitionItem)
      (s : DefItems × ReachingDefs) (d : DefinitionItem) (p : DefinitionPoint),
      s.2.rd_map.lookup d = some p →
      (CreateRecordRDs_loop assume_full dp rt di rhs_di s).2.rd_map.lookup d =
        some p
  | .nil, _, _, _, _, _, h => by
    rw [CreateRecordRDs_loop]
    exact h
  | .cons n_i t_i has_default rest, di, rhs_di, s, d, p, h => by
    rw [CreateRecordRDs_loop]
    have h1 : ((s.1.CreateField di n_i t_i).2,
        s.2.AddRD (s.1.CreateField di n_i t_i).1 dp).2.rd_map.lookup d =
        some p := by
      show (s.2.AddRD (s.1.CreateField di n_i t_i).1 dp).rd_map.lookup d = some p
      rw [ReachingDefs.lookup_AddRD, h]
      rfl
    by_cases hdef : field_is_defined assume_full (rhs_FindField s.1 rhs_di n_i)
        has_default = false
    · rw [if_pos hdef]
      exact CreateRecordRDs_loop_preserves assume_full dp rest di rhs_di s d p h
    · rw [if_neg hdef]
      apply CreateRecordRDs_loop_preserves assume_full dp rest
      by_cases ht : t_i.Tag = TypeTag.TYPE_RECORD
      · rw [if_pos ht]
        exact CreateRecordRDs_type_preserves assume_full dp t_i _ _ _ d p h1
      · rw [if_neg ht]
        exact h1
end

/-- The pairs of `rd` are pairs of the set that `AddRDWithInit` produces. -/
theorem AddRDWithInit_preserves (m : DefItems) (rd : ReachingDefs)
    (di : DefinitionItem) (dp : DefinitionPoint) (assume_full : Bool)
    (init : Option AssignExpr) (d : DefinitionItem) (p : DefinitionPoint)
    (h : rd.HasPair d p = true) :
    (AddRDWithInit m rd di dp assume_full init).2.HasPair d p = true := by
  rw [ReachingDefs.HasPair_iff] at h ⊢
  have h1 : (rd.AddRD di dp).rd_map.lookup d = some p := by
    rw [ReachingDefs.lookup_AddRD, h]
    rfl
  unfold AddRDWithInit CreateRecordRDs
  simp only
  split
  · exact h1
  · split
    · exact CreateRecordRDs_type_preserves _ _ _ _ _ (_, _) d p h1
    · split
      · exact CreateRecordRDs_type_preserves _ _ _ _ _ (_, _) d p h1
      · split
        · exact CreateRecordRDs_type_preserves _ _ _ _ _ (_, _) d p h1
        · exact CreateRecordRDs_type_preserves _ _ _ _ _ (_, _) d p h1

/-- C9, as amended: after `AddRDWithInit(rd, di, dp, assume_full, init)` the
set has the pair (di, dp) when it had no pair for `di` before the call, and
when it had the pair (di, p0) before the call it still has (di, p0). -/
theorem AddRDWithInit_records (m : DefItems) (rd : ReachingDefs)
    (di : DefinitionItem) (dp : DefinitionPoint) (assume_full : Bool)
    (init : Option AssignExpr) :
    (rd.HasDI di = false →
      (AddRDWithInit m rd di dp assume_full init).2.HasPair di dp = true) ∧
    (∀ p0 : DefinitionPoint, rd.HasPair di p0 = true →
      (AddRDWithInit m rd di dp assume_full init).2.HasPair di p0 = true) := by
  refine ⟨?_, ?_⟩
  · intro hno
    have h1 : (rd.AddRD di dp).HasPair di dp = true := by
      rw [ReachingDefs.HasPair_iff, ReachingDefs.lookup_AddRD]
      have hn : rd.rd_map.lookup di = none := by
        unfold ReachingDefs.HasDI at hno
        cases hl : rd.rd_map.lookup di with
        | none => rfl
        | some l => rw [hl] at hno; simp at hno
      rw [hn]
      simp
    have h2 := AddRDWithInit_preserves m (rd.AddRD di dp) di dp assume_full
      init di dp h1
    have h3 : (rd.AddRD di dp).AddRD di dp = rd.AddRD di dp :=
      AddRD_of_mem _ di dp ((mem_AddRD rd di di dp).mpr (Or.inl rfl))
    unfold AddRDWithInit at h2 ⊢
    rw [h3] at h2
    exact h2
  · intro p0 h
    exact AddRDWithInit_preserves m rd di dp assume_full init di p0 h

/-- C9, instances of the amended statement: the record `r` installed into
the empty set, and `x` installed at statement 2 into a set that has the pair
(`x`, statement 1). -/
theorem AddRDWithInit_records_witness :
    (AddRDWithInit ex_no_items ReachingDefs.empty (.root ex_r) (.stmt 2) false
      none).2.HasPair (.root ex_r) (.stmt 2) = true ∧
    (AddRDWithInit ex_no_items ex_rd1 (.root ex_x) (.stmt 2) false
      none).2.HasPair (.root ex_x) (.stmt 1) = true :=
  ⟨(AddRDWithInit_records ex_no_items ReachingDefs.empty (.root ex_r) (.stmt 2)
      false none).1 (by decide),
   (AddRDWithInit_records ex_no_items ex_rd1 (.root ex_x) (.stmt 2) false
      none).2 (.stmt 1) (by decide)⟩

/-- C9, the claim as stated fails: `rd` has the pair (`x`, statement 1), and
after `AddRDWithInit(rd, x, statement 2, false, null)` it does not have the
pair (`x`, statement 2). -/
theorem AddRDWithInit_counterexample :
    ex_rd1.HasPair (.root ex_x) (.stmt 1) = true ∧
    (AddRDWithInit ex_no_items ex_rd1 (.root ex_x) (.stmt 2) false
      none).2.HasPair (.root ex_x) (.stmt 2) = false := by
  decide

/-! ## Record fields: what `CreateRecordRDs` creates -/

theorem CreateField_fst (m : DefItems) (di : DefinitionItem) (fn : String)
    (t : BroType) : (m.CreateField di fn t).1 = .field di fn := by
  unfold DefItems.CreateField DefItems.FindField
  by_cases h : DefinitionItem.field di fn ∈ m.fields
  · simp [h]
  · simp [h]

theorem mem_CreateField (m : DefItems) (di : DefinitionItem) (fn : String)
    (t : BroType) (x : DefinitionItem) :
    x ∈ (m.CreateField di fn t).2.fields ↔ x = .field di fn ∨ x ∈ m.fields := by
  unfold DefItems.CreateField DefItems.FindField
  by_cases h : DefinitionItem.field di fn ∈ m.fields
  · simp only [h, if_true]
    constructor
    · exact fun hx => Or.inr hx
    · rintro (hx | hx)
      · exact hx ▸ h
      · exact hx
  · simp [h]

theorem HasDI_iff_lookup (rd : ReachingDefs) (d : DefinitionItem) :
    rd.HasDI d = true ↔ ∃ p, rd.rd_map.lookup d = some p := by
  unfold ReachingDefs.HasDI
  cases rd.rd_map.lookup d <;> simp

theorem HasDI_AddRD_self (rd : ReachingDefs) (di : DefinitionItem)
    (dp : DefinitionPoint) : (rd.AddRD di dp).HasDI di = true := by
  rw [HasDI_iff_lookup, ReachingDefs.lookup_AddRD]
  cases rd.rd_map.lookup di <;> simp

mutual
theorem CreateRecordRDs_type_fields_mono (assume_full : Bool)
    (dp : DefinitionPoint) :
    ∀ (t : BroType) (di : DefinitionItem) (rhs_di : Option DefinitionItem)
      (s : DefItems × ReachingDefs) (x : DefinitionItem),
      x ∈ s.1.fields →
      x ∈ (CreateRecordRDs_type assume_full dp t di rhs_di s).1.fields
  | .record rt, di, rhs_di, s, x, h => by
    rw [CreateRecordRDs_type]
    exact CreateRecordRDs_loop_fields_mono assume_full dp rt di rhs_di s x h
  | .base _, _, _, _, _, h => by
    rw [CreateRecordRDs_type]
    exact h
theorem CreateRecordRDs_loop_fields_mono (assume_full : Bool)
    (dp : DefinitionPoint) :
    ∀ (rt : FieldList) (di : DefinitionItem) (rhs_di : Option DefinitionItem)
      (s : DefItems × ReachingDefs) (x : DefinitionItem),
      x ∈ s.1.fields →
      x ∈ (CreateRecordRDs_loop assume_full dp rt di rhs_di s).1.fields
  | .nil, _, _, _, _, h => by
    rw [CreateRecordRDs_loop]
    exact h
  | .cons n_i t_i has_default rest, di, rhs_di, s, x, h => by
    rw [CreateRecordRDs_loop]
    have h1 : x ∈ ((s.1.CreateField di n_i t_i).2,
        s.2.AddRD (s.1.CreateField di n_i t_i).1 dp).1.fields :=
      (mem_CreateField s.1 di n_i t_i x).mpr (Or.inr h)
    by_cases hdef : field_is_defined assume_full (rhs_FindField s.1 rhs_di n_i)
        has_default = false
    · rw [if_pos hdef]
      exact CreateRecordRDs_loop_fields_mono assume_full dp rest di rhs_di s x h
    · rw [if_neg hdef]
      apply CreateRecordRDs_loop_fields_mono assume_full dp rest
      by_cases ht : t_i.Tag = TypeTag.TYPE_RECORD
      · rw [if_pos ht]
        exact CreateRecordRDs_type_fields_mono assume_full dp t_i _ _ _ x h1
      · rw [if_neg ht]
        exact h1
end

theorem StateLe_refl (s : DefItems × ReachingDefs) : StateLe s s :=
  ⟨fun _ h => h, fun _ _ h => h⟩

theorem StateLe_trans {a b c : DefItems × ReachingDefs} (h1 : StateLe a b)
    (h2 : StateLe b c) : StateLe a c :=
  ⟨fun x h => h2.1 x (h1.1 x h), fun x p h => h2.2 x p (h1.2 x p h)⟩

theorem StateLe_type (assume_full : Bool) (dp : DefinitionPoint) (t : BroType)
    (di : DefinitionItem) (rhs_di : Option DefinitionItem)
    (s : DefItems × ReachingDefs) :
    StateLe s (CreateRecordRDs_type assume_full dp t di rhs_di s) :=
  ⟨fun x h => CreateRecordRDs_type_fields_mono assume_full dp t di rhs_di s x h,
   fun x p h => CreateRecordRDs_type_preserves assume_full dp t di rhs_di s x p h⟩

theorem StateLe_loop (assume_full : Bool) (dp : DefinitionPoint)
    (rt : FieldList) (di : DefinitionItem) (rhs_di : Option DefinitionItem)
    (s : DefItems × ReachingDefs) :
    StateLe s (CreateRecordRDs_loop assume_full dp rt di rhs_di s) :=
  ⟨fun x h => CreateRecordRDs_loop_fields_mono assume_full dp rt di rhs_di s x h,
   fun x p h => CreateRecordRDs_loop_preserves assume_full dp rt di rhs_di s x p h⟩

theorem field_is_defined_true (rhs_di_i : Option DefinitionItem)
    (has_default : Bool) : field_is_defined true rhs_di_i has_default = true := by
  simp [field_is_defined]

/-- With `assume_full`, the loop over the fields `rt` of `d` creates the item
of every field `fn` of `rt`, adds it to the set, and runs `CreateRecordRDs`
on it with the declared type of the field. -/
theorem CreateRecordRDs_loop_full (dp : DefinitionPoint) (fn : String)
    (tn : BroType) :
    ∀ (rt : FieldList) (d : DefinitionItem) (rhs_di : Option DefinitionItem)
      (s : DefItems × ReachingDefs),
      rt.FieldType fn = some tn →
      DefinitionItem.field d fn ∈
        (CreateRecordRDs_loop true dp rt d rhs_di s).1.fields ∧
      (CreateRecordRDs_loop true dp rt d rhs_di s).2.HasDI (.field d fn) = true ∧
      ∃ (s2 : DefItems × ReachingDefs) (rhs2 : Option DefinitionItem),
        StateLe (CreateRecordRDs_type true dp tn (.field d fn) rhs2 s2)
          (CreateRecordRDs_loop true dp rt d rhs_di s)
  | .nil, _, _, _, h => by simp [FieldList.FieldType] at h
  | .cons n_i t_i has_default rest, d, rhs_di, s, h => by
    rw [CreateRecordRDs_loop, field_is_defined_true]
    simp only [Bool.true_eq_false, if_false]
    rw [FieldList.FieldType] at h
    by_cases hn : n_i = fn
    · rw [if_pos hn] at h
      have htn : t_i = tn := Option.some.inj h
      subst hn
      subst htn
      have hs2 : (if t_i.Tag = TypeTag.TYPE_RECORD then
            CreateRecordRDs_type true dp t_i (s.1.CreateField d n_i t_i).1
              (rhs_FindField s.1 rhs_di n_i)
              ((s.1.CreateField d n_i t_i).2,
               s.2.AddRD (s.1.CreateField d n_i t_i).1 dp)
          else
            ((s.1.CreateField d n_i t_i).2,
             s.2.AddRD (s.1.CreateField d n_i t_i).1 dp)) =
          CreateRecordRDs_type true dp t_i (.field d n_i)
            (rhs_FindField s.1 rhs_di n_i)
            ((s.1.CreateField d n_i t_i).2, s.2.AddRD (.field d n_i) dp) := by
        rw [CreateField_fst]
        by_cases ht : t_i.Tag = TypeTag.TYPE_RECORD
        · rw [if_pos ht]
        · rw [if_neg ht]
          cases t_i with
          | base tag => rw [CreateRecordRDs_type]
          | record fields => exact absurd rfl ht
      rw [hs2]
      have hle1 := StateLe_type true dp t_i (.field d n_i)
        (rhs_FindField s.1 rhs_di n_i)
        ((s.1.CreateField d n_i t_i).2, s.2.AddRD (.field d n_i) dp)
      have hle2 := StateLe_loop true dp rest d rhs_di
        (CreateRecordRDs_type true dp t_i (.field d n_i)
          (rhs_FindField s.1 rhs_di n_i)
          ((s.1.CreateField d n_i t_i).2, s.2.AddRD (.field d n_i) dp))
      have hle := StateLe_trans hle1 hle2
      refine ⟨?_, ?_, _, _, hle2⟩
      · exact hle.1 _ ((mem_CreateField s.1 d n_i t_i _).mpr (Or.inl rfl))
      · obtain ⟨p, hp⟩ := (HasDI_iff_lookup _ _).mp
          (HasDI_AddRD_self s.2 (.field d n_i) dp)
        exact (HasDI_iff_lookup _ _).mpr ⟨p, hle.2 _ p hp⟩
    · rw [if_neg hn] at h
      exact CreateRecordRDs_loop_full dp fn tn rest d rhs_di _ h

theorem ReachableField_created (m : DefItems) (rd : ReachingDefs)
    (di : DefinitionItem) (dp : DefinitionPoint)
    (rhs_di : Option DefinitionItem) (x : DefinitionItem)
    (hx : ReachableField di x) :
    x ∈ (CreateRecordRDs m rd di true dp rhs_di).1.fields ∧
    (CreateRecordRDs m rd di true dp rhs_di).2.HasDI x = true ∧
    ∃ (s2 : DefItems × ReachingDefs) (rhs2 : Option DefinitionItem),
      StateLe (CreateRecordRDs_type true dp x.Type x rhs2 s2)
        (CreateRecordRDs m rd di true dp rhs_di) := by
  induction hx with
  | child fn rt t hty hft =>
    have h := CreateRecordRDs_loop_full dp fn t rt di rhs_di (m, rd) hft
    have hT : (DefinitionItem.field di fn).Type = t := by
      rw [DefinitionItem.Type, hty]
      simp [hft]
    unfold CreateRecordRDs
    rw [hty, CreateRecordRDs_type, hT]
    exact h
  | step p fn rt t _ hty hft ih =>
    obtain ⟨_, _, s2, rhs2, hle⟩ := ih
    rw [hty, CreateRecordRDs_type] at hle
    have h := CreateRecordRDs_loop_full dp fn t rt p rhs2 s2 hft
    have hT : (DefinitionItem.field p fn).Type = t := by
      rw [DefinitionItem.Type, hty]
      simp [hft]
    rw [hT]
    obtain ⟨h1, h2, s3, rhs3, hle3⟩ := h
    refine ⟨hle.1 _ h1, ?_, s3, rhs3, StateLe_trans hle3 hle⟩
    obtain ⟨q, hq⟩ := (HasDI_iff_lookup _ _).mp h2
    exact (HasDI_iff_lookup _ _).mpr ⟨q, hle.2 _ q hq⟩

/-- C11: for a record-typed item `di`, after
`AddRDWithInit(rd, di, dp, assume_full = true, init = null)` the set has `di`,
and every field item reachable from `di` through record-typed fields exists
(its parent finds it by name) and is in the set. -/
theorem AddRDWithInit_full_record (m : DefItems) (rd : ReachingDefs)
    (di : DefinitionItem) (dp : DefinitionPoint)
    (hrec : di.Type.Tag = TypeTag.TYPE_RECORD) :
    (AddRDWithInit m rd di dp true none).2.HasDI di = true ∧
    ∀ (p : DefinitionItem) (fn : String), ReachableField di (.field p fn) →
      (AddRDWithInit m rd di dp true none).1.FindField p fn =
        some (.field p fn) ∧
      (AddRDWithInit m rd di dp true none).2.HasDI (.field p fn) = true := by
  have hun : AddRDWithInit m rd di dp true none =
      CreateRecordRDs m (rd.AddRD di dp) di true dp none := by
    unfold AddRDWithInit
    simp [hrec]
  rw [hun]
  refine ⟨?_, ?_⟩
  · obtain ⟨q, hq⟩ := (HasDI_iff_lookup _ _).mp (HasDI_AddRD_self rd di dp)
    have := CreateRecordRDs_type_preserves true dp di.Type di none
      (m, rd.AddRD di dp) di q hq
    exact (HasDI_iff_lookup _ _).mpr ⟨q, this⟩
  · intro p fn hx
    have h := ReachableField_created m (rd.AddRD di dp) di dp none _ hx
    refine ⟨?_, h.2.1⟩
    unfold DefItems.FindField
    rw [if_pos h.1]

/-- C11, an instance: for the nested record `q`, the items `q`, `q$in` and
`q$in$b` are in the set after the installation with `assume_full`, and
`q$in$b` is found under `q$in`. -/
theorem AddRDWithInit_full_record_witness :
    (AddRDWithInit ex_no_items ReachingDefs.empty (.root ex_q) (.stmt 2) true
      none).2.HasDI (.root ex_q) = true ∧
    (AddRDWithInit ex_no_items ReachingDefs.empty (.root ex_q) (.stmt 2) true
      none).1.FindField (.field (.root ex_q) "in") "b" =
        some (.field (.field (.root ex_q) "in") "b") ∧
    (AddRDWithInit ex_no_items ReachingDefs.empty (.root ex_q) (.stmt 2) true
      none).2.HasDI (.field (.field (.root ex_q) "in") "b") = true :=
  ⟨(AddRDWithInit_full_record ex_no_items ReachingDefs.empty (.root ex_q)
      (.stmt 2) (by decide)).1,
   (AddRDWithInit_full_record ex_no_items ReachingDefs.empty (.root ex_q)
      (.stmt 2) (by decide)).2 (.field (.root ex_q) "in") "b"
      (ReachableField.step (.field (.root ex_q) "in") "b"
        (.cons "a" (.base .TYPE_COUNT) false
          (.cons "b" (.base .TYPE_COUNT) true .nil))
        (.base .TYPE_COUNT)
        (ReachableField.child "in"
          (.cons "in" ex_rec_type false
            (.cons "c" (.base .TYPE_COUNT) false .nil))
          ex_rec_type (by rfl) (by decide))
        (by decide) (by decide))⟩

/-! ### Which fields `CreateRecordRDs` defines -/

theorem IsUnder_depth (a : DefinitionItem) :
    ∀ x : DefinitionItem, a.IsUnder x = true → a.depth ≤ x.depth
  | .root id, h => by
    simp only [DefinitionItem.IsUnder, decide_eq_true_eq] at h
    rw [← h]
  | .field parent fn, h => by
    simp only [DefinitionItem.IsUnder, Bool.or_eq_true, decide_eq_true_eq] at h
    rcases h with h | h
    · rw [← h]
    · have := IsUnder_depth a parent h
      simp only [DefinitionItem.depth]
      omega

theorem IsUnder_self (a : DefinitionItem) : a.IsUnder a = true := by
  cases a <;> simp [DefinitionItem.IsUnder]

theorem IsUnder_of_field (a : DefinitionItem) (n : String) :
    ∀ x : DefinitionItem,
      (DefinitionItem.field a n).IsUnder x = true → a.IsUnder x = true
  | .root id, h => by
    simp [DefinitionItem.IsUnder] at h
  | .field parent fn, h => by
    simp only [DefinitionItem.IsUnder, Bool.or_eq_true, decide_eq_true_eq] at h
    simp only [DefinitionItem.IsUnder, Bool.or_eq_true, decide_eq_true_eq]
    rcases h with h | h
    · right
      injection h with h1 h2
      rw [h1]
      exact IsUnder_self a
    · right
      exact IsUnder_of_field a n parent h

theorem not_IsUnder_field_self (di : DefinitionItem) (fn : String) :
    (DefinitionItem.field di fn).IsUnder di = false := by
  cases h : (DefinitionItem.field di fn).IsUnder di with
  | false => rfl
  | true =>
    have := IsUnder_depth _ _ h
    simp only [DefinitionItem.depth] at this
    omega

theorem not_IsUnder_sibling (di : DefinitionItem) (fn n : String)
    (h : n ≠ fn) :
    (DefinitionItem.field di fn).IsUnder (DefinitionItem.field di n) = false := by
  simp only [DefinitionItem.IsUnder, Bool.or_eq_false_iff, decide_eq_false_iff_not]
  refine ⟨?_, not_IsUnder_field_self di fn⟩
  intro he
  injection he with _ h2
  exact h h2

mutual
theorem CreateRecordRDs_type_frame (assume_full : Bool) (dp : DefinitionPoint) :
    ∀ (t : BroType) (di : DefinitionItem) (rhs_di : Option DefinitionItem)
      (s : DefItems × ReachingDefs) (x : DefinitionItem),
      (∀ fn, (DefinitionItem.field di fn).IsUnder x = false) →
      (x ∈ (CreateRecordRDs_type assume_full dp t di rhs_di s).1.fields ↔
        x ∈ s.1.fields) ∧
      (CreateRecordRDs_type assume_full dp t di rhs_di s).2.rd_map.lookup x =
        s.2.rd_map.lookup x
  | .record rt, di, rhs_di, s, x, h => by
    rw [CreateRecordRDs_type]
    exact CreateRecordRDs_loop_frame assume_full dp rt di rhs_di s x
      (fun fn _ => h fn)
  | .base _, _, _, _, _, _ => by
    rw [CreateRecordRDs_type]
    exact ⟨Iff.rfl, rfl⟩
theorem CreateRecordRDs_loop_frame (assume_full : Bool) (dp : DefinitionPoint) :
    ∀ (rt : FieldList) (di : DefinitionItem) (rhs_di : Option DefinitionItem)
      (s : DefItems × ReachingDefs) (x : DefinitionItem),
      (∀ fn ∈ rt.names, (DefinitionItem.field di fn).IsUnder x = false) →
      (x ∈ (CreateRecordRDs_loop assume_full dp rt di rhs_di s).1.fields ↔
        x ∈ s.1.fields) ∧
      (CreateRecordRDs_loop assume_full dp rt di rhs_di s).2.rd_map.lookup x =
        s.2.rd_map.lookup x
  | .nil, _, _, _, _, _ => by
    rw [CreateRecordRDs_loop]
    exact ⟨Iff.rfl, rfl⟩
  | .cons n_i t_i has_default rest, di, rhs_di, s, x, h => by
    rw [CreateRecordRDs_loop]
    have hrest : ∀ fn ∈ rest.names,
        (DefinitionItem.field di fn).IsUnder x = false :=
      fun fn hfn => h fn (by simp [FieldList.names, hfn])
    have hni : (DefinitionItem.field di n_i).IsUnder x = false :=
      h n_i (by simp [FieldList.names])
    have hne : x ≠ DefinitionItem.field di n_i := by
      intro he
      rw [he, IsUnder_self] at hni
      exact absurd hni (by simp)
    have hsub : ∀ fn,
        (DefinitionItem.field (DefinitionItem.field di n_i) fn).IsUnder x =
          false := by
      intro fn
      cases hc : (DefinitionItem.field (DefinitionItem.field di n_i) fn).IsUnder x with
      | false => rfl
      | true =>
        rw [IsUnder_of_field _ _ _ hc] at hni
        exact absurd hni (by simp)
    have h1 : (x ∈ ((s.1.CreateField di n_i t_i).2,
          s.2.AddRD (s.1.CreateField di n_i t_i).1 dp).1.fields ↔
          x ∈ s.1.fields) ∧
        ((s.1.CreateField di n_i t_i).2,
          s.2.AddRD (s.1.CreateField di n_i t_i).1 dp).2.rd_map.lookup x =
          s.2.rd_map.lookup x := by
      refine ⟨?_, ?_⟩
      · show x ∈ (s.1.CreateField di n_i t_i).2.fields ↔ x ∈ s.1.fields
        rw [mem_CreateField]
        simp [hne]
      · show (s.2.AddRD (s.1.CreateField di n_i t_i).1 dp).rd_map.lookup x =
          s.2.rd_map.lookup x
        rw [ReachingDefs.lookup_AddRD, CreateField_fst, if_neg hne]
        cases s.2.rd_map.lookup x <;> rfl
    by_cases hdef : field_is_defined assume_full (rhs_FindField s.1 rhs_di n_i)
        has_default = false
    · rw [if_pos hdef]
      exact CreateRecordRDs_loop_frame assume_full dp rest di rhs_di s x hrest
    · rw [if_neg hdef]
      have h3 := CreateRecordRDs_loop_frame assume_full dp rest di rhs_di
        (if t_i.Tag = TypeTag.TYPE_RECORD then
          CreateRecordRDs_type assume_full dp t_i
            (s.1.CreateField di n_i t_i).1 (rhs_FindField s.1 rhs_di n_i)
            ((s.1.CreateField di n_i t_i).2,
             s.2.AddRD (s.1.CreateField di n_i t_i).1 dp)
         else
          ((s.1.CreateField di n_i t_i).2,
           s.2.AddRD (s.1.CreateField di n_i t_i).1 dp)) x hrest
      by_cases ht : t_i.Tag = TypeTag.TYPE_RECORD
      · rw [if_pos ht] at h3 ⊢
        have h2 := CreateRecordRDs_type_frame assume_full dp t_i
          (s.1.CreateField di n_i t_i).1 (rhs_FindField s.1 rhs_di n_i)
          ((s.1.CreateField di n_i t_i).2,
            s.2.AddRD (s.1.CreateField di n_i t_i).1 dp) x
          (by rw [CreateField_fst]; exact hsub)
        exact ⟨h3.1.trans (h2.1.trans h1.1), h3.2.trans (h2.2.trans h1.2)⟩
      · rw [if_neg ht] at h3 ⊢
        exact ⟨h3.1.trans h1.1, h3.2.trans h1.2⟩
end

theorem CreateRecordRDs_loop_append (assume_full : Bool)
    (dp : DefinitionPoint) (rt2 : FieldList) :
    ∀ (pre : FieldList) (di : DefinitionItem) (rhs_di : Option DefinitionItem)
      (s : DefItems × ReachingDefs),
      CreateRecordRDs_loop assume_full dp (pre.append rt2) di rhs_di s =
        CreateRecordRDs_loop assume_full dp rt2 di rhs_di
          (CreateRecordRDs_loop assume_full dp pre di rhs_di s)
  | .nil, _, _, _ => by
    rw [FieldList.append, CreateRecordRDs_loop]
  | .cons n_i t_i has_default rest, di, rhs_di, s => by
    rw [FieldList.append, CreateRecordRDs_loop, CreateRecordRDs_loop]
    by_cases hdef : field_is_defined assume_full (rhs_FindField s.1 rhs_di n_i)
        has_default = false
    · rw [if_pos hdef, if_pos hdef]
      exact CreateRecordRDs_loop_append assume_full dp rt2 rest di rhs_di s
    · rw [if_neg hdef, if_neg hdef]
      exact CreateRecordRDs_loop_append assume_full dp rt2 rest di rhs_di _

theorem field_is_defined_eq (assume_full : Bool)
    (rhs_di_i : Option DefinitionItem) (has_default : Bool) :
    field_is_defined assume_full rhs_di_i has_default =
      (assume_full || rhs_di_i.isSome || has_default) := by
  unfold field_is_defined
  cases assume_full <;> cases rhs_di_i <;> cases has_default <;> rfl

theorem HasPair_congr (a b : ReachingDefs) (x : DefinitionItem)
    (h : a.rd_map.lookup x = b.rd_map.lookup x) (p : DefinitionPoint) :
    a.HasPair x p = b.HasPair x p := by
  unfold ReachingDefs.HasPair
  rw [h]

/-- C12: for a record-typed item `di` and a field `n` of its record type (the
field names of a record are distinct, and the right-hand side item is not below
`di`): when `assume_full` is true, or `rhs_di` is given and has a child called
`n`, or the field has the default attribute, `CreateRecordRDs` creates the
child item of `di` for `n` and adds it to the set (with the point `dp` when the
set had no entry for it); when none of the three holds, the child item exists
afterwards only if it existed before, and the pairs of the set for it are
unchanged. -/
theorem CreateRecordRDs_defines_field (m : DefItems) (rd : ReachingDefs)
    (di : DefinitionItem) (assume_full : Bool) (dp : DefinitionPoint)
    (rhs_di : Option DefinitionItem) (pre rest : FieldList) (n : String)
    (t : BroType) (has_default : Bool)
    (hty : di.Type = .record (pre.append (.cons n t has_default rest)))
    (hpre : n ∉ pre.names) (hrest : n ∉ rest.names)
    (hrhs : ∀ r, rhs_di = some r →
      ∀ fn, (DefinitionItem.field di fn).IsUnder r = false) :
    ((assume_full = true ∨
        (∃ r, rhs_di = some r ∧ (m.FindField r n).isSome = true) ∨
        has_default = true) →
      DefinitionItem.field di n ∈
        (CreateRecordRDs m rd di assume_full dp rhs_di).1.fields ∧
      (CreateRecordRDs m rd di assume_full dp rhs_di).2.HasDI
        (.field di n) = true ∧
      (rd.HasDI (.field di n) = false →
        (CreateRecordRDs m rd di assume_full dp rhs_di).2.HasPair
          (.field di n) dp = true)) ∧
    (¬ (assume_full = true ∨
        (∃ r, rhs_di = some r ∧ (m.FindField r n).isSome = true) ∨
        has_default = true) →
      (DefinitionItem.field di n ∈
          (CreateRecordRDs m rd di assume_full dp rhs_di).1.fields ↔
        DefinitionItem.field di n ∈ m.fields) ∧
      ∀ p : DefinitionPoint,
        (CreateRecordRDs m rd di assume_full dp rhs_di).2.HasPair
            (.field di n) p =
          rd.HasPair (.field di n) p) := by
  unfold CreateRecordRDs
  rw [hty, CreateRecordRDs_type, CreateRecordRDs_loop_append]
  generalize hsi : CreateRecordRDs_loop assume_full dp pre di rhs_di (m, rd) = s_i
  have hfpre : ∀ x : DefinitionItem,
      (∀ fn ∈ pre.names, (DefinitionItem.field di fn).IsUnder x = false) →
      (x ∈ s_i.1.fields ↔ x ∈ m.fields) ∧
        s_i.2.rd_map.lookup x = rd.rd_map.lookup x := by
    intro x hx
    have := CreateRecordRDs_loop_frame assume_full dp pre di rhs_di (m, rd) x hx
    rw [hsi] at this
    exact this
  have hchild_pre := hfpre (.field di n) (fun fn hfn =>
    not_IsUnder_sibling di fn n (fun he => hpre (he ▸ hfn)))
  have hfind : ∀ r, rhs_di = some r → s_i.1.FindField r n = m.FindField r n := by
    intro r hr
    have hx : ∀ fn ∈ pre.names,
        (DefinitionItem.field di fn).IsUnder (DefinitionItem.field r n) =
          false := by
      intro fn hfn
      simp only [DefinitionItem.IsUnder, Bool.or_eq_false_iff,
        decide_eq_false_iff_not]
      refine ⟨?_, hrhs r hr fn⟩
      intro he
      injection he with _ h2
      exact hpre (h2 ▸ hfn)
    have := (hfpre (.field r n) hx).1
    unfold DefItems.FindField
    by_cases hm : DefinitionItem.field r n ∈ m.fields
    · rw [if_pos hm, if_pos (this.mpr hm)]
    · rw [if_neg hm, if_neg (fun h => hm (this.mp h))]
  have hcond : field_is_defined assume_full (rhs_FindField s_i.1 rhs_di n)
        has_default = true ↔
      (assume_full = true ∨
        (∃ r, rhs_di = some r ∧ (m.FindField r n).isSome = true) ∨
        has_default = true) := by
    rw [field_is_defined_eq]
    simp only [Bool.or_eq_true]
    have hr : (rhs_FindField s_i.1 rhs_di n).isSome = true ↔
        ∃ r, rhs_di = some r ∧ (m.FindField r n).isSome = true := by
      cases hrd : rhs_di with
      | none => simp [rhs_FindField]
      | some r =>
        simp only [rhs_FindField, hfind r hrd, Option.some.injEq,
          exists_eq_left']
    rw [hr]
    exact or_assoc
  rw [CreateRecordRDs_loop]
  refine ⟨?_, ?_⟩
  · intro hc
    have hd : ¬ field_is_defined assume_full (rhs_FindField s_i.1 rhs_di n)
        has_default = false := by
      rw [hcond.mpr hc]
      simp
    rw [if_neg hd]
    have hs2 : (if t.Tag = TypeTag.TYPE_RECORD then
          CreateRecordRDs_type assume_full dp t (s_i.1.CreateField di n t).1
            (rhs_FindField s_i.1 rhs_di n)
            ((s_i.1.CreateField di n t).2,
             s_i.2.AddRD (s_i.1.CreateField di n t).1 dp)
        else
          ((s_i.1.CreateField di n t).2,
           s_i.2.AddRD (s_i.1.CreateField di n t).1 dp)) =
        CreateRecordRDs_type assume_full dp t (.field di n)
          (rhs_FindField s_i.1 rhs_di n)
          ((s_i.1.CreateField di n t).2, s_i.2.AddRD (.field di n) dp) := by
      rw [CreateField_fst]
      by_cases ht : t.Tag = TypeTag.TYPE_RECORD
      · rw [if_pos ht]
      · rw [if_neg ht]
        cases t with
        | base tag => rw [CreateRecordRDs_type]
        | record fields => exact absurd rfl ht
    rw [hs2]
    have hle := StateLe_trans
      (StateLe_type assume_full dp t (.field di n)
        (rhs_FindField s_i.1 rhs_di n)
        ((s_i.1.CreateField di n t).2, s_i.2.AddRD (.field di n) dp))
      (StateLe_loop assume_full dp rest di rhs_di _)
    refine ⟨?_, ?_, ?_⟩
    · exact hle.1 _ ((mem_CreateField s_i.1 di n t _).mpr (Or.inl rfl))
    · obtain ⟨q, hq⟩ := (HasDI_iff_lookup _ _).mp
        (HasDI_AddRD_self s_i.2 (.field di n) dp)
      exact (HasDI_iff_lookup _ _).mpr ⟨q, hle.2 _ q hq⟩
    · intro hno
      rw [ReachingDefs.HasPair_iff]
      apply hle.2
      show (s_i.2.AddRD (.field di n) dp).rd_map.lookup (.field di n) = some dp
      rw [ReachingDefs.lookup_AddRD, hchild_pre.2]
      unfold ReachingDefs.HasDI at hno
      cases hl : rd.rd_map.lookup (.field di n) with
      | none => simp
      | some l => rw [hl] at hno; simp at hno
  · intro hc
    have hd : field_is_defined assume_full (rhs_FindField s_i.1 rhs_di n)
        has_default = false := by
      cases hv : field_is_defined assume_full (rhs_FindField s_i.1 rhs_di n)
        has_default with
      | false => rfl
      | true => exact absurd (hcond.mp hv) hc
    rw [if_pos hd]
    have hfr := CreateRecordRDs_loop_frame assume_full dp rest di rhs_di s_i
      (.field di n) (fun fn hfn =>
        not_IsUnder_sibling di fn n (fun he => hrest (he ▸ hfn)))
    refine ⟨hfr.1.trans hchild_pre.1, ?_⟩
    intro p
    exact HasPair_congr _ _ _ (hfr.2.trans hchild_pre.2) p

/-- C12, an instance: for the record `r` with the fields `a` and
`b &default`, `CreateRecordRDs` without `assume_full` and without a right-hand
side defines `r$b` at `dp` and leaves `r$a` as it was. -/
theorem CreateRecordRDs_defines_field_witness :
    (DefinitionItem.field (.root ex_r) "b" ∈
        (CreateRecordRDs ex_no_items ReachingDefs.empty (.root ex_r) false
          (.stmt 2) none).1.fields ∧
      (CreateRecordRDs ex_no_items ReachingDefs.empty (.root ex_r) false
        (.stmt 2) none).2.HasDI (.field (.root ex_r) "b") = true ∧
      (ReachingDefs.empty.HasDI (.field (.root ex_r) "b") = false →
        (CreateRecordRDs ex_no_items ReachingDefs.empty (.root ex_r) false
          (.stmt 2) none).2.HasPair (.field (.root ex_r) "b") (.stmt 2) =
            true)) ∧
    ((DefinitionItem.field (.root ex_r) "a" ∈
        (CreateRecordRDs ex_no_items ReachingDefs.empty (.root ex_r) false
          (.stmt 2) none).1.fields ↔
        DefinitionItem.field (.root ex_r) "a" ∈ ex_no_items.fields) ∧
      ∀ p : DefinitionPoint,
        (CreateRecordRDs ex_no_items ReachingDefs.empty (.root ex_r) false
          (.stmt 2) none).2.HasPair (.field (.root ex_r) "a") p =
        ReachingDefs.empty.HasPair (.field (.root ex_r) "a") p) :=
  ⟨(CreateRecordRDs_defines_field ex_no_items ReachingDefs.empty (.root ex_r)
      false (.stmt 2) none (.cons "a" (.base .TYPE_COUNT) false .nil) .nil "b"
      (.base .TYPE_COUNT) true (by rfl) (by decide) (by decide)
      (by intro r h; cases h)).1 (Or.inr (Or.inr rfl)),
   (CreateRecordRDs_defines_field ex_no_items ReachingDefs.empty (.root ex_r)
      false (.stmt 2) none .nil
      (.cons "b" (.base .TYPE_COUNT) true .nil) "a"
      (.base .TYPE_COUNT) false (by rfl) (by decide) (by decide)
      (by intro r h; cases h)).2 (by simp)⟩

/-! ## The flow-fact stores -/

theorem RDs_AddRDs_of_no_entry (a_i : AnalyInfo) (o : BroObj)
    (rd : ReachingDefs) (h : ReachingDefSet.HasRDs a_i o = false) :
    ReachingDefSet.RDs (ReachingDefSet.AddRDs a_i o rd) (some o) = rd := by
  unfold ReachingDefSet.AddRDs ReachingDefSet.RDs
  rw [h]
  simp [AList.lookup_insert]

theorem RDs_AddRDs_of_entry (a_i : AnalyInfo) (o : BroObj)
    (rd old : ReachingDefs) (h : a_i.lookup o = some old) :
    ReachingDefSet.RDs (ReachingDefSet.AddRDs a_i o rd) (some o) =
      old.AddRDs rd := by
  unfold ReachingDefSet.AddRDs ReachingDefSet.RDs ReachingDefSet.HasRDs
    ReachingDefSet.MergeRDs
  simp [h, AList.lookup_insert]

theorem RDs_AddRDs_ne (a_i : AnalyInfo) (o o2 : BroObj) (rd : ReachingDefs)
    (h : o2 ≠ o) :
    ReachingDefSet.RDs (ReachingDefSet.AddRDs a_i o rd) (some o2) =
      ReachingDefSet.RDs a_i (some o2) := by
  unfold ReachingDefSet.AddRDs ReachingDefSet.RDs ReachingDefSet.HasRDs
    ReachingDefSet.MergeRDs
  cases hl : a_i.lookup o with
  | none => simp [AList.lookup_insert_ne h]
  | some old => simp [AList.lookup_insert_ne h]

/-- After `PostStmt(s)` on an object with no post-defs for `s`, the post-defs
of `s` are the `post_rds` the statement's case computed. -/
theorem PostStmt_PostRDs (s : Stmt) (c : RD_Decorate)
    (h : ReachingDefSet.HasRDs c.post_defs s.obj = false) :
    (PostStmt s c).2.PostRDs (some s.obj) = (PostStmt_post_rds c s).1 := by
  unfold PostStmt RD_Decorate.PostRDs RD_Decorate.AddPostRDs
  exact RDs_AddRDs_of_no_entry c.post_defs s.obj _ h

/-- `PostStmt(s)` leaves the post-defs of every other object as they were. -/
theorem PostStmt_PostRDs_ne (s : Stmt) (c : RD_Decorate) (o : BroObj)
    (h : o ≠ s.obj) :
    (PostStmt s c).2.PostRDs (some o) = c.PostRDs (some o) := by
  unfold PostStmt RD_Decorate.PostRDs RD_Decorate.AddPostRDs
  exact RDs_AddRDs_ne c.post_defs s.obj o _ h

/-- `PostStmt(s)` leaves the pre-defs of every object as they were. -/
theorem PostStmt_PreRDs (s : Stmt) (c : RD_Decorate) (o : Option BroObj) :
    (PostStmt s c).2.PreRDs o = c.PreRDs o := by
  unfold PostStmt RD_Decorate.PreRDs RD_Decorate.AddPostRDs
  rfl

/-- The pairs of an intersection, for use in the statements on `PostStmt`. -/
theorem HasPair_Intersect (a b : ReachingDefs) (d : DefinitionItem)
    (p : DefinitionPoint) :
    (a.Intersect b).HasPair d p = true ↔
      (a.HasPair d p = true ∧ b.HasPair d p = true) := by
  rw [HasPair_iff_mem, HasPair_iff_mem a]
  have hnd : (a.rd_map.entries.filter (fun i => b.HasPair i.1 i.2)).NodupKeys :=
    List.NodupKeys.sublist (List.filter_sublist _) a.rd_map.nodupKeys
  have hl : (a.Intersect b).rd_map.lookup d =
      List.dlookup d (a.rd_map.entries.filter (fun i => b.HasPair i.1 i.2)) := by
    unfold ReachingDefs.Intersect
    rw [ReachingDefs.lookup_foldl_AddRD (fun k v => b.HasPair k v)]
    have h0 : ReachingDefs.empty.rd_map.lookup d = none := AList.lookup_empty d
    rw [h0, Option.none_or]
  rw [← AList.mem_lookup_iff, Option.mem_def, hl, ← Option.mem_def,
    List.mem_dlookup_iff hnd, List.mem_filter]

/-! ## `PostStmt` of `if`, `for` and `while` -/

/-- C13: for an `if` statement with no post-defs yet whose two branches may
reach their end, after `PostStmt` the post-defs of the statement are the
post-defs of the true branch intersected with those of the false branch: a
pair is in them if and only if it is in both. The post-defs of the other
objects, the branches among them, are as before. -/
theorem PostStmt_if_both_reach (c : RD_Decorate) (obj : BroObj) (cond : Expr)
    (TrueBranch FalseBranch : Stmt)
    (hT : (ControlReachesEnd TrueBranch false false).1 = true)
    (hF : (ControlReachesEnd FalseBranch false false).1 = true)
    (hno : ReachingDefSet.HasRDs c.post_defs obj = false) :
    (PostStmt (.STMT_IF obj cond TrueBranch FalseBranch) c).2.PostRDs
        (some obj) =
      (c.PostRDs (some TrueBranch.obj)).Intersect
        (c.PostRDs (some FalseBranch.obj)) ∧
    (∀ (d : DefinitionItem) (p : DefinitionPoint),
      ((PostStmt (.STMT_IF obj cond TrueBranch FalseBranch) c).2.PostRDs
          (some obj)).HasPair d p = true ↔
        ((c.PostRDs (some TrueBranch.obj)).HasPair d p = true ∧
          (c.PostRDs (some FalseBranch.obj)).HasPair d p = true)) ∧
    (∀ o : BroObj, o ≠ obj →
      (PostStmt (.STMT_IF obj cond TrueBranch FalseBranch) c).2.PostRDs
          (some o) = c.PostRDs (some o)) := by
  have h := PostStmt_PostRDs (.STMT_IF obj cond TrueBranch FalseBranch) c hno
  have hv : (PostStmt_post_rds c
      (.STMT_IF obj cond TrueBranch FalseBranch)).1 =
      (c.PostRDs (some TrueBranch.obj)).Intersect
        (c.PostRDs (some FalseBranch.obj)) := by
    simp [PostStmt_post_rds, PostStmt_if, hT, hF]
  rw [hv] at h
  refine ⟨h, ?_, ?_⟩
  · intro d p
    have h2 : (PostStmt (.STMT_IF obj cond TrueBranch FalseBranch) c).2.PostRDs
        (some obj) = (c.PostRDs (some TrueBranch.obj)).Intersect
        (c.PostRDs (some FalseBranch.obj)) := h
    rw [h2]
    exact HasPair_Intersect _ _ d p
  · intro o ho
    exact PostStmt_PostRDs_ne _ c o ho

/-- C14: for an `if` statement with no post-defs yet, after `PostStmt`: when
only the true branch may reach its end the post-defs of the statement are the
post-defs of the true branch; when only the false branch may, those of the
false branch; when neither may, they are empty. -/
theorem PostStmt_if_one_reaches (c : RD_Decorate) (obj : BroObj) (cond : Expr)
    (TrueBranch FalseBranch : Stmt)
    (hno : ReachingDefSet.HasRDs c.post_defs obj = false) :
    ((ControlReachesEnd TrueBranch false false).1 = true →
      (ControlReachesEnd FalseBranch false false).1 = false →
      (PostStmt (.STMT_IF obj cond TrueBranch FalseBranch) c).2.PostRDs
          (some obj) = c.PostRDs (some TrueBranch.obj)) ∧
    ((ControlReachesEnd TrueBranch false false).1 = false →
      (ControlReachesEnd FalseBranch false false).1 = true →
      (PostStmt (.STMT_IF obj cond TrueBranch FalseBranch) c).2.PostRDs
          (some obj) = c.PostRDs (some FalseBranch.obj)) ∧
    ((ControlReachesEnd TrueBranch false false).1 = false →
      (ControlReachesEnd FalseBranch false false).1 = false →
      (PostStmt (.STMT_IF obj cond TrueBranch FalseBranch) c).2.PostRDs
          (some obj) = ReachingDefs.empty) := by
  have h := PostStmt_PostRDs (.STMT_IF obj cond TrueBranch FalseBranch) c hno
  refine ⟨?_, ?_, ?_⟩
  · intro hT hF
    refine h.trans ?_
    simp [PostStmt_post_rds, PostStmt_if, hT, hF]
  · intro hT hF
    refine h.trans ?_
    simp [PostStmt_post_rds, PostStmt_if, hT, hF]
  · intro hT hF
    refine h.trans ?_
    simp [PostStmt_post_rds, PostStmt_if, hT, hF]

/-- C14, an instance: `if ( x ) print; else return;`, where only the true
branch may reach its end. -/
theorem PostStmt_if_one_reaches_witness :
    (PostStmt ex_if_print_return ex_state_if).2.PostRDs (some 50) =
      ex_state_if.PostRDs (some 51) :=
  (PostStmt_if_one_reaches ex_state_if 50 ex_name_x (.STMT_PRINT 51 [])
    (.STMT_RETURN 52 none) (by decide)).1 (by decide) (by decide)

/-- C13, an instance: `if ( x ) print; else print;` in a state where the
post-defs of the true branch define `x` and `y` and those of the false branch
define `x` only. -/
theorem PostStmt_if_both_reach_witness :
    (PostStmt ex_if_print_print ex_state_if).2.PostRDs (some 50) =
      (ex_state_if.PostRDs (some 51)).Intersect
        (ex_state_if.PostRDs (some 52)) :=
  (PostStmt_if_both_reach ex_state_if 50 ex_name_x (.STMT_PRINT 51 [])
    (.STMT_PRINT 52 []) (by decide) (by decide) (by decide)).1

/-- C15: for a `for` or `while` statement with no post-defs yet, after
`PostStmt` the post-defs of the statement are the pre-defs of the statement
intersected with the post-defs of the body, so every pair of them is a pair of
the pre-defs of the statement. -/
theorem PostStmt_loop (c : RD_Decorate) (obj : BroObj) (ids : List ID)
    (val_var : Option ID) (e : Expr) (body : Stmt)
    (hno : ReachingDefSet.HasRDs c.post_defs obj = false) :
    ((PostStmt (.STMT_FOR obj ids val_var e body) c).2.PostRDs (some obj) =
        (c.PreRDs (some obj)).Intersect (c.PostRDs (some body.obj)) ∧
      ∀ (d : DefinitionItem) (p : DefinitionPoint),
        ((PostStmt (.STMT_FOR obj ids val_var e body) c).2.PostRDs
            (some obj)).HasPair d p = true →
          ((PostStmt (.STMT_FOR obj ids val_var e body) c).2.PreRDs
            (some obj)).HasPair d p = true) ∧
    ((PostStmt (.STMT_WHILE obj e body) c).2.PostRDs (some obj) =
        (c.PreRDs (some obj)).Intersect (c.PostRDs (some body.obj)) ∧
      ∀ (d : DefinitionItem) (p : DefinitionPoint),
        ((PostStmt (.STMT_WHILE obj e body) c).2.PostRDs
            (some obj)).HasPair d p = true →
          ((PostStmt (.STMT_WHILE obj e body) c).2.PreRDs
            (some obj)).HasPair d p = true) := by
  have h1 := PostStmt_PostRDs (.STMT_FOR obj ids val_var e body) c hno
  have h2 := PostStmt_PostRDs (.STMT_WHILE obj e body) c hno
  have e1 : (PostStmt (.STMT_FOR obj ids val_var e body) c).2.PostRDs
      (some obj) =
      (c.PreRDs (some obj)).Intersect (c.PostRDs (some body.obj)) := h1
  have e2 : (PostStmt (.STMT_WHILE obj e body) c).2.PostRDs (some obj) =
      (c.PreRDs (some obj)).Intersect (c.PostRDs (some body.obj)) := h2
  refine ⟨⟨e1, ?_⟩, ⟨e2, ?_⟩⟩
  · intro d p hp
    rw [e1] at hp
    rw [PostStmt_PreRDs]
    exact ((HasPair_Intersect _ _ d p).mp hp).1
  · intro d p hp
    rw [e2] at hp
    rw [PostStmt_PreRDs]
    exact ((HasPair_Intersect _ _ d p).mp hp).1

/-- C15, an instance: a `while` loop whose pre-defs define `x` and whose
body's post-defs define `x` and `y`. -/
theorem PostStmt_loop_witness :
    (PostStmt (.STMT_WHILE 60 ex_name_x (.STMT_PRINT 61 [])) ex_state_loop).2.PostRDs
        (some 60) =
      (ex_state_loop.PreRDs (some 60)).Intersect
        (ex_state_loop.PostRDs (some 61)) :=
  ((PostStmt_loop ex_state_loop 60 [] none ex_name_x (.STMT_PRINT 61 [])
    (by decide)).2).1

/-! ## `PostStmt` of `switch` -/

theorem PostStmt_cases_default_seen (c : RD_Decorate) (did_first : Bool)
    (cases : List Case) (st : ReachingDefs × Bool) :
    (PostStmt_cases c did_first cases st).2.1 =
      (st.2 || cases.any Case.is_default) := by
  induction cases generalizing st with
  | nil => simp [PostStmt_cases]
  | cons cs rest ih =>
    obtain ⟨ec, tc, body⟩ := cs
    rw [PostStmt_cases]
    simp only [ih, List.any_cons]
    cases st.2 <;> cases (Case.mk ec tc body).is_default <;> simp

/-- With `did_first` false, the loop leaves in `post_rds` the post-defs of the
last case body that may reach its end, or its initial value when there is
none. -/
theorem PostStmt_cases_last (c : RD_Decorate) (cases : List Case)
    (st : ReachingDefs × Bool) :
    (PostStmt_cases c false cases st).1 =
      match (cases.filter
        (fun cs => (ControlReachesEnd cs.Body false false).1)).getLast? with
      | some cs => c.PostRDs (some cs.Body.obj)
      | none => st.1 := by
  induction cases generalizing st with
  | nil => rfl
  | cons cs rest ih =>
    obtain ⟨ec, tc, body⟩ := cs
    rw [PostStmt_cases]
    dsimp only
    rw [ih]
    by_cases hr : (ControlReachesEnd body false false).1 = true
    · have hfc : (Case.mk ec tc body :: rest).filter
          (fun cs => (ControlReachesEnd cs.Body false false).1) =
          Case.mk ec tc body :: rest.filter
            (fun cs => (ControlReachesEnd cs.Body false false).1) :=
        List.filter_cons_of_pos hr
      rw [hfc, if_pos hr]
      cases rest.filter
          (fun cs => (ControlReachesEnd cs.Body false false).1) with
      | nil => rfl
      | cons x xs =>
        rw [List.getLast?_cons_cons]
        cases hx : (x :: xs).getLast? with
        | none => simp at hx
        | some y => rfl
    · have hfc : (Case.mk ec tc body :: rest).filter
          (fun cs => (ControlReachesEnd cs.Body false false).1) =
          rest.filter
            (fun cs => (ControlReachesEnd cs.Body false false).1) :=
        List.filter_cons_of_neg hr
      rw [hfc, if_neg hr]

theorem lookup_AddRDs_of_some (old r : ReachingDefs) (d : DefinitionItem)
    (p : DefinitionPoint) (h : old.rd_map.lookup d = some p) :
    (old.AddRDs r).rd_map.lookup d = some p := by
  rw [AddRDs_lookup, h]
  rfl

theorem HasDI_AddRDs_right (old r : ReachingDefs) (d : DefinitionItem)
    (h : r.HasDI d = true) : (old.AddRDs r).HasDI d = true := by
  rw [HasDI_iff_lookup] at h ⊢
  rw [AddRDs_lookup]
  obtain ⟨p, hp⟩ := h
  cases ho : old.rd_map.lookup d with
  | none => exact ⟨p, by simp [hp]⟩
  | some q => exact ⟨q, by simp⟩

theorem HasPair_Union_right (a b : ReachingDefs) (d : DefinitionItem)
    (p : DefinitionPoint) (h : b.HasPair d p = true) :
    (a.Union b).HasPair d p = true := by
  rw [ReachingDefs.HasPair_iff] at h ⊢
  rw [Union_lookup, h]
  rfl

/-- The post-defs of `s` after `PostStmt(s)`: the computed `post_rds` when `s`
had none, else the old post-defs with `post_rds` merged in. -/
theorem PostStmt_PostRDs_merge (s : Stmt) (c : RD_Decorate) :
    (PostStmt s c).2.PostRDs (some s.obj) =
      match c.post_defs.lookup s.obj with
      | none => (PostStmt_post_rds c s).1
      | some old => old.AddRDs (PostStmt_post_rds c s).1 := by
  cases h : c.post_defs.lookup s.obj with
  | none =>
    exact PostStmt_PostRDs s c (by simp [ReachingDefSet.HasRDs, h])
  | some old =>
    unfold PostStmt RD_Decorate.PostRDs RD_Decorate.AddPostRDs
    exact RDs_AddRDs_of_entry c.post_defs s.obj _ old h

/-! ## Which callback writes which post-defs -/

theorem lookup_AddRDs_ne (a_i : AnalyInfo) (o o2 : BroObj) (rd : ReachingDefs)
    (h : o2 ≠ o) :
    (ReachingDefSet.AddRDs a_i o rd).lookup o2 = a_i.lookup o2 := by
  unfold ReachingDefSet.AddRDs ReachingDefSet.HasRDs ReachingDefSet.MergeRDs
  cases hl : a_i.lookup o with
  | none => simp [AList.lookup_insert_ne h]
  | some old => simp [AList.lookup_insert_ne h]

theorem AddPostRDs_post_defs_ne (c : RD_Decorate) (o o2 : BroObj)
    (rd : ReachingDefs) (h : o2 ≠ o) :
    (c.AddPostRDs o rd).post_defs.lookup o2 = c.post_defs.lookup o2 :=
  lookup_AddRDs_ne c.post_defs o o2 rd h

theorem PreStmt_cases_post_defs (s_obj : BroObj) (cases : List Case)
    (st : RD_Decorate × ReachingDefs) :
    (PreStmt_cases s_obj cases st).1.post_defs = st.1.post_defs := by
  induction cases generalizing st with
  | nil => rfl
  | cons cs rest ih =>
    cases cs with
    | mk ec tc body =>
      unfold PreStmt_cases
      rw [ih]
      rfl

/-- `PostStmt(s)` writes the post-defs of `s` only. -/
theorem PostStmt_post_defs_ne (s : Stmt) (c : RD_Decorate) (o : BroObj)
    (h : o ≠ s.obj) :
    (PostStmt s c).2.post_defs.lookup o = c.post_defs.lookup o := by
  unfold PostStmt
  exact lookup_AddRDs_ne c.post_defs s.obj o _ h

/-- `PostExpr(e)` writes the post-defs of `e` only. -/
theorem PostExpr_post_defs_ne (e : Expr) (c : RD_Decorate) (o : BroObj)
    (h : o ≠ e.obj) :
    (PostExpr e c).2.post_defs.lookup o = c.post_defs.lookup o := by
  unfold PostExpr
  exact lookup_AddRDs_ne c.post_defs e.obj o _ h

/-- `PreStmt(s)` writes the post-defs of `s` only (in its `add` case), as long
as the traversals it starts leave the post-defs of the object `o` alone. -/
theorem PreStmt_post_defs_ne (T : Traversal) (s : Stmt) (c : RD_Decorate)
    (o : BroObj) (h : o ≠ s.obj)
    (hs : ∀ (s2 : Stmt) (c2 : RD_Decorate),
      (T.stmt s2 c2).post_defs.lookup o = c2.post_defs.lookup o)
    (he : ∀ (e2 : Expr) (c2 : RD_Decorate),
      (T.expr e2 c2).post_defs.lookup o = c2.post_defs.lookup o) :
    (PreStmt T s c).2.post_defs.lookup o = c.post_defs.lookup o := by
  cases s with
  | STMT_SWITCH obj e cases =>
    show (PreStmt_cases obj cases _).1.post_defs.lookup o = _
    rw [PreStmt_cases_post_defs]
    rfl
  | STMT_FOR obj ids val_var e body =>
    cases e <;> first | rfl | exact hs _ _
  | STMT_RETURN obj e =>
    cases e with
    | none => rfl
    | some e =>
      unfold PreStmt
      simp only
      split <;> rfl
  | STMT_ADD obj a_e =>
    cases a_e with
    | EXPR_INDEX o1 a1 a2 t =>
      cases a1 with
      | EXPR_NAME o2 i1 =>
        unfold PreStmt
        simp only
        split
        · exact (AddPostRDs_post_defs_ne _ obj o _ h).trans (he _ _)
        · rfl
      | _ => rfl
    | _ => rfl
  | _ => rfl

theorem CheckLHS_post_defs_ne (T : Traversal) (a : AssignExpr) (o : BroObj)
    (he : ∀ (e2 : Expr) (c2 : RD_Decorate),
      (T.expr e2 c2).post_defs.lookup o = c2.post_defs.lookup o) :
    ∀ (lhs : Expr) (st : RD_Decorate × ReachingDefs),
      (CheckLHS T a lhs st).2.1.post_defs.lookup o = st.1.post_defs.lookup o
  | .EXPR_REF _ op _, st => by
    rw [CheckLHS]
    exact CheckLHS_post_defs_ne T a o he op st
  | .EXPR_NAME _ _, st => by simp [CheckLHS]
  | .EXPR_LIST _ _ _, st => by simp [CheckLHS]
  | .EXPR_FIELD _ r _ _, st => by
    cases r with
    | EXPR_NAME o2 id =>
      simp only [CheckLHS]
      split <;> exact he _ _
    | EXPR_FIELD o2 r2 fn2 t2 =>
      simp only [CheckLHS]
      split <;> exact he _ _
    | _ => simp [CheckLHS]
  | .EXPR_INDEX _ aggr _ _, st => by
    cases aggr with
    | EXPR_NAME o2 id =>
      simp only [CheckLHS]
      exact he _ _
    | _ => simp [CheckLHS]
  | .EXPR_ASSIGN _ _ _ _, st => by simp [CheckLHS]
  | .EXPR_ADD_TO _ _ _ _, st => by simp [CheckLHS]
  | .EXPR_HAS_FIELD _ _ _ _, st => by simp [CheckLHS]
  | .EXPR_CALL _ _ _ _, st => by simp [CheckLHS]
  | .EXPR_LAMBDA _ _, st => by simp [CheckLHS]
  | .EXPR_OTHER _ _ _, st => by simp [CheckLHS]

theorem PreExpr_args_post_defs_ne (T : Traversal) (c_obj o : BroObj)
    (he : ∀ (e2 : Expr) (c2 : RD_Decorate),
      (T.expr e2 c2).post_defs.lookup o = c2.post_defs.lookup o)
    (args : List Expr) (st : RD_Decorate × ReachingDefs) :
    (PreExpr_args T c_obj args st).1.post_defs.lookup o =
      st.1.post_defs.lookup o := by
  induction args generalizing st with
  | nil => rfl
  | cons x rest ih =>
    cases x with
    | EXPR_NAME o2 id =>
      simp only [PreExpr_args]
      split
      · rw [ih]
      · rw [ih]
        exact he _ _
    | _ =>
      simp only [PreExpr_args]
      rw [ih]
      exact he _ _

theorem PreExpr_name_post_defs_ne (e : Expr) (obj : BroObj) (id : ID)
    (rd : ReachingDefs) (c : RD_Decorate) (o : BroObj) (h : o ≠ obj) :
    (PreExpr_name e obj id rd c).post_defs.lookup o =
      c.post_defs.lookup o := by
  unfold PreExpr_name
  simp only
  split
  · rw [AddPostRDs_post_defs_ne _ obj o _ h]
    split <;> split <;> rfl
  · split <;> split <;> rfl

theorem PreExpr_field_post_defs_ne (T : Traversal) (e r : Expr) (fn : String)
    (c : RD_Decorate) (o : BroObj)
    (he : ∀ (e2 : Expr) (c2 : RD_Decorate),
      (T.expr e2 c2).post_defs.lookup o = c2.post_defs.lookup o) :
    (PreExpr_field T e r fn c).post_defs.lookup o = c.post_defs.lookup o := by
  unfold PreExpr_field
  simp only
  split
  · split <;> exact he _ _
  · exact he _ _

/-- `PreExpr(e)` writes the post-defs of `e` only, as long as the traversals
it starts leave the post-defs of the object `o` alone. -/
theorem PreExpr_post_defs_ne (T : Traversal) (e : Expr) (c : RD_Decorate)
    (o : BroObj) (h : o ≠ e.obj)
    (he : ∀ (e2 : Expr) (c2 : RD_Decorate),
      (T.expr e2 c2).post_defs.lookup o = c2.post_defs.lookup o) :
    (PreExpr T e c).2.post_defs.lookup o = c.post_defs.lookup o := by
  have hd : ∀ obj, o ≠ obj →
      ((Pre_install obj c).AddPostRDs obj
        ((Pre_install obj c).PreRDs (some obj))).post_defs.lookup o =
        c.post_defs.lookup o := by
    intro obj ho
    exact AddPostRDs_post_defs_ne _ obj o _ ho
  cases e with
  | EXPR_NAME obj id =>
    unfold PreExpr
    simp only
    exact (AddPostRDs_post_defs_ne _ obj o _ h).trans
      (PreExpr_name_post_defs_ne _ obj _ _ _ o h)
  | EXPR_ADD_TO obj lhs op2 t =>
    cases lhs with
    | EXPR_NAME o2 lhs_id =>
      unfold PreExpr
      simp only
      split
      · exact (he _ _).trans
          ((AddPostRDs_post_defs_ne _ obj o _ h).trans
            (AddPostRDs_post_defs_ne _ obj o _ h))
      · exact hd obj h
    | _ => exact hd obj h
  | EXPR_ASSIGN obj lhs rhs t =>
    have hc := CheckLHS_post_defs_ne T ⟨obj, lhs, rhs, t⟩ o he lhs
      (Pre_install obj c, c.PredecessorRDs)
    unfold PreExpr
    simp only
    split
    · split
      · exact (he _ _).trans
          ((AddPostRDs_post_defs_ne _ obj o _ h).trans
            ((AddPostRDs_post_defs_ne _ obj o _ h).trans hc))
      · exact (AddPostRDs_post_defs_ne _ obj o _ h).trans
            ((AddPostRDs_post_defs_ne _ obj o _ h).trans hc)
    · split
      · exact (he _ _).trans hc
      · exact (AddPostRDs_post_defs_ne _ obj o _ h).trans hc
  | EXPR_FIELD obj r fn t =>
    cases r with
    | EXPR_NAME o2 id =>
      exact PreExpr_field_post_defs_ne T _ _ fn (Pre_install obj c) o he
    | EXPR_FIELD o2 r2 fn2 t2 =>
      exact PreExpr_field_post_defs_ne T _ _ fn (Pre_install obj c) o he
    | _ => exact hd obj h
  | EXPR_HAS_FIELD obj r fn t =>
    cases r with
    | EXPR_NAME o2 id =>
      unfold PreExpr
      simp only
      split
      · exact AddPostRDs_post_defs_ne _ obj o _ h
      · exact (AddPostRDs_post_defs_ne _ obj o _ h).trans
          (AddPostRDs_post_defs_ne _ obj o _ h)
    | _ => exact hd obj h
  | EXPR_CALL obj f args t =>
    unfold PreExpr
    simp only
    exact (AddPostRDs_post_defs_ne _ obj o _ h).trans
      ((AddPostRDs_post_defs_ne _ obj o _ h).trans
        ((PreExpr_args_post_defs_ne T obj o he args _).trans (he _ _)))
  | EXPR_LAMBDA obj t => exact hd obj h
  | EXPR_REF obj op t => exact hd obj h
  | EXPR_LIST obj exprs t => exact hd obj h
  | EXPR_INDEX obj op1 op2 t => exact hd obj h
  | EXPR_OTHER obj ops t => exact hd obj h

/-- `PreStmt` of a switch statement writes no post-defs at all: the post-defs
of the statement are first written by its `PostStmt`. -/
theorem PreStmt_switch_post_defs (T : Traversal) (obj : BroObj) (e : Expr)
    (cases : List Case) (c : RD_Decorate) :
    (PreStmt T (.STMT_SWITCH obj e cases) c).2.post_defs = c.post_defs := by
  show (PreStmt_cases obj cases _).1.post_defs = _
  rw [PreStmt_cases_post_defs]
  rfl

/-- For a switch statement without a `default` case and every state of the
stores, also one in which the statement already has post-defs: after
`PostStmt` every definition item of the pre-defs of the statement is in its
post-defs. -/
theorem PostStmt_switch_no_default_items (c : RD_Decorate) (obj : BroObj)
    (e : Expr) (cases : List Case)
    (hnd : cases.any Case.is_default = false) (d : DefinitionItem)
    (hd : (c.PreRDs (some obj)).HasDI d = true) :
    ((PostStmt (.STMT_SWITCH obj e cases) c).2.PostRDs (some obj)).HasDI d =
      true := by
  have hv : (PostStmt_post_rds c (.STMT_SWITCH obj e cases)).1 =
      (PostStmt_cases c false cases (ReachingDefs.empty, false)).1.Union
        (c.PreRDs (some obj)) := by
    simp [PostStmt_post_rds, PostStmt_switch, PostStmt_cases_default_seen, hnd]
  have hm2 : (PostStmt (.STMT_SWITCH obj e cases) c).2.PostRDs (some obj) =
      match c.post_defs.lookup obj with
      | none => (PostStmt_post_rds c (.STMT_SWITCH obj e cases)).1
      | some old => old.AddRDs (PostStmt_post_rds c (.STMT_SWITCH obj e cases)).1 :=
    PostStmt_PostRDs_merge (.STMT_SWITCH obj e cases) c
  rw [hv] at hm2
  obtain ⟨p, hp⟩ := (ReachingDefs.HasDI_iff _ d).mp hd
  have hu := HasPair_Union_right
    (PostStmt_cases c false cases (ReachingDefs.empty, false)).1
    (c.PreRDs (some obj)) d p hp
  have hdi : ((PostStmt_cases c false cases (ReachingDefs.empty, false)).1.Union
      (c.PreRDs (some obj))).HasDI d = true :=
    (ReachingDefs.HasDI_iff _ d).mpr ⟨p, hu⟩
  rw [hm2]
  cases c.post_defs.lookup obj with
  | none => exact hdi
  | some old => exact HasDI_AddRDs_right old _ d hdi

/-- C16: for a switch statement without a `default` case, visited in a state
in which it has no post-defs yet (the post-defs of a statement are written by
the callbacks of that statement only): after `PostStmt` every pair of the
pre-defs of the statement is a pair of its post-defs, with the same definition
point, whatever the post-defs of the case bodies are. -/
theorem PostStmt_switch_no_default (c : RD_Decorate) (obj : BroObj) (e : Expr)
    (cases : List Case) (hnd : cases.any Case.is_default = false)
    (hno : ReachingDefSet.HasRDs c.post_defs obj = false)
    (d : DefinitionItem) (p : DefinitionPoint)
    (hp : (c.PreRDs (some obj)).HasPair d p = true) :
    ((PostStmt (.STMT_SWITCH obj e cases) c).2.PostRDs (some obj)).HasPair
      d p = true := by
  have hv : (PostStmt_post_rds c (.STMT_SWITCH obj e cases)).1 =
      (PostStmt_cases c false cases (ReachingDefs.empty, false)).1.Union
        (c.PreRDs (some obj)) := by
    simp [PostStmt_post_rds, PostStmt_switch, PostStmt_cases_default_seen, hnd]
  have h : (PostStmt (.STMT_SWITCH obj e cases) c).2.PostRDs (some obj) =
      (PostStmt_post_rds c (.STMT_SWITCH obj e cases)).1 :=
    PostStmt_PostRDs (.STMT_SWITCH obj e cases) c hno
  rw [h, hv]
  exact HasPair_Union_right _ _ d p hp

/-- C16, an instance: `switch ( x ) { case 1: print; }` in a state where the
pre-defs of the switch define `x` at statement 1, the switch has no post-defs
and the post-defs of the case body define `x` at statement 2; after `PostStmt`
the post-defs of the switch define `x` at statement 1. -/
theorem PostStmt_switch_no_default_witness :
    ex_cases_no_default.any Case.is_default = false ∧
    ReachingDefSet.HasRDs ex_state_switch_fresh.post_defs 20 = false ∧
    (ex_state_switch_fresh.PreRDs (some 20)).HasPair (.root ex_x) (.stmt 1) =
      true ∧
    (ex_state_switch_fresh.PostRDs (some 21)).HasPair (.root ex_x) (.stmt 2) =
      true ∧
    ((PostStmt ex_switch_no_default ex_state_switch_fresh).2.PostRDs
      (some 20)).HasPair (.root ex_x) (.stmt 1) = true :=
  ⟨by decide, by decide, by decide, by decide,
   PostStmt_switch_no_default ex_state_switch_fresh 20 ex_name_x
     ex_cases_no_default (by decide) (by decide) (.root ex_x) (.stmt 1)
     (by decide)⟩

/-- What `PostStmt` computes for a switch statement that has a `default`
case and no post-defs yet: the post-defs of the last case body that may reach
its end, and the empty set when there is none. -/
theorem PostStmt_switch_default_last (c : RD_Decorate) (obj : BroObj)
    (e : Expr) (cases : List Case)
    (hd : cases.any Case.is_default = true)
    (hno : ReachingDefSet.HasRDs c.post_defs obj = false) :
    (PostStmt (.STMT_SWITCH obj e cases) c).2.PostRDs (some obj) =
      match (cases.filter
        (fun cs => (ControlReachesEnd cs.Body false false).1)).getLast? with
      | some cs => c.PostRDs (some cs.Body.obj)
      | none => ReachingDefs.empty := by
  have h := PostStmt_PostRDs (.STMT_SWITCH obj e cases) c hno
  refine h.trans ?_
  have hv : (PostStmt_post_rds c (.STMT_SWITCH obj e cases)).1 =
      (PostStmt_cases c false cases (ReachingDefs.empty, false)).1 := by
    simp [PostStmt_post_rds, PostStmt_switch, PostStmt_cases_default_seen, hd]
  rw [hv, PostStmt_cases_last]

/-- C17, the code at the failing input: in
`switch ( x ) { case 1: print; default: print; }` both case bodies may reach
their end and the switch has no post-defs yet; the post-defs of the first body
are empty and those of the second define `x`. After `PostStmt` the post-defs
of the switch are those of the second body and define `x`, although the
intersection of the two does not. -/
theorem PostStmt_switch_keeps_last_case :
    ex_cases_default.any Case.is_default = true ∧
    ex_cases_default.all
      (fun cs => (ControlReachesEnd cs.Body false false).1) = true ∧
    ReachingDefSet.HasRDs ex_state_switch_cases.post_defs 80 = false ∧
    ((ex_state_switch_cases.PostRDs (some 81)).Intersect
      (ex_state_switch_cases.PostRDs (some 82))).HasPair
        (.root ex_x) (.stmt 1) = false ∧
    (PostStmt ex_switch_default ex_state_switch_cases).2.PostRDs (some 80) =
      ex_state_switch_cases.PostRDs (some 82) ∧
    ((PostStmt ex_switch_default ex_state_switch_cases).2.PostRDs
      (some 80)).HasPair (.root ex_x) (.stmt 1) = true := by
  refine ⟨by decide, by decide, by decide, by decide, ?_, by decide⟩
  exact PostStmt_switch_default_last ex_state_switch_cases 80 ex_name_x
    ex_cases_default (by decide) (by decide)

/-! ## `PreStmt`: installing the pre-defs -/

/-- The pre-defs of the node at `o` after the first lines of `PreStmt`: the
predecessor's reaching defs when the node had no pre-defs, else the old
pre-defs with the predecessor's merged in. -/
theorem Pre_install_PreRDs (o : BroObj) (c : RD_Decorate) :
    (Pre_install o c).PreRDs (some o) =
      match c.pre_defs.lookup o with
      | none => c.PredecessorRDs
      | some old => old.AddRDs c.PredecessorRDs := by
  cases h : c.pre_defs.lookup o with
  | none =>
    unfold Pre_install RD_Decorate.PreRDs RD_Decorate.AddPreRDs
    exact RDs_AddRDs_of_no_entry c.pre_defs o _
      (by simp [ReachingDefSet.HasRDs, h])
  | some old =>
    unfold Pre_install RD_Decorate.PreRDs RD_Decorate.AddPreRDs
    exact RDs_AddRDs_of_entry c.pre_defs o _ old h

theorem HasPair_AddRDs (old r : ReachingDefs) (d : DefinitionItem)
    (p : DefinitionPoint) :
    (old.AddRDs r).HasPair d p = true ↔
      (old.HasPair d p = true ∨
        (old.HasDI d = false ∧ r.HasPair d p = true)) := by
  rw [ReachingDefs.HasPair_iff, ReachingDefs.HasPair_iff,
    ReachingDefs.HasPair_iff, AddRDs_lookup]
  unfold ReachingDefs.HasDI
  cases old.rd_map.lookup d <;> simp

/-- C20, as amended: at the moment `PreStmt(n)` has installed its facts, every
pair of the pre-defs of a node that had none is a pair of the predecessor fact
(the post-defs of `last_obj` when not empty, else its pre-defs); and every
pair of the pre-defs of a node that was seeded earlier is a pair of the seeded
pre-defs or a pair of the predecessor fact. -/
theorem Pre_install_facts (o : BroObj) (c : RD_Decorate) :
    (ReachingDefSet.HasRDs c.pre_defs o = false →
      ∀ (d : DefinitionItem) (p : DefinitionPoint),
        ((Pre_install o c).PreRDs (some o)).HasPair d p = true →
          c.PredecessorRDs.HasPair d p = true) ∧
    (∀ seeded : ReachingDefs, c.pre_defs.lookup o = some seeded →
      ∀ (d : DefinitionItem) (p : DefinitionPoint),
        ((Pre_install o c).PreRDs (some o)).HasPair d p = true →
          (seeded.HasPair d p = true ∨
            c.PredecessorRDs.HasPair d p = true)) ∧
    c.PredecessorRDs =
      (if (c.PostRDs c.last_obj).Size > 0 then c.PostRDs c.last_obj
       else c.PreRDs c.last_obj) ∧
    (∀ (T : Traversal) (exprs : List Expr),
      (PreStmt T (.STMT_PRINT o exprs) c).2 = Pre_install o c ∧
      (PreStmt T (.STMT_NEXT o) c).2 = Pre_install o c ∧
      (PreStmt T (.STMT_BREAK o) c).2 = Pre_install o c) := by
  refine ⟨?_, ?_, rfl, ?_⟩
  · intro hno d p hp
    rw [Pre_install_PreRDs] at hp
    unfold ReachingDefSet.HasRDs at hno
    cases hl : c.pre_defs.lookup o with
    | none => rw [hl] at hp; exact hp
    | some v => rw [hl] at hno; simp at hno
  · intro seeded hs d p hp
    rw [Pre_install_PreRDs, hs] at hp
    rcases (HasPair_AddRDs seeded _ d p).mp hp with h | h
    · exact Or.inl h
    · exact Or.inr h.2
  · intro T exprs
    exact ⟨rfl, rfl, rfl⟩

/-- C20, two instances of the amended statement: a statement without pre-defs
that follows `local t;`, whose installed pair (`t`, statement 91) is a pair of
the predecessor fact; and the body of the case of
`switch ( 1 ) { case type count as y: print; }`, which `PreStmt` of the switch
seeded, whose installed pair (`y`, the switch) is a pair of the seed. -/
theorem Pre_install_facts_witness :
    ex_state_after_init.PredecessorRDs.HasPair (.root ex_t) (.stmt 91) =
      true ∧
    (ex_seeded_case_body.HasPair (.root ex_y) (.stmt 70) = true ∨
      ex_state_at_case_body.PredecessorRDs.HasPair (.root ex_y) (.stmt 70) =
        true) :=
  ⟨(Pre_install_facts 99 ex_state_after_init).1 (by decide) (.root ex_t)
     (.stmt 91) (by decide),
   (Pre_install_facts 71 ex_state_at_case_body).2.1 ex_seeded_case_body
     (by rfl) (.root ex_y) (.stmt 70) (by decide)⟩

/-- C20, the claim as stated fails: in
`switch ( 1 ) { case type count as y: print; }`, after `PreStmt` of the
switch and the visit of the switch expression, `PreStmt` of the case body
installs pre-defs that have the pair (`y`, the switch), which the predecessor
fact of the body does not have. -/
theorem PreStmt_seeded_counterexample :
    ex_state_at_case_body =
      (PostExpr ex_const
        (PreExpr ex_no_traversal ex_const
          (PreStmt ex_no_traversal ex_switch_type ex_state_empty).2).2).2 ∧
    ((PreStmt ex_no_traversal (.STMT_PRINT 71 [])
      ex_state_at_case_body).2.PreRDs (some 71)).HasPair
        (.root ex_y) (.stmt 70) = true ∧
    ex_state_at_case_body.PredecessorRDs.HasPair (.root ex_y) (.stmt 70) =
      false := by
  refine ⟨rfl, by decide, by decide⟩

/-- C18, the code at the failing input: in `if ( 1 ) local t; else print;`,
with `t` a table, `PreStmt` of the `if` seeds the pre-defs of the false branch
with the pre-defs of the `if`, which do not define `t`; the true branch
defines `t`; and when the traversal then enters the false branch, `PreStmt`
merges the post-defs of the true branch into its pre-defs, which then define
`t`. -/
theorem PreStmt_false_branch_gets_true_branch_defs :
    (PreStmt ex_no_traversal ex_if_init ex_state_empty).2.PreRDs (some 92) =
      (PreStmt ex_no_traversal ex_if_init ex_state_empty).2.PreRDs (some 90) ∧
    ex_state_at_else =
      (PostStmt ex_init_t
        (PreStmt ex_no_traversal ex_init_t
          (PostExpr ex_const
            (PreExpr ex_no_traversal ex_const
              (PreStmt ex_no_traversal ex_if_init
                ex_state_empty).2).2).2).2).2 ∧
    (ex_state_at_else.PreRDs (some 90)).HasDI (.root ex_t) = false ∧
    (ex_state_at_else.PreRDs (some 92)).HasDI (.root ex_t) = false ∧
    (ex_state_at_else.PostRDs (some 91)).HasPair (.root ex_t) (.stmt 91) =
      true ∧
    ((PreStmt ex_no_traversal (.STMT_PRINT 92 [])
      ex_state_at_else).2.PreRDs (some 92)).HasPair (.root ex_t) (.stmt 91) =
        true := by
  refine ⟨rfl, rfl, by decide, by decide, by decide, by decide⟩

/-! ## `PreExpr` of a field access -/

/-- What the `EXPR_FIELD` case of `PreExpr` prints, after the traversal of the
operand `r`: the "no reaching def" diagnostic exactly when `r` has a
definition item and that item has no child called `fn`. The pre-defs of the
expression are not consulted. -/
theorem PreExpr_field_out (T : Traversal) (e r : Expr) (fn : String)
    (c : RD_Decorate) :
    (PreExpr_field T e r fn c).out =
      (T.expr r c).out ++
        (match (GetExprReachingDef (T.expr r c).items r).1 with
          | some r_def =>
            if ((GetExprReachingDef (T.expr r c).items r).2.FindField
                r_def fn).isSome
            then [] else [Diagnostic.no_reaching_def e]
          | none => []) := by
  unfold PreExpr_field
  simp only
  cases hg : (GetExprReachingDef (T.expr r c).items r).1 with
  | none => simp
  | some r_def =>
    simp only
    cases hf : (GetExprReachingDef (T.expr r c).items r).2.FindField r_def fn with
    | none => simp [RD_Decorate.print]
    | some x => simp

/-- C19, the code at the failing input: the field item `r$a` exists (it was
created by an assignment in another branch) and the pre-defs installed for the
expression `r$a` do not have it; `PreExpr` of `r$a` prints no "no reaching
def" diagnostic (the only output is the missing pre-def of `r`, printed by the
visit of the operand). -/
theorem PreExpr_field_no_diagnostic :
    ex_state_field.items.FindField (.root ex_r) "a" =
      some (.field (.root ex_r) "a") ∧
    ((PreExpr ex_traverse_leaf ex_field_a ex_state_field).2.PreRDs
      (some 111)).HasDI (.field (.root ex_r) "a") = false ∧
    (PreExpr ex_traverse_leaf ex_field_a ex_state_field).2.out =
      [Diagnostic.has_no_pre ex_r ex_r_name] := by
  refine ⟨by decide, by decide, rfl⟩

/-! ## `ReachingDefSet::RDs` and `ReachingDefSet::AddRDs` -/

/-- C21: in every store, `AddRDs(o, rd)` on a node without an entry makes
`RDs(o)` equal to `rd`; on a node with the entry `old` it makes the pairs of
`RDs(o)` the pairs of `old` together with the pairs of `rd` for the definition
items that `old` lacks, and nothing else; `RDs` of the null pointer and of a
node without an entry is the empty set. -/
theorem AddRDs_then_RDs (a_i : AnalyInfo) (o : BroObj) (rd : ReachingDefs) :
    (ReachingDefSet.HasRDs a_i o = false →
      ReachingDefSet.RDs (ReachingDefSet.AddRDs a_i o rd) (some o) = rd) ∧
    (∀ old : ReachingDefs, a_i.lookup o = some old →
      ∀ (d : DefinitionItem) (p : DefinitionPoint),
        (ReachingDefSet.RDs (ReachingDefSet.AddRDs a_i o rd) (some o)).HasPair
            d p = true ↔
          (old.HasPair d p = true ∨
            (old.HasDI d = false ∧ rd.HasPair d p = true))) ∧
    ReachingDefSet.RDs a_i none = ReachingDefs.empty ∧
    (ReachingDefSet.HasRDs a_i o = false →
      ReachingDefSet.RDs a_i (some o) = ReachingDefs.empty) := by
  refine ⟨RDs_AddRDs_of_no_entry a_i o rd, ?_, rfl, ?_⟩
  · intro old hold d p
    rw [RDs_AddRDs_of_entry a_i o rd old hold]
    exact HasPair_AddRDs old rd d p
  · intro hno
    unfold ReachingDefSet.HasRDs at hno
    unfold ReachingDefSet.RDs
    cases hl : a_i.lookup o with
    | none => simp [hl]
    | some v => rw [hl] at hno; simp at hno

/-- C21, an instance: the node at 20 has the entry that defines `x` at
statement 2, and the set that defines `x` at statement 1 and `y` at statement
2 is added. -/
theorem AddRDs_then_RDs_witness :
    ∀ (d : DefinitionItem) (p : DefinitionPoint),
      (ReachingDefSet.RDs
          (ReachingDefSet.AddRDs ex_state_switch_old.post_defs 20 ex_rd_xy)
          (some 20)).HasPair d p = true ↔
        (ex_rd2.HasPair d p = true ∨
          (ex_rd2.HasDI d = false ∧ ex_rd_xy.HasPair d p = true)) :=
  (AddRDs_then_RDs ex_state_switch_old.post_defs 20 ex_rd_xy).2.1 ex_rd2
    (by rfl)

/-! ## `PreExpr` of a name -/

theorem CreateField_i2d_map (m : DefItems) (di : DefinitionItem) (fn : String)
    (t : BroType) : (m.CreateField di fn t).2.i2d_map = m.i2d_map := by
  unfold DefItems.CreateField
  cases m.FindField di fn <;> rfl

mutual
theorem CreateRecordRDs_type_i2d_map (assume_full : Bool)
    (dp : DefinitionPoint) :
    ∀ (t : BroType) (di : DefinitionItem) (rhs_di : Option DefinitionItem)
      (s : DefItems × ReachingDefs),
      (CreateRecordRDs_type assume_full dp t di rhs_di s).1.i2d_map =
        s.1.i2d_map
  | .record rt, di, rhs_di, s => by
    rw [CreateRecordRDs_type]
    exact CreateRecordRDs_loop_i2d_map assume_full dp rt di rhs_di s
  | .base _, _, _, _ => by
    rw [CreateRecordRDs_type]
theorem CreateRecordRDs_loop_i2d_map (assume_full : Bool)
    (dp : DefinitionPoint) :
    ∀ (rt : FieldList) (di : DefinitionItem) (rhs_di : Option DefinitionItem)
      (s : DefItems × ReachingDefs),
      (CreateRecordRDs_loop assume_full dp rt di rhs_di s).1.i2d_map =
        s.1.i2d_map
  | .nil, _, _, _ => by
    rw [CreateRecordRDs_loop]
  | .cons n_i t_i has_default rest, di, rhs_di, s => by
    rw [CreateRecordRDs_loop]
    by_cases hdef : field_is_defined assume_full (rhs_FindField s.1 rhs_di n_i)
        has_default = false
    · rw [if_pos hdef]
      exact CreateRecordRDs_loop_i2d_map assume_full dp rest di rhs_di s
    · rw [if_neg hdef, CreateRecordRDs_loop_i2d_map assume_full dp rest]
      by_cases ht : t_i.Tag = TypeTag.TYPE_RECORD
      · rw [if_pos ht, CreateRecordRDs_type_i2d_map assume_full dp t_i]
        exact CreateField_i2d_map s.1 di n_i t_i
      · rw [if_neg ht]
        exact CreateField_i2d_map s.1 di n_i t_i
end

theorem GetIDReachingDef_lookup (m : DefItems) (id : ID) :
    (GetIDReachingDef m id).2.i2d_map.lookup id =
      some (GetIDReachingDef m id).1 := by
  unfold GetIDReachingDef
  cases h : m.i2d_map.lookup id with
  | none => simp [AList.lookup_insert]
  | some di => simp [h]

theorem GetIDReachingDef_root (m : DefItems) (id : ID)
    (h : m.i2d_map.lookup id = none ∨
      m.i2d_map.lookup id = some (.root id)) :
    (GetIDReachingDef m id).1 = .root id := by
  unfold GetIDReachingDef
  rcases h with h | h <;> simp [h]

/-- The set that `AddRDWithInit` produces has the item it was called on. -/
theorem AddRDWithInit_HasDI_self (m : DefItems) (rd : ReachingDefs)
    (di : DefinitionItem) (dp : DefinitionPoint) (assume_full : Bool)
    (init : Option AssignExpr) :
    (AddRDWithInit m rd di dp assume_full init).2.HasDI di = true := by
  obtain ⟨q, hq⟩ := (ReachingDefs.HasDI_iff _ di).mp (HasDI_AddRD_self rd di dp)
  have h2 := AddRDWithInit_preserves m (rd.AddRD di dp) di dp assume_full
    init di q hq
  have h3 : (rd.AddRD di dp).AddRD di dp = rd.AddRD di dp :=
    AddRD_of_mem _ di dp ((mem_AddRD rd di di dp).mpr (Or.inl rfl))
  have h4 : AddRDWithInit m (rd.AddRD di dp) di dp assume_full init =
      AddRDWithInit m rd di dp assume_full init := by
    unfold AddRDWithInit
    rw [h3]
  rw [h4] at h2
  exact (ReachingDefs.HasDI_iff _ di).mpr ⟨q, h2⟩

/-- Without a right-hand side, `AddRDWithInit` leaves the map from identifiers
to items as it was. -/
theorem AddRDWithInit_none_i2d_map (m : DefItems) (rd : ReachingDefs)
    (di : DefinitionItem) (dp : DefinitionPoint) (assume_full : Bool) :
    (AddRDWithInit m rd di dp assume_full none).1.i2d_map = m.i2d_map := by
  unfold AddRDWithInit
  by_cases hrec : di.Type.Tag ≠ TypeTag.TYPE_RECORD
  · simp [hrec]
  · simp only [hrec, if_false]
    unfold CreateRecordRDs
    exact CreateRecordRDs_type_i2d_map assume_full dp di.Type di none _

theorem HasRD_eq_RDs (a_i : AnalyInfo) (o : BroObj) (d : DefinitionItem) :
    ReachingDefSet.HasRD a_i o d = (ReachingDefSet.RDs a_i (some o)).HasDI d := by
  unfold ReachingDefSet.HasRD ReachingDefSet.RDs
  cases hl : a_i.lookup o with
  | none => simp [hl, ReachingDefs.HasDI, ReachingDefs.empty]
  | some rds => simp [hl]

theorem RDs_AddRDs_HasDI (a_i : AnalyInfo) (o : BroObj) (rd : ReachingDefs)
    (d : DefinitionItem) (h : rd.HasDI d = true) :
    (ReachingDefSet.RDs (ReachingDefSet.AddRDs a_i o rd) (some o)).HasDI d =
      true := by
  cases hl : a_i.lookup o with
  | none =>
    rw [RDs_AddRDs_of_no_entry a_i o rd (by simp [ReachingDefSet.HasRDs, hl])]
    exact h
  | some old =>
    rw [RDs_AddRDs_of_entry a_i o rd old hl]
    exact HasDI_AddRDs_right old rd d h

/-- The `EXPR_NAME` case of `PreExpr` for a global identifier: nothing is
printed, and the pre-defs are those of the object with the set that
`AddRDWithInit` produced added for the node. -/
theorem PreExpr_name_global (e : Expr) (obj : BroObj) (id : ID)
    (rd : ReachingDefs) (c : RD_Decorate) (hg : id.is_global = true) :
    (PreExpr_name e obj id rd c).out = c.out ∧
    (PreExpr_name e obj id rd c).pre_defs =
      ReachingDefSet.AddRDs c.pre_defs obj
        (AddRDWithInit_id c.items rd id (.expr obj) true none).2 := by
  have hdi : (AddRDWithInit_id c.items rd id (.expr obj) true none).2.HasDI
      (GetIDReachingDef c.items id).1 = true := by
    unfold AddRDWithInit_id
    exact AddRDWithInit_HasDI_self _ _ _ _ _ _
  have hmap : (AddRDWithInit_id c.items rd id (.expr obj) true
      none).1.i2d_map.lookup id = some (GetIDReachingDef c.items id).1 := by
    unfold AddRDWithInit_id
    rw [AddRDWithInit_none_i2d_map]
    exact GetIDReachingDef_lookup c.items id
  have hpre : (({ c with items := (AddRDWithInit_id c.items rd id (.expr obj)
      true none).1 } : RD_Decorate).AddPreRDs obj
        (AddRDWithInit_id c.items rd id (.expr obj) true none).2).HasPreRD
          obj id = true := by
    unfold RD_Decorate.HasPreRD ReachingDefSet.HasRD_id GetConstIDReachingDef
      RD_Decorate.AddPreRDs
    simp only [hmap]
    rw [HasRD_eq_RDs]
    exact RDs_AddRDs_HasDI _ _ _ _ hdi
  unfold PreExpr_name
  simp only [hg, if_true, hpre, Bool.not_true, Bool.false_eq_true, if_false]
  by_cases ht : id.type.Tag = TypeTag.TYPE_RECORD
  · simp only [ht, if_true]
    exact ⟨rfl, rfl⟩
  · simp only [ht, if_false]
    exact ⟨rfl, rfl⟩

/-- C22: for a name expression whose identifier is global, in every state of
the stores and for every `last_obj`, `PreExpr` prints nothing, so no "has no
pre" diagnostic, and afterwards the pre-defs of the expression have the
definition item of the identifier, which is its root item when the identifier
had no item or had its root item. -/
theorem PreExpr_global_name (T : Traversal) (c : RD_Decorate) (obj : BroObj)
    (id : ID) (hg : id.is_global = true) :
    (PreExpr T (.EXPR_NAME obj id) c).2.out = c.out ∧
    ((PreExpr T (.EXPR_NAME obj id) c).2.PreRDs (some obj)).HasDI
      (GetIDReachingDef c.items id).1 = true ∧
    ((c.items.i2d_map.lookup id = none ∨
        c.items.i2d_map.lookup id = some (.root id)) →
      ((PreExpr T (.EXPR_NAME obj id) c).2.PreRDs (some obj)).HasDI
        (.root id) = true) := by
  have h := PreExpr_name_global (.EXPR_NAME obj id) obj id c.PredecessorRDs
    (Pre_install obj c) hg
  have hout : (PreExpr T (.EXPR_NAME obj id) c).2.out = c.out := h.1
  have hpre : (PreExpr T (.EXPR_NAME obj id) c).2.pre_defs =
      ReachingDefSet.AddRDs (Pre_install obj c).pre_defs obj
        (AddRDWithInit_id c.items c.PredecessorRDs id (.expr obj) true
          none).2 := h.2
  have hdi : (AddRDWithInit_id c.items c.PredecessorRDs id (.expr obj) true
      none).2.HasDI (GetIDReachingDef c.items id).1 = true := by
    unfold AddRDWithInit_id
    exact AddRDWithInit_HasDI_self _ _ _ _ _ _
  have hmain : ((PreExpr T (.EXPR_NAME obj id) c).2.PreRDs (some obj)).HasDI
      (GetIDReachingDef c.items id).1 = true := by
    unfold RD_Decorate.PreRDs
    rw [hpre]
    exact RDs_AddRDs_HasDI _ _ _ _ hdi
  refine ⟨hout, hmain, ?_⟩
  intro hroot
  rw [GetIDReachingDef_root c.items id hroot] at hmain
  exact hmain

/-- C22, an instance: the global record `g` visited from the empty analyzer
object. -/
theorem PreExpr_global_name_witness :
    (PreExpr ex_no_traversal (.EXPR_NAME 120 ex_g) ex_state_empty).2.out =
      ex_state_empty.out ∧
    ((PreExpr ex_no_traversal (.EXPR_NAME 120 ex_g)
      ex_state_empty).2.PreRDs (some 120)).HasDI (.root ex_g) = true :=
  ⟨(PreExpr_global_name ex_no_traversal ex_state_empty 120 ex_g (by rfl)).1,
   (PreExpr_global_name ex_no_traversal ex_state_empty 120 ex_g
      (by rfl)).2.2 (Or.inl (by rfl))⟩

/-! ## `CheckLHS` -/

theorem CheckLHS_list_fst (a : AssignExpr) (exprs : List Expr)
    (st : DefItems × ReachingDefs) :
    (CheckLHS_list a exprs st).1 = exprs.all Expr.IsName := by
  induction exprs generalizing st with
  | nil => rfl
  | cons e rest ih =>
    cases e <;> simp [CheckLHS_list, Expr.IsName, ih]

theorem CheckLHS_field_fst (T : Traversal) (a : AssignExpr) (obj : BroObj)
    (r : Expr) (fn : String) (ft : BroType)
    (st : RD_Decorate × ReachingDefs) :
    (CheckLHS T a (.EXPR_FIELD obj r fn ft) st).1 =
      (r.IsName || r.IsField) := by
  cases r with
  | EXPR_NAME o id =>
    simp only [CheckLHS, Expr.IsName, Bool.true_or]
    split <;> rfl
  | EXPR_FIELD o op f t =>
    simp only [CheckLHS, Expr.IsName, Expr.IsField, Bool.or_true]
    split <;> rfl
  | _ => simp [CheckLHS, Expr.IsName, Expr.IsField]

theorem CheckLHS_index_fst (T : Traversal) (a : AssignExpr) (obj : BroObj)
    (aggr index : Expr) (t : BroType) (st : RD_Decorate × ReachingDefs) :
    (CheckLHS T a (.EXPR_INDEX obj aggr index t) st).1 = aggr.IsName := by
  cases aggr <;> simp [CheckLHS, Expr.IsName]

/-- C23: `CheckLHS` returns true if and only if the target, after unwrapping
any number of reference wrappers, is a name, or a list expression every
element of which is a name, or a field access whose operand is a name or a
field access, or an index expression whose aggregate operand is a name; for
every other shape it returns false. -/
theorem CheckLHS_recognizes (T : Traversal) (a : AssignExpr) :
    ∀ (lhs : Expr) (st : RD_Decorate × ReachingDefs),
      (CheckLHS T a lhs st).1 = lhs_recognized lhs
  | .EXPR_REF _ op _, st => by
    rw [CheckLHS, lhs_recognized]
    exact CheckLHS_recognizes T a op st
  | .EXPR_NAME _ _, st => by simp [CheckLHS, lhs_recognized]
  | .EXPR_LIST _ exprs _, st => by
    simp [CheckLHS, lhs_recognized, CheckLHS_list_fst]
  | .EXPR_FIELD obj r fn ft, st => by
    rw [CheckLHS_field_fst, lhs_recognized]
  | .EXPR_INDEX obj aggr index t, st => by
    rw [CheckLHS_index_fst, lhs_recognized]
  | .EXPR_ASSIGN _ _ _ _, st => by simp [CheckLHS, lhs_recognized]
  | .EXPR_ADD_TO _ _ _ _, st => by simp [CheckLHS, lhs_recognized]
  | .EXPR_HAS_FIELD _ _ _ _, st => by simp [CheckLHS, lhs_recognized]
  | .EXPR_CALL _ _ _ _, st => by simp [CheckLHS, lhs_recognized]
  | .EXPR_LAMBDA _ _, st => by simp [CheckLHS, lhs_recognized]
  | .EXPR_OTHER _ _ _, st => by simp [CheckLHS, lhs_recognized]

/-! ## The reachability oracle: must reach implies may reach -/

theorem ControlReachesEnd_switch_fst (obj : BroObj) (e : Expr)
    (cases : List Case) (ignore_break : Bool) :
    (ControlReachesEnd (.STMT_SWITCH obj e cases) true ignore_break).1 =
        cases.all (fun c => (ControlReachesEnd c.Body true true).1) ∧
    (ControlReachesEnd (.STMT_SWITCH obj e cases) false ignore_break).1 =
        (cases.any (fun c => (ControlReachesEnd c.Body false true).1) ||
          !cases.any Case.is_default) := by
  refine ⟨?_, ?_⟩
  · rw [ControlReachesEnd]
    simp [(ControlReachesEnd_cases_spec cases true true false).1]
  · rw [ControlReachesEnd]
    have h := ControlReachesEnd_cases_spec cases false false false
    simp only [Bool.false_eq_true, if_false, Bool.false_or] at h
    simp only [h.1, h.2]
    cases cases.any (fun c => (ControlReachesEnd c.Body false true).1) <;>
      cases cases.any Case.is_default <;> simp

theorem ControlReachesEnd_list_fst (obj : BroObj) (L : List Stmt)
    (is_definite ignore_break : Bool) :
    (ControlReachesEnd (.STMT_LIST obj L) is_definite ignore_break).1 =
        L.all (fun s => (ControlReachesEnd s is_definite ignore_break).1) ∧
    (ControlReachesEnd (.STMT_EVENT_BODY_LIST obj L) is_definite
        ignore_break).1 =
        L.all (fun s => (ControlReachesEnd s is_definite ignore_break).1) := by
  refine ⟨?_, ?_⟩
  · rw [ControlReachesEnd, ControlReachesEnd_stmts_fst]
    simp
  · rw [ControlReachesEnd, ControlReachesEnd_stmts_fst]
    simp

mutual
theorem ControlReachesEnd_definite_may_stmt :
    ∀ (s : Stmt) (ignore_break : Bool),
      (ControlReachesEnd s true ignore_break).1 = true →
      (ControlReachesEnd s false ignore_break).1 = true
  | .STMT_NEXT _, _, h => by simp [ControlReachesEnd] at h
  | .STMT_RETURN _ _, _, h => by simp [ControlReachesEnd] at h
  | .STMT_BREAK _, _, h => by simpa [ControlReachesEnd] using h
  | .STMT_IF _ _ t f, _, h => by
    rw [ControlReachesEnd] at h ⊢
    simp only [if_true, Bool.and_eq_true] at h
    simp only [Bool.false_eq_true, if_false, Bool.or_eq_true]
    exact Or.inl (ControlReachesEnd_definite_may_stmt t false h.1)
  | .STMT_SWITCH obj e cases, ib, h => by
    rw [(ControlReachesEnd_switch_fst obj e cases ib).1] at h
    rw [(ControlReachesEnd_switch_fst obj e cases ib).2]
    have hall := ControlReachesEnd_definite_may_cases cases h
    cases cases with
    | nil => rfl
    | cons c rest =>
      simp only [List.all_cons, Bool.and_eq_true] at hall
      simp [hall.1]
  | .STMT_LIST obj L, ib, h => by
    rw [(ControlReachesEnd_list_fst obj L true ib).1] at h
    rw [(ControlReachesEnd_list_fst obj L false ib).1]
    exact ControlReachesEnd_definite_may_stmts L ib h
  | .STMT_EVENT_BODY_LIST obj L, ib, h => by
    rw [(ControlReachesEnd_list_fst obj L true ib).2] at h
    rw [(ControlReachesEnd_list_fst obj L false ib).2]
    exact ControlReachesEnd_definite_may_stmts L ib h
  | .STMT_PRINT _ _, _, _ => by simp [ControlReachesEnd]
  | .STMT_EVENT _ _, _, _ => by simp [ControlReachesEnd]
  | .STMT_WHEN _ _ _, _, _ => by simp [ControlReachesEnd]
  | .STMT_EXPR _ _, _, _ => by simp [ControlReachesEnd]
  | .STMT_FOR _ _ _ _ _, _, _ => by simp [ControlReachesEnd]
  | .STMT_WHILE _ _ _, _, _ => by simp [ControlReachesEnd]
  | .STMT_INIT _ _, _, _ => by simp [ControlReachesEnd]
  | .STMT_FALLTHROUGH _, _, _ => by simp [ControlReachesEnd]
  | .STMT_ADD _ _, _, _ => by simp [ControlReachesEnd]
  | .STMT_DELETE _ _, _, _ => by simp [ControlReachesEnd]
  | .STMT_OTHER _, _, _ => by simp [ControlReachesEnd]
theorem ControlReachesEnd_definite_may_stmts :
    ∀ (L : List Stmt) (ignore_break : Bool),
      L.all (fun s => (ControlReachesEnd s true ignore_break).1) = true →
      L.all (fun s => (ControlReachesEnd s false ignore_break).1) = true
  | [], _, _ => rfl
  | s :: rest, ib, h => by
    simp only [List.all_cons, Bool.and_eq_true] at h ⊢
    exact ⟨ControlReachesEnd_definite_may_stmt s ib h.1,
      ControlReachesEnd_definite_may_stmts rest ib h.2⟩
theorem ControlReachesEnd_definite_may_cases :
    ∀ (cases : List Case),
      cases.all (fun c => (ControlReachesEnd c.Body true true).1) = true →
      cases.all (fun c => (ControlReachesEnd c.Body false true).1) = true
  | [], _ => rfl
  | (.mk _ _ body) :: rest, h => by
    simp only [List.all_cons, Bool.and_eq_true, Case.Body] at h ⊢
    exact ⟨ControlReachesEnd_definite_may_stmt body true h.1,
      ControlReachesEnd_definite_may_cases rest h.2⟩
end

/-- C24: for every statement and every `ignore_break`, if `ControlReachesEnd`
is true with `is_definite` true, it is true with `is_definite` false. -/
theorem ControlReachesEnd_definite_may (s : Stmt) (ignore_break : Bool)
    (h : (ControlReachesEnd s true ignore_break).1 = true) :
    (ControlReachesEnd s false ignore_break).1 = true :=
  ControlReachesEnd_definite_may_stmt s ignore_break h

/-- C24, an instance: the switch `ex_switch_default`, whose two case bodies
definitely reach their end. -/
theorem ControlReachesEnd_definite_may_witness :
    (ControlReachesEnd ex_switch_default true false).1 = true ∧
    (ControlReachesEnd ex_switch_default false false).1 = true :=
  ⟨by decide, ControlReachesEnd_definite_may ex_switch_default false (by decide)⟩

/-! ## `CheckLHS` on a target it rejects -/

/-- What the loop of the `EXPR_LIST` case leaves: the definitions installed
for the names that precede the first element that is not a name. -/
theorem CheckLHS_list_snd (a : AssignExpr) (exprs : List Expr)
    (st : DefItems × ReachingDefs) :
    (CheckLHS_list a exprs st).2 =
      AddRDWithInit_ids st.1 st.2 (leading_names exprs) (.expr a.obj) := by
  induction exprs generalizing st with
  | nil => rfl
  | cons e rest ih =>
    cases e with
    | EXPR_NAME o id =>
      rw [CheckLHS_list, ih, leading_names]
      rfl
    | _ => rfl

/-- When `CheckLHS` returns false on a target that is not a list expression
under its reference wrappers, the callback object and `rd` are as before the
call. -/
theorem CheckLHS_false_unchanged (T : Traversal) (a : AssignExpr) :
    ∀ (lhs : Expr) (st : RD_Decorate × ReachingDefs),
      (CheckLHS T a lhs st).1 = false → lhs.unref.IsList = false →
      (CheckLHS T a lhs st).2 = st
  | .EXPR_REF _ op _, st, h, hl => by
    rw [CheckLHS] at h ⊢
    rw [Expr.unref] at hl
    exact CheckLHS_false_unchanged T a op st h hl
  | .EXPR_NAME _ _, st, h, _ => by simp [CheckLHS] at h
  | .EXPR_LIST _ _ _, st, _, hl => by simp [Expr.unref, Expr.IsList] at hl
  | .EXPR_FIELD obj r fn ft, st, h, _ => by
    rw [CheckLHS_field_fst] at h
    cases r <;> simp [Expr.IsName, Expr.IsField] at h <;> simp [CheckLHS]
  | .EXPR_INDEX obj aggr index t, st, h, _ => by
    rw [CheckLHS_index_fst] at h
    cases aggr <;> simp [Expr.IsName] at h <;> simp [CheckLHS]
  | .EXPR_ASSIGN _ _ _ _, st, _, _ => by simp [CheckLHS]
  | .EXPR_ADD_TO _ _ _ _, st, _, _ => by simp [CheckLHS]
  | .EXPR_HAS_FIELD _ _ _ _, st, _, _ => by simp [CheckLHS]
  | .EXPR_CALL _ _ _ _, st, _, _ => by simp [CheckLHS]
  | .EXPR_LAMBDA _ _, st, _, _ => by simp [CheckLHS]
  | .EXPR_OTHER _ _ _, st, _, _ => by simp [CheckLHS]

/-- What `CheckLHS` leaves in `rd` on a list expression, whatever it returns:
the definitions installed for the names that precede the first element that is
not a name. -/
theorem CheckLHS_list_rd (T : Traversal) (a : AssignExpr) (obj : BroObj)
    (exprs : List Expr) (t : BroType) (c : RD_Decorate) (rd : ReachingDefs) :
    (CheckLHS T a (.EXPR_LIST obj exprs t) (c, rd)).2.2 =
      (AddRDWithInit_ids c.items rd (leading_names exprs) (.expr a.obj)).2 := by
  rw [CheckLHS]
  simp only
  rw [CheckLHS_list_snd]

/-- C25, the code at the failing input: for the list `[x, 1]`, whose first
element is a name and whose second is not, `CheckLHS` returns false, and `rd`,
which had no entry for `x`, has the pair (`x`, the assignment) after the
call. -/
theorem CheckLHS_list_installs_before_rejecting :
    (CheckLHS ex_no_traversal ex_assign_list ex_list_x_const
      (ex_state_empty, ReachingDefs.empty)).1 = false ∧
    ReachingDefs.empty.HasDI (.root ex_x) = false ∧
    (CheckLHS ex_no_traversal ex_assign_list ex_list_x_const
      (ex_state_empty, ReachingDefs.empty)).2.2.HasPair
        (.root ex_x) (.expr 131) = true := by
  refine ⟨by decide, by decide, by decide⟩

/-! ## The operations that add to a set keep its pairs -/

theorem HasPair_unique (rd : ReachingDefs) (d : DefinitionItem)
    (p q : DefinitionPoint) (hp : rd.HasPair d p = true)
    (hq : rd.HasPair d q = true) : q = p := by
  rw [ReachingDefs.HasPair_iff] at hp hq
  rw [hp] at hq
  exact (Option.some.inj hq).symm

theorem HasPair_AddRD_of_HasPair (rd : ReachingDefs) (di d : DefinitionItem)
    (dp p : DefinitionPoint) (h : rd.HasPair d p = true) :
    (rd.AddRD di dp).HasPair d p = true := by
  rw [ReachingDefs.HasPair_iff] at h ⊢
  rw [ReachingDefs.lookup_AddRD, h]
  rfl

theorem HasPair_AddRDs_of_HasPair (rd r : ReachingDefs) (d : DefinitionItem)
    (p : DefinitionPoint) (h : rd.HasPair d p = true) :
    (rd.AddRDs r).HasPair d p = true := by
  rw [ReachingDefs.HasPair_iff] at h ⊢
  exact lookup_AddRDs_of_some rd r d p h

theorem HasPair_CreateRecordRDs_of_HasPair (m : DefItems) (rd : ReachingDefs)
    (di : DefinitionItem) (assume_full : Bool) (dp : DefinitionPoint)
    (rhs_di : Option DefinitionItem) (d : DefinitionItem) (p : DefinitionPoint)
    (h : rd.HasPair d p = true) :
    (CreateRecordRDs m rd di assume_full dp rhs_di).2.HasPair d p = true := by
  rw [ReachingDefs.HasPair_iff] at h ⊢
  unfold CreateRecordRDs
  exact CreateRecordRDs_type_preserves assume_full dp di.Type di rhs_di (m, rd)
    d p h

/-- C26: a pair (d, p) that the set has before a call of `AddRD`, `AddRDs`,
`AddRDWithInit` or `CreateRecordRDs` is a pair of the set afterwards, and `p`
is the only point the set then has for `d`: the operations add entries only
for definition items that the set did not have. -/
theorem additions_keep_pairs (rd : ReachingDefs) (d : DefinitionItem)
    (p : DefinitionPoint) (h : rd.HasPair d p = true) :
    (∀ (di : DefinitionItem) (dp : DefinitionPoint),
      (rd.AddRD di dp).HasPair d p = true ∧
      ∀ q, (rd.AddRD di dp).HasPair d q = true → q = p) ∧
    (∀ r : ReachingDefs,
      (rd.AddRDs r).HasPair d p = true ∧
      ∀ q, (rd.AddRDs r).HasPair d q = true → q = p) ∧
    (∀ (m : DefItems) (di : DefinitionItem) (dp : DefinitionPoint)
        (assume_full : Bool) (init : Option AssignExpr),
      (AddRDWithInit m rd di dp assume_full init).2.HasPair d p = true ∧
      ∀ q, (AddRDWithInit m rd di dp assume_full init).2.HasPair d q = true →
        q = p) ∧
    (∀ (m : DefItems) (di : DefinitionItem) (assume_full : Bool)
        (dp : DefinitionPoint) (rhs_di : Option DefinitionItem),
      (CreateRecordRDs m rd di assume_full dp rhs_di).2.HasPair d p = true ∧
      ∀ q, (CreateRecordRDs m rd di assume_full dp rhs_di).2.HasPair d q =
        true → q = p) := by
  refine ⟨?_, ?_, ?_, ?_⟩
  · intro di dp
    have h1 := HasPair_AddRD_of_HasPair rd di d dp p h
    exact ⟨h1, fun q hq => HasPair_unique _ d p q h1 hq⟩
  · intro r
    have h1 := HasPair_AddRDs_of_HasPair rd r d p h
    exact ⟨h1, fun q hq => HasPair_unique _ d p q h1 hq⟩
  · intro m di dp assume_full init
    have h1 := AddRDWithInit_preserves m rd di dp assume_full init d p h
    exact ⟨h1, fun q hq => HasPair_unique _ d p q h1 hq⟩
  · intro m di assume_full dp rhs_di
    have h1 := HasPair_CreateRecordRDs_of_HasPair m rd di assume_full dp
      rhs_di d p h
    exact ⟨h1, fun q hq => HasPair_unique _ d p q h1 hq⟩

/-- C26, an instance: the set that defines `x` at statement 1, with `x` added
at statement 2, merged with the set that defines `x` at statement 2, and used
to install the record `r`. -/
theorem additions_keep_pairs_witness :
    (ex_rd1.AddRD (.root ex_x) (.stmt 2)).HasPair (.root ex_x) (.stmt 1) =
      true ∧
    (ex_rd1.AddRDs ex_rd2).HasPair (.root ex_x) (.stmt 1) = true ∧
    (AddRDWithInit ex_no_items ex_rd1 (.root ex_r) (.stmt 2) true
      none).2.HasPair (.root ex_x) (.stmt 1) = true ∧
    (CreateRecordRDs ex_no_items ex_rd1 (.root ex_r) true (.stmt 2)
      none).2.HasPair (.root ex_x) (.stmt 1) = true :=
  ⟨((additions_keep_pairs ex_rd1 (.root ex_x) (.stmt 1) (by decide)).1
      (.root ex_x) (.stmt 2)).1,
   ((additions_keep_pairs ex_rd1 (.root ex_x) (.stmt 1) (by decide)).2.1
      ex_rd2).1,
   ((additions_keep_pairs ex_rd1 (.root ex_x) (.stmt 1) (by decide)).2.2.1
      ex_no_items (.root ex_r) (.stmt 2) true none).1,
   ((additions_keep_pairs ex_rd1 (.root ex_x) (.stmt 1) (by decide)).2.2.2
      ex_no_items (.root ex_r) true (.stmt 2) none).1⟩

end ScriptAnaly
